import Mathlib

/-!
# Build-result assembly of the Earthly builder

A shallow embedding of `builder/builder.go`: the request constructor `bf` of
`convertAndBuild`, the sequencing of the build, push and output phases, the helpers
that select the per-phase state of a target, and the local output
(`saveArtifactLocally`, `tempEarthlyOutDir`, `onArtifact`); of the package
`llbfactory` with `adjust_copy_src.go`; and of the method `solveImage` of
`withlocaldockerrun.go`.

Conventions of the embedding.

* Calls into collaborators (the graph compiler, the solver, JSON marshalling, the
  platform helpers, the file system) are fields of `Env`; a call that can fail in Go
  returns `Option`, and `none` aborts the enclosing function just as
  `return nil, err` does.
* `gwclient.Result` is kept as the ordered log of its `AddRef` and `AddMeta` calls.
  The Go maps are recovered from the log by letting the last write win.
* The variables that `bf` captures from `convertAndBuild` (`mts`, the three index
  counters, `localImages`, `manifestLists`, `destPathWhitelist`) form `Closure`; they
  outlive a single invocation of `bf`.
* `fmt.Sprintf` with `%s` and `%d` is string concatenation with `toString`.
* The two buffered consoles of `convertAndBuild` are kept as the lists of the lines
  printed to them; the phase headers and footers, which go to the unbuffered console,
  are left out.
* The local output is embedded over `Os`: the packages `os`, `path` and
  `path/filepath` as functions, where what a call observes or achieves may depend on
  the list of the calls that succeeded before it. Inside `convertAndBuild` the two
  methods remain the fields of `Env` of the same names.
-/

namespace Earthly

/-! ## Data model (package `states`, `domain`, `specs`) -/

/-- Counterpart of `specs.Platform`. -/
structure Platform where
  OS : String
  Architecture : String
deriving DecidableEq, Repr

/-- Counterpart of `pllb.State`: a handle, together with the marshal default that
`SetMarshalDefaults(llb.IgnoreCache)` sets. -/
structure State where
  id : String
  ignoreCache : Bool := false
deriving DecidableEq, Repr

/-- The method `SetMarshalDefaults(llb.IgnoreCache)` of a state. -/
def State.SetMarshalDefaultsIgnoreCache (s : State) : State :=
  { s with ignoreCache := true }

/-- Counterpart of `gwclient.Reference`, a content handle returned by the solver. -/
abbrev Reference := String

/-- Counterpart of `domain.Target`, reduced to what the builder asks of it:
the text of `String()`, the answers of `IsRemote()` and `IsLocalExternal()`, and the
field `LocalPath`. -/
structure Target where
  Name : String
  IsRemote : Bool := false
  IsLocalExternal : Bool := false
  LocalPath : String := ""
deriving DecidableEq, Repr

/-- Counterpart of `domain.Artifact`. -/
structure Artifact where
  Target : Target
  Artifact : String
deriving DecidableEq, Repr

/-- Counterpart of `states.SaveImage`; `Image` stands for the image configuration
that is marshalled to JSON. -/
structure SaveImage where
  State : State
  Image : String := ""
  DockerTag : String
  Push : Bool := false
  InsecurePush : Bool := false
  CacheHint : Bool := false
  HasPushDependencies : Bool := false
  DoSave : Bool := true
deriving DecidableEq, Repr

/-- Counterpart of `states.SaveLocal`. -/
structure SaveLocal where
  DestPath : String
  ArtifactPath : String
  Index : Nat := 0
  IfExists : Bool := false
deriving DecidableEq, Repr

/-- Counterpart of `states.InteractiveSessionKind`. -/
inductive SessionKind where
  | SessionKeep
  | SessionEphemeral
deriving DecidableEq, Repr

/-- Text of a session kind, as printed with `%s`. The constants are declared in
package `states`; their text is taken to be the lower-case name of the kind. -/
def SessionKind.text : SessionKind → String
  | .SessionKeep => "keep"
  | .SessionEphemeral => "ephemeral"

/-- Counterpart of `states.InteractiveSession`. -/
structure InteractiveSession where
  CommandStr : String := ""
  Initialized : Bool := false
  Kind : SessionKind := SessionKind.SessionKeep
  State : State := { id := "" }
deriving DecidableEq, Repr

/-- Counterpart of `states.RunPush`: the deferred push phase of a target. -/
structure RunPush where
  CommandStrs : List String := []
  State : State := { id := "" }
  SaveLocals : List SaveLocal := []
  SaveImages : List SaveImage := []
  InteractiveSession : InteractiveSession := {}
  HasState : Bool := false
deriving DecidableEq, Repr

/-- Counterpart of `states.SingleTarget`. -/
structure SingleTarget where
  ID : String := ""
  Target : Target
  Platform : Option Platform := none
  MainState : State
  ArtifactsState : State := { id := "" }
  SeparateArtifactsState : List State := []
  SaveLocals : List SaveLocal := []
  SaveImages : List SaveImage := []
  RunPush : RunPush := {}
  InteractiveSession : InteractiveSession := {}
  HasDangling : Bool := false
deriving DecidableEq, Repr

/-- Counterpart of `states.MultiTarget`. `Final` is one node of the graph; the nodes
visited before and after it are kept apart so that the pointer test
`sts != mts.Final` is a test on the position in `All()`. -/
structure MultiTarget where
  Before : List SingleTarget := []
  Final : SingleTarget
  After : List SingleTarget := []
deriving DecidableEq, Repr

/-- The method `All()`: every node, each paired with whether it is `mts.Final`. -/
def MultiTarget.AllTagged (mts : MultiTarget) : List (SingleTarget × Bool) :=
  mts.Before.map (fun sts => (sts, false)) ++ (mts.Final, true) ::
    mts.After.map (fun sts => (sts, false))

/-- The method `All()`. -/
def MultiTarget.All (mts : MultiTarget) : List SingleTarget :=
  mts.Before ++ mts.Final :: mts.After

/-! ## Options -/

/-- The fields of `Opt` (the options of the `Builder`) that `convertAndBuild` reads. -/
structure Opt where
  NoCache : Bool := false
  CacheExport : String := ""
  UseFakeDep : Bool := false
  LocalRegistryAddr : String := ""
deriving DecidableEq, Repr

/-- The fields of `BuildOpt` that `convertAndBuild` reads. -/
structure BuildOpt where
  PrintPhases : Bool := false
  Push : Bool := false
  NoOutput : Bool := false
  OnlyFinalTargetImages : Bool := false
  OnlyArtifact : Option Artifact := none
  OnlyArtifactDestPath : String := ""
deriving DecidableEq, Repr

/-- A call of `saveArtifactLocally`, by its arguments. -/
structure SaveCall where
  artifact : Artifact
  indexOutDir : String
  destPath : String
  salt : String
  ifExists : Bool
deriving DecidableEq, Repr

/-- The collaborators of the builder. -/
structure Env where
  /-- The value of `gwClient.BuildOpts().SessionID`. -/
  SessionID : String := "s"
  /-- The function `earthfile2llb.Earthfile2LLB` applied to the requested target. -/
  Earthfile2LLB : Option MultiTarget
  /-- The function `llbutil.StateToRef`. -/
  StateToRef : State → Option Platform → Option Reference
  /-- The call `json.Marshal(saveImage.Image)`. -/
  Marshal : String → Option String
  /-- The function `llbutil.PlatformWithDefault`. -/
  PlatformWithDefault : Option Platform → Platform
  /-- The function `llbutil.PlatformWithDefaultToString`. -/
  PlatformWithDefaultToString : Option Platform → String
  /-- The function `platformSpecificImageName`. -/
  platformSpecificImageName : String → Platform → Option String
  /-- The method `String()` of an artifact. -/
  ArtifactString : Artifact → String
  /-- The method `StringCanonical()` of a target, coloured by the console. -/
  TargetStr : SingleTarget → String
  /-- The method `tempEarthlyOutDir` of the builder. -/
  tempEarthlyOutDir : Option String
  /-- The method `saveArtifactLocally` of the builder, given the calls made before
  this one: the lines it prints to the buffered console, or `none` when it fails. -/
  saveArtifactLocally : List SaveCall → SaveCall → Option (List String)
  /-- Whether `loadDockerManifest` succeeds for a parent image. -/
  loadDockerManifestOk : String → Bool
  /-- Whether the solve of a phase succeeds once its requests are constructed. -/
  solveOk : String → Bool
  /-- How many more times than once the engine invokes the request constructor while
  it executes the build phase. -/
  buildRetries : Nat := 0
  /-- How many more times than once the engine invokes the request constructor while
  it executes the push phase. -/
  pushRetries : Nat := 0

/-! ## The request under construction -/

/-- Counterpart of `gwclient.Result`: the calls of `AddRef` and of `AddMeta`, oldest
first. -/
structure Result where
  Refs : List (String × Reference) := []
  Metadata : List (String × String) := []
deriving DecidableEq, Repr

/-- The method `AddRef`. -/
def Result.AddRef (res : Result) (k : String) (ref : Reference) : Result :=
  { res with Refs := res.Refs ++ [(k, ref)] }

/-- The method `AddMeta`. -/
def Result.AddMeta (res : Result) (k : String) (v : String) : Result :=
  { res with Metadata := res.Metadata ++ [(k, v)] }

/-- The keys under which references were registered, oldest first. -/
def Result.keys (res : Result) : List String :=
  res.Refs.map Prod.fst

/-- Counterpart of the type `manifest`. -/
structure manifest where
  imageName : String
  platform : Platform
deriving DecidableEq, Repr

/-- The variables of `convertAndBuild` that the closure `bf` captures and updates. -/
structure Closure where
  mts : Option MultiTarget := none
  depIndex : Nat := 0
  imageIndex : Nat := 0
  dirIndex : Nat := 0
  /-- Writes to `localImages`: local registry pull name, final name. -/
  localImages : List (String × String) := []
  /-- Appends to `manifestLists`: parent image, child image. -/
  manifestLists : List (String × manifest) := []
  /-- Destinations set to `true` in `destPathWhitelist`. -/
  destPathWhitelist : List String := []
deriving DecidableEq, Repr

/-- The state threaded through one invocation of `bf`: the result under
construction and the captured variables. -/
structure BfState where
  res : Result := {}
  c : Closure := {}
deriving DecidableEq, Repr


/-- The builder: its options, the flag `builtMain`, which `convertAndBuild` sets
once the build phase has returned, and the temporary output directory with the latch
`outDirOnce` (set once `tempEarthlyOutDir` has run its initialisation). -/
structure Builder where
  opt : Opt := {}
  builtMain : Bool := false
  outDirOnce : Bool := false
  outDir : String := ""
deriving DecidableEq, Repr

/-! ## Per-phase selection -/

/-- The method `targetPhaseState`. -/
def Builder.targetPhaseState (b : Builder) (sts : SingleTarget) : State :=
  if b.builtMain then sts.RunPush.State else sts.MainState

/-- The method `targetPhaseArtifacts`. -/
def Builder.targetPhaseArtifacts (b : Builder) (sts : SingleTarget) : List SaveLocal :=
  if b.builtMain then sts.RunPush.SaveLocals else sts.SaveLocals

/-- The method `targetPhaseImages`. -/
def Builder.targetPhaseImages (b : Builder) (sts : SingleTarget) : List SaveImage :=
  if b.builtMain then sts.RunPush.SaveImages else sts.SaveImages

/-- The method `targetPhaseInteractiveSession`. -/
def Builder.targetPhaseInteractiveSession (b : Builder) (sts : SingleTarget) :
    InteractiveSession :=
  if b.builtMain then sts.RunPush.InteractiveSession else sts.InteractiveSession

/-- The method `stateToRef`. -/
def Builder.stateToRef (b : Builder) (env : Env) (state : State)
    (platform : Option Platform) : Option Reference :=
  let state := if b.opt.NoCache && !b.builtMain then state.SetMarshalDefaultsIgnoreCache
    else state
  env.StateToRef state platform

/-- The method `artifactStateToRef`. -/
def Builder.artifactStateToRef (b : Builder) (env : Env) (state : State)
    (platform : Option Platform) : Option Reference :=
  let state := if b.opt.NoCache || b.builtMain then state.SetMarshalDefaultsIgnoreCache
    else state
  env.StateToRef state platform

/-! ## The request constructor `bf` -/

/-- The constant `exptypes.ExporterImageConfigKey`. -/
def ExporterImageConfigKey : String := "containerimage.config"

/-- Conditional `AddMeta`. -/
def Result.AddMetaIf (res : Result) (cond : Bool) (k v : String) : Result :=
  if cond then res.AddMeta k v else res

/-- The tags for which the first loop of `bf` sets `isMultiPlatform[tag] = true`. -/
def isMultiPlatform (b : Builder) (all : List SingleTarget) : List String :=
  (all.filter fun sts => sts.Platform.isSome).flatMap fun sts =>
    ((b.targetPhaseImages sts).filter fun saveImage =>
      saveImage.DockerTag != "" && saveImage.DoSave).map fun saveImage =>
        saveImage.DockerTag

/-- The flag `shouldPush` of `bf`. -/
def shouldPush (opt : BuildOpt) (sts : SingleTarget) (saveImage : SaveImage) : Bool :=
  opt.Push && saveImage.Push && !sts.Target.IsRemote && saveImage.DockerTag != "" &&
    saveImage.DoSave

/-- The flag `shouldExport` of `bf`; `isFinal` is the outcome of `sts == mts.Final`. -/
def shouldExport (opt : BuildOpt) (isFinal : Bool) (saveImage : SaveImage) : Bool :=
  !opt.NoOutput && opt.OnlyArtifact.isNone && !(opt.OnlyFinalTargetImages && !isFinal) &&
    saveImage.DockerTag != "" && saveImage.DoSave

/-- The flag `useCacheHint` of `bf`. -/
def useCacheHint (b : Builder) (saveImage : SaveImage) : Bool :=
  saveImage.CacheHint && b.opt.CacheExport != ""

/-- The branch of `bf` for an image whose tag is not multi-platform. -/
def singleImage (b : Builder) (env : Env) (doPush doExport : Bool)
    (saveImage : SaveImage) (ref : Reference) (config : String) (s : BfState) : BfState :=
  let refKey := "image-" ++ toString s.c.imageIndex
  let refPre := "ref/" ++ refKey
  let imageIndex := s.c.imageIndex + 1
  let localRegPullID := "sess-" ++ env.SessionID ++ "/sp:img" ++ toString imageIndex
  let res := s.res
  let res := if doExport then
      (if b.opt.LocalRegistryAddr != "" then
        res.AddMeta (refPre ++ "/export-image-local-registry") localRegPullID
      else res.AddMeta (refPre ++ "/export-image") "true")
    else res
  let res := res.AddMeta (refPre ++ "/image.name") saveImage.DockerTag
  let res := if doPush then
      (res.AddMeta (refPre ++ "/export-image-push") "true").AddMetaIf
        saveImage.InsecurePush (refPre ++ "/insecure-push") "true"
    else res
  let res := res.AddMeta (refPre ++ "/" ++ ExporterImageConfigKey) config
  let res := res.AddMeta (refPre ++ "/image-index") (toString imageIndex)
  let res := res.AddRef refKey ref
  { res := res,
    c := { s.c with
      imageIndex := imageIndex,
      localImages := s.c.localImages ++ [(localRegPullID, saveImage.DockerTag)] } }

/-- The part "For push" of the multi-platform branch of `bf`. -/
def multiImagePush (platformStr : String) (saveImage : SaveImage) (ref : Reference)
    (config : String) (s : BfState) : BfState :=
  let refKey := "image-" ++ toString s.c.imageIndex
  let refPre := "ref/" ++ refKey
  let imageIndex := s.c.imageIndex + 1
  let res := s.res.AddMeta (refPre ++ "/image.name") saveImage.DockerTag
  let res := res.AddMeta (refPre ++ "/platform") platformStr
  let res := res.AddMeta (refPre ++ "/export-image-push") "true"
  let res := res.AddMetaIf saveImage.InsecurePush (refPre ++ "/insecure-push") "true"
  let res := res.AddMeta (refPre ++ "/" ++ ExporterImageConfigKey) config
  let res := res.AddMeta (refPre ++ "/image-index") (toString imageIndex)
  let res := res.AddRef refKey ref
  { res := res, c := { s.c with imageIndex := imageIndex } }

/-- The part "For local" of the multi-platform branch of `bf`. -/
def multiImageExport (b : Builder) (env : Env) (platform : Platform)
    (saveImage : SaveImage) (ref : Reference) (config : String) (s : BfState) :
    Option BfState :=
  let refKey := "image-" ++ toString s.c.imageIndex
  let refPre := "ref/" ++ refKey
  let imageIndex := s.c.imageIndex + 1
  match env.platformSpecificImageName saveImage.DockerTag platform with
  | none => none
  | some platformImgName =>
    match env.platformSpecificImageName
        ("sess-" ++ env.SessionID ++ "/mp:img" ++ toString imageIndex) platform with
    | none => none
    | some localRegPullID =>
      let res := if b.opt.LocalRegistryAddr != "" then
          s.res.AddMeta (refPre ++ "/export-image-local-registry") localRegPullID
        else s.res.AddMeta (refPre ++ "/export-image") "true"
      let res := res.AddMeta (refPre ++ "/image.name") platformImgName
      let res := res.AddMeta (refPre ++ "/" ++ ExporterImageConfigKey) config
      let res := res.AddMeta (refPre ++ "/image-index") (toString imageIndex)
      let res := res.AddRef refKey ref
      some { res := res,
             c := { s.c with
               imageIndex := imageIndex,
               localImages := s.c.localImages ++ [(localRegPullID, platformImgName)],
               manifestLists := s.c.manifestLists ++
                 [(saveImage.DockerTag,
                   { imageName := platformImgName, platform := platform })] } }

/-- The body of the loop of `bf` over the images of a target. -/
def saveImageStep (b : Builder) (env : Env) (opt : BuildOpt) (multi : List String)
    (sts : SingleTarget) (isFinal : Bool) (saveImage : SaveImage) (s : BfState) :
    Option BfState :=
  let doPush := shouldPush opt sts saveImage
  let doExport := shouldExport opt isFinal saveImage
  let hint := useCacheHint b saveImage
  if (!doPush && !doExport && !hint) || (!doPush && saveImage.HasPushDependencies) then
    -- Short-circuit.
    some s
  else
    match b.stateToRef env saveImage.State sts.Platform with
    | none => none
    | some ref =>
      match env.Marshal saveImage.Image with
      | none => none
      | some config =>
        if !multi.contains saveImage.DockerTag then
          some (singleImage b env doPush doExport saveImage ref config s)
        else
          let platform := env.PlatformWithDefault sts.Platform
          let platformStr := env.PlatformWithDefaultToString sts.Platform
          let s := if doPush then multiImagePush platformStr saveImage ref config s else s
          if doExport then multiImageExport b env platform saveImage ref config s
          else some s

/-- The loop of `bf` over the images of a target. -/
def saveImagesLoop (b : Builder) (env : Env) (opt : BuildOpt) (multi : List String)
    (sts : SingleTarget) (isFinal : Bool) : List SaveImage → BfState → Option BfState
  | [], s => some s
  | saveImage :: rest, s =>
    match saveImageStep b env opt multi sts isFinal saveImage s with
    | none => none
    | some s1 => saveImagesLoop b env opt multi sts isFinal rest s1

/-- The body of the loop of `bf` over the local outputs of a target. -/
def saveLocalStep (b : Builder) (env : Env) (sts : SingleTarget) (saveLocal : SaveLocal)
    (s : BfState) : Option BfState :=
  match sts.SeparateArtifactsState[saveLocal.Index]? with
  | none => none
  | some state =>
    match b.artifactStateToRef env state sts.Platform with
    | none => none
    | some ref =>
      let refKey := "dir-" ++ toString s.c.dirIndex
      let refPre := "ref/" ++ refKey
      let res := s.res.AddRef refKey ref
      let artifact : Artifact := { Target := sts.Target, Artifact := saveLocal.ArtifactPath }
      let res := res.AddMeta (refPre ++ "/artifact") (env.ArtifactString artifact)
      let res := res.AddMeta (refPre ++ "/src-path") saveLocal.ArtifactPath
      let res := res.AddMeta (refPre ++ "/dest-path") saveLocal.DestPath
      let res := res.AddMeta (refPre ++ "/export-dir") "true"
      let res := res.AddMeta (refPre ++ "/dir-index") (toString s.c.dirIndex)
      some { res := res,
             c := { s.c with
               destPathWhitelist := s.c.destPathWhitelist ++ [saveLocal.DestPath],
               dirIndex := s.c.dirIndex + 1 } }

/-- The loop of `bf` over the local outputs of a target. -/
def saveLocalsLoop (b : Builder) (env : Env) (sts : SingleTarget) :
    List SaveLocal → BfState → Option BfState
  | [], s => some s
  | saveLocal :: rest, s =>
    match saveLocalStep b env sts saveLocal s with
    | none => none
    | some s1 => saveLocalsLoop b env sts rest s1

/-- The condition `performSaveLocals` of `bf`. -/
def performSaveLocals (opt : BuildOpt) : Bool :=
  !opt.NoOutput && !opt.OnlyFinalTargetImages && opt.OnlyArtifact.isNone

/-- The condition under which `bf` forces a target through a `dep-N` reference. -/
def needsDep (b : Builder) (sts : SingleTarget) : Bool :=
  (sts.HasDangling && !b.opt.UseFakeDep) || (b.builtMain && sts.RunPush.HasState)

/-- The `dep-N` part of the body of the loop of `bf` over the targets. -/
def depStep (b : Builder) (env : Env) (sts : SingleTarget) (s : BfState) :
    Option BfState :=
  if needsDep b sts then
    match b.stateToRef env (b.targetPhaseState sts) sts.Platform with
    | none => none
    | some depRef =>
      let refKey := "dep-" ++ toString s.c.depIndex
      some { res := s.res.AddRef refKey depRef,
             c := { s.c with depIndex := s.c.depIndex + 1 } }
  else some s

/-- The interactive-session part of the body of the loop of `bf` over the targets. -/
def ephemeralStep (b : Builder) (env : Env) (sts : SingleTarget) (s : BfState) :
    Option BfState :=
  let targetInteractiveSession := b.targetPhaseInteractiveSession sts
  if targetInteractiveSession.Initialized &&
      targetInteractiveSession.Kind == SessionKind.SessionEphemeral then
    match b.stateToRef env targetInteractiveSession.State sts.Platform with
    | none => none
    | some ref => some { s with res := s.res.AddRef "ephemeral" ref }
  else some s

/-- The body of the loop of `bf` over the targets. -/
def targetStep (b : Builder) (env : Env) (opt : BuildOpt) (multi : List String)
    (sts : SingleTarget) (isFinal : Bool) (s : BfState) : Option BfState :=
  match depStep b env sts s with
  | none => none
  | some s1 =>
    match saveImagesLoop b env opt multi sts isFinal (b.targetPhaseImages sts) s1 with
    | none => none
    | some s2 =>
      match (if performSaveLocals opt then
          saveLocalsLoop b env sts (b.targetPhaseArtifacts sts) s2 else some s2) with
      | none => none
      | some s3 => ephemeralStep b env sts s3

/-- The loop of `bf` over the targets. -/
def targetsLoop (b : Builder) (env : Env) (opt : BuildOpt) (multi : List String) :
    List (SingleTarget × Bool) → BfState → Option BfState
  | [], s => some s
  | (sts, isFinal) :: rest, s =>
    match targetStep b env opt multi sts isFinal s with
    | none => none
    | some s1 => targetsLoop b env opt multi rest s1

/-- The part of `bf` before the loops: the registration of `main` and of
`final-artifact` for the resolved graph. -/
def bfHead (b : Builder) (env : Env) (opt : BuildOpt) (mts : MultiTarget) :
    Option Result :=
  let res : Result := {}
  match (if !b.builtMain then
      (b.stateToRef env mts.Final.MainState mts.Final.Platform).map
        fun ref => res.AddRef "main" ref
    else some res) with
  | none => none
  | some res =>
    if !opt.NoOutput && opt.OnlyArtifact.isSome && !opt.OnlyFinalTargetImages then
      match b.stateToRef env mts.Final.ArtifactsState mts.Final.Platform with
      | none => none
      | some ref =>
        let refKey := "final-artifact"
        let refPre := "ref/" ++ refKey
        let res := res.AddRef refKey ref
        let res := res.AddMeta (refPre ++ "/export-dir") "true"
        some (res.AddMeta (refPre ++ "/final-artifact") "true")
    else some res

/-- The graph that an invocation of `bf` works on: resolved afresh while `builtMain`
is unset, the captured `mts` afterwards (a nil `mts` makes the invocation fail). -/
def bfGraph (b : Builder) (env : Env) (c : Closure) : Option MultiTarget :=
  if !b.builtMain then env.Earthfile2LLB else c.mts

/-- The closure `bf` of `convertAndBuild`. It returns the request and the updated
captured variables, or `none` where the Go code returns an error. -/
def bf (b : Builder) (env : Env) (opt : BuildOpt) (c : Closure) :
    Option (Result × Closure) :=
  match bfGraph b env c with
  | none => none
  | some mts =>
    let c := { c with mts := some mts }
    match bfHead b env opt mts with
    | none => none
    | some res =>
      let multi := isMultiPlatform b mts.All
      match targetsLoop b env opt multi mts.AllTagged { res := res, c := c } with
      | none => none
      | some s => some (s.res, s.c)

/-! ## Phase sequencing: `convertAndBuild` -/

/-- The constant `PhaseBuild`. -/
def PhaseBuild : String := "2. Build 🔧"

/-- The constant `PhasePush`. -/
def PhasePush : String := "3. Push ⏫"

/-- The invocations of the request constructor made by one solve: the first one and
`retries` more, each starting from the captured variables the previous one left. -/
def invokeAll (bf : Closure → Option (Result × Closure)) :
    Nat → Closure → Option (List Result × Closure)
  | 0, c =>
    match bf c with
    | none => none
    | some (res, c1) => some ([res], c1)
  | retries + 1, c =>
    match bf c with
    | none => none
    | some (res, c1) =>
      match invokeAll bf retries c1 with
      | none => none
      | some (rest, c2) => some (res :: rest, c2)

/-- Modelled from the spec: the method `buildMainMulti` of the solver (file
`solver.go`, absent). It issues one solve request for the phase; the engine invokes
the request constructor one or more times during the solve, and a failure of the
constructor or of the solve is returned as an error. The requests constructed are
returned with the phase they were constructed for. -/
def buildMainMulti (env : Env) (bf : Closure → Option (Result × Closure))
    (retries : Nat) (phase : String) (c : Closure) :
    Option (List (String × Result) × Closure) :=
  match invokeAll bf retries c with
  | none => none
  | some (requests, c1) =>
    if env.solveOk phase then some (requests.map fun res => (phase, res), c1) else none

/-- The buffered consoles, the calls of `saveArtifactLocally` and the local
`dirIndex` of the output part of `convertAndBuild`. -/
structure OutputState where
  pushConsole : List String := []
  outputConsole : List String := []
  saves : List SaveCall := []
  dirIndex : Nat := 0
deriving DecidableEq, Repr

/-- A call of `saveArtifactLocally` with the buffered output console. -/
def callSaveArtifactLocally (env : Env) (call : SaveCall) (o : OutputState) :
    Option OutputState :=
  match env.saveArtifactLocally o.saves call with
  | none => none
  | some lines =>
    some { o with outputConsole := o.outputConsole ++ lines, saves := o.saves ++ [call] }

/-- The loop of the output part over local outputs (`sts.SaveLocals`, and
`sts.RunPush.SaveLocals` when push ran): each is read from `index-<dirIndex>`. -/
def outputSaveLocals (env : Env) (sts : SingleTarget) :
    List SaveLocal → OutputState → Option OutputState
  | [], o => some o
  | saveLocal :: rest, o =>
    match env.tempEarthlyOutDir with
    | none => none
    | some outDir =>
      let artifactDir := outDir ++ "/" ++ ("index-" ++ toString o.dirIndex)
      let call : SaveCall :=
        { artifact := { Target := sts.Target, Artifact := saveLocal.ArtifactPath },
          indexOutDir := artifactDir, destPath := saveLocal.DestPath, salt := sts.ID,
          ifExists := saveLocal.IfExists }
      match callSaveArtifactLocally env call o with
      | none => none
      | some o1 => outputSaveLocals env sts rest { o1 with dirIndex := o1.dirIndex + 1 }

/-- The loop over `mts.Final.SaveImages` of the final-image-only output policy. -/
def outputFinalImages (env : Env) (opt : BuildOpt) (final : SingleTarget) :
    List SaveImage → OutputState → OutputState
  | [], o => o
  | saveImage :: rest, o =>
    let doPush := opt.Push && saveImage.Push && saveImage.DockerTag != "" && saveImage.DoSave
    let doExport := !opt.NoOutput && saveImage.DockerTag != "" && saveImage.DoSave
    if !doPush && !doExport then outputFinalImages env opt final rest o
    else
      let targetStr := env.TargetStr final
      let push := o.pushConsole
      let push := if doPush then
          push ++ ["Pushed image " ++ targetStr ++ " as " ++ saveImage.DockerTag ++ "\n"]
        else push
      let push := if saveImage.Push && !opt.Push then
          push ++ ["Did not push image " ++ saveImage.DockerTag ++ "\n"]
        else push
      outputFinalImages env opt final rest
        { o with
          pushConsole := push,
          outputConsole := o.outputConsole ++
            ["Image " ++ targetStr ++ " output as " ++ saveImage.DockerTag ++ "\n"] }

/-- The loop over `sts.SaveImages` of the full output policy. -/
def outputImages (env : Env) (opt : BuildOpt) (sts : SingleTarget) :
    List SaveImage → OutputState → OutputState
  | [], o => o
  | saveImage :: rest, o =>
    let doPush := opt.Push && saveImage.Push && !sts.Target.IsRemote &&
      saveImage.DockerTag != "" && saveImage.DoSave
    let doExport := !opt.NoOutput && saveImage.DockerTag != "" && saveImage.DoSave
    if !doPush && !doExport then outputImages env opt sts rest o
    else
      let targetStr := env.TargetStr sts
      let push := o.pushConsole
      let push := if doPush then
          push ++ ["Pushed image " ++ targetStr ++ " as " ++ saveImage.DockerTag ++ "\n"]
        else push
      let push := if saveImage.Push && !opt.Push && !sts.Target.IsRemote then
          push ++ ["Did not push image " ++ saveImage.DockerTag ++ "\n"]
        else push
      outputImages env opt sts rest
        { o with
          pushConsole := push,
          outputConsole := o.outputConsole ++
            ["Image " ++ targetStr ++ " output as " ++ saveImage.DockerTag ++ "\n"] }

/-- The lines printed for a deferred push phase that was not executed. -/
def reportSkippedRunPush (rp : RunPush) (o : OutputState) : OutputState :=
  let push := o.pushConsole ++ rp.CommandStrs.map fun commandStr =>
    "Did not execute push command " ++ commandStr ++ "\n"
  let push := push ++ rp.SaveImages.map fun saveImage =>
    "Did not push image " ++ saveImage.DockerTag ++
      " as evaluating the image would have caused a RUN --push to execute"
  let out := o.outputConsole ++ rp.SaveImages.map fun saveImage =>
    "Did not output image " ++ saveImage.DockerTag ++
      " locally, as evaluating the image would have caused a RUN --push to execute"
  let push := if rp.InteractiveSession.Initialized then
      push ++ ["Did not start an " ++ rp.InteractiveSession.Kind.text ++
        " interactive session with command " ++ rp.InteractiveSession.CommandStr ++ "\n"]
    else push
  { o with pushConsole := push, outputConsole := out }

/-- The body of the loop over the targets of the full output policy. -/
def outputTarget (env : Env) (opt : BuildOpt) (sts : SingleTarget) (o : OutputState) :
    Option OutputState :=
  let o := outputImages env opt sts sts.SaveImages o
  match outputSaveLocals env sts sts.SaveLocals o with
  | none => none
  | some o1 =>
    if sts.RunPush.HasState then
      if opt.Push then outputSaveLocals env sts sts.RunPush.SaveLocals o1
      else some (reportSkippedRunPush sts.RunPush o1)
    else some o1

/-- The loop over the targets of the full output policy. -/
def outputTargets (env : Env) (opt : BuildOpt) :
    List SingleTarget → OutputState → Option OutputState
  | [], o => some o
  | sts :: rest, o =>
    match outputTarget env opt sts o with
    | none => none
    | some o1 => outputTargets env opt rest o1

/-- The output part of `convertAndBuild`, up to the flush of the consoles. -/
def outputPhase (env : Env) (opt : BuildOpt) (mts : MultiTarget) : Option OutputState :=
  if opt.NoOutput then
    -- Nothing.
    some {}
  else
    match opt.OnlyArtifact with
    | some onlyArtifact =>
      match env.tempEarthlyOutDir with
      | none => none
      | some outDir =>
        callSaveArtifactLocally env
          { artifact := onlyArtifact, indexOutDir := outDir,
            destPath := opt.OnlyArtifactDestPath, salt := mts.Final.ID, ifExists := false }
          {}
    | none =>
      if opt.OnlyFinalTargetImages then
        some (outputFinalImages env opt mts.Final mts.Final.SaveImages {})
      else outputTargets env opt mts.All {}

/-- The parent images of `manifestLists`, each with its children in the order in
which they were appended. -/
def manifestGroups (log : List (String × manifest)) : List (String × List manifest) :=
  (log.map Prod.fst).eraseDups.map fun parent =>
    (parent, (log.filter fun e => e.1 == parent).map Prod.snd)

/-- What one run of `convertAndBuild` did. -/
structure BuildLog where
  /-- The requests constructed by `bf`, each with the phase of its solve. -/
  requests : List (String × Result)
  /-- The lines flushed from `pushConsole`. -/
  pushConsole : List String
  /-- The lines flushed from `outputConsole`. -/
  outputConsole : List String
  /-- The calls of `saveArtifactLocally`. -/
  saves : List SaveCall
  /-- The calls of `loadDockerManifest`. -/
  manifestMerges : List (String × List manifest)
  /-- The captured variables when `convertAndBuild` returns. -/
  closure : Closure
  /-- The returned graph. -/
  mts : MultiTarget
  /-- The builder when `convertAndBuild` returns. -/
  builder : Builder

/-- The push part of `convertAndBuild`: the requests of the push phase, if it is
executed, and the captured variables afterwards. `b` has `builtMain` set. -/
def pushPhase (b : Builder) (env : Env) (opt : BuildOpt) (mts : MultiTarget)
    (c : Closure) : Option (List (String × Result) × Closure) :=
  if opt.Push && opt.OnlyArtifact.isNone && !opt.OnlyFinalTargetImages then
    let hasRunPush := mts.All.any fun sts => sts.RunPush.HasState
    if hasRunPush then buildMainMulti env (bf b env opt) env.pushRetries PhasePush c
    else some ([], c)
  else some ([], c)

/-- The method `convertAndBuild`. -/
def convertAndBuild (b : Builder) (env : Env) (opt : BuildOpt) : Option BuildLog :=
  match buildMainMulti env (bf b env opt) env.buildRetries PhaseBuild {} with
  | none => none
  | some (buildRequests, c1) =>
    let b1 : Builder := { b with builtMain := true }
    match c1.mts with
    | none => none
    | some mts =>
      match pushPhase b1 env opt mts c1 with
      | none => none
      | some (pushRequests, c2) =>
        match outputPhase env opt mts with
        | none => none
        | some o =>
          let merges := manifestGroups c2.manifestLists
          if merges.all fun m => env.loadDockerManifestOk m.1 then
            some { requests := buildRequests ++ pushRequests,
                   pushConsole := o.pushConsole,
                   outputConsole := o.outputConsole,
                   saves := o.saves,
                   manifestMerges := merges,
                   closure := c2,
                   mts := mts,
                   builder := b1 }
          else none

/-! ## Relations and concrete inputs used by the theorems -/

/-- A key and the key that takes its place when the `dep`, `image` and `dir` counters
start `d`, `i` and `l` higher: the fixed keys stay, the numbered keys move up. -/
def KeyShifted (d i l : Nat) (k k2 : String) : Prop :=
  (k2 = k ∧ (k = "main" ∨ k = "final-artifact" ∨ k = "ephemeral")) ∨
  (∃ n, k = "dep-" ++ toString n ∧ k2 = "dep-" ++ toString (n + d)) ∨
  (∃ n, k = "image-" ++ toString n ∧ k2 = "image-" ++ toString (n + i)) ∨
  (∃ n, k = "dir-" ++ toString n ∧ k2 = "dir-" ++ toString (n + l))

/-- Two registered references that hold the same content under shifted keys. -/
def RefShifted (d i l : Nat) (e e2 : String × Reference) : Prop :=
  KeyShifted d i l e.1 e2.1 ∧ e2.2 = e.2

/-- A target without its deferred push phase. -/
def SingleTarget.withoutRunPush (sts : SingleTarget) : SingleTarget :=
  { sts with RunPush := {} }

/-- A graph in which no target has a deferred push phase. -/
def MultiTarget.withoutRunPush (mts : MultiTarget) : MultiTarget :=
  { Before := mts.Before.map SingleTarget.withoutRunPush,
    Final := mts.Final.withoutRunPush,
    After := mts.After.map SingleTarget.withoutRunPush }

/-- Whether the interactive session of a target in the current phase is an
initialised ephemeral one, the condition under which `bf` registers `ephemeral`. -/
def hasEphemeral (b : Builder) (sts : SingleTarget) : Bool :=
  (b.targetPhaseInteractiveSession sts).Initialized &&
    (b.targetPhaseInteractiveSession sts).Kind == SessionKind.SessionEphemeral

/-- Collaborators that always succeed, for a given outcome of the graph compiler. -/
def demoEnv (mts : Option MultiTarget) : Env :=
  { Earthfile2LLB := mts,
    StateToRef := fun st _ => some ("ref:" ++ st.id),
    Marshal := fun image => some image,
    PlatformWithDefault := fun p => p.getD { OS := "linux", Architecture := "amd64" },
    PlatformWithDefaultToString := fun p =>
      (p.getD { OS := "linux", Architecture := "amd64" }).OS ++ "/" ++
        (p.getD { OS := "linux", Architecture := "amd64" }).Architecture,
    platformSpecificImageName := fun tag p =>
      some (tag ++ "_" ++ p.OS ++ "_" ++ p.Architecture),
    ArtifactString := fun a => a.Target.Name ++ "/" ++ a.Artifact,
    TargetStr := fun sts => sts.Target.Name,
    tempEarthlyOutDir := some "out",
    saveArtifactLocally := fun _ _ => some [],
    loadDockerManifestOk := fun _ => true,
    solveOk := fun _ => true }

/-- A dependency whose deferred push phase saves `p` as `p.txt`, visited before a
final target that saves `m` as `m.txt`. -/
def pushLocalGraph : MultiTarget :=
  { Before := [{ Target := { Name := "+dep" }, MainState := { id := "dep" },
                 SeparateArtifactsState := [{ id := "dep-a0" }],
                 RunPush := { HasState := true, State := { id := "dep-push" },
                              CommandStrs := ["upload"],
                              SaveLocals := [{ DestPath := "p.txt", ArtifactPath := "p" }] } }],
    Final := { Target := { Name := "+final" }, MainState := { id := "final" },
               SeparateArtifactsState := [{ id := "final-a0" }],
               SaveLocals := [{ DestPath := "m.txt", ArtifactPath := "m" }] } }

/-- An image that is declared but not saved. -/
def unsavedImage : SaveImage :=
  { State := { id := "img" }, DockerTag := "app:latest", Push := true, CacheHint := true,
    DoSave := false }

/-- A saved image that other push commands depend on. -/
def pushDependentImage : SaveImage :=
  { State := { id := "img" }, DockerTag := "app:latest", Push := true,
    HasPushDependencies := true }

/-- A target without outputs. -/
def plainTarget : SingleTarget :=
  { Target := { Name := "+plain" }, MainState := { id := "plain" } }

/-- What an iteration of `bf` registers, apart from the number in the key: a reference
under a fixed key, or under the next `dep`, `image` or `dir` key. -/
inductive Label where
  | fixed (key : String) (ref : Reference)
  | dep (ref : Reference)
  | image (ref : Reference)
  | dir (ref : Reference)
deriving DecidableEq, Repr

/-- Whether a label takes a `dep` number. -/
def Label.isDep : Label → Bool
  | .dep _ => true
  | _ => false

/-- Whether a label takes an `image` number. -/
def Label.isImage : Label → Bool
  | .image _ => true
  | _ => false

/-- Whether a label takes a `dir` number. -/
def Label.isDir : Label → Bool
  | .dir _ => true
  | _ => false

/-- Whether a label is a fixed key. -/
def Label.isFixed : Label → Bool
  | .fixed _ _ => true
  | _ => false

/-- The references registered for a list of labels when the counters stand at `d`,
`i` and `l`. -/
def renderRefs (d i l : Nat) : List Label → List (String × Reference)
  | [] => []
  | .fixed key ref :: rest => (key, ref) :: renderRefs d i l rest
  | .dep ref :: rest => ("dep-" ++ toString d, ref) :: renderRefs (d + 1) i l rest
  | .image ref :: rest => ("image-" ++ toString i, ref) :: renderRefs d (i + 1) l rest
  | .dir ref :: rest => ("dir-" ++ toString l, ref) :: renderRefs d i (l + 1) rest

/-- A transition of the state of `bf` that registers the references of `labels`, in
order, and advances each counter by the number of keys it numbered. -/
def Follows (labels : List Label) (s s2 : BfState) : Prop :=
  s2.res.Refs = s.res.Refs ++ renderRefs s.c.depIndex s.c.imageIndex s.c.dirIndex labels ∧
  s2.c.depIndex = s.c.depIndex + labels.countP Label.isDep ∧
  s2.c.imageIndex = s.c.imageIndex + labels.countP Label.isImage ∧
  s2.c.dirIndex = s.c.dirIndex + labels.countP Label.isDir ∧
  s2.c.mts = s.c.mts

/-- Labels of the loop over the targets: `n` fixed keys, all of them `ephemeral`. -/
def BodyLabels (n : Nat) (labels : List Label) : Prop :=
  (∀ key ref, Label.fixed key ref ∈ labels → key = "ephemeral") ∧
  labels.countP Label.isFixed = n


/-- Labels of the part of `bf` before the loops: `main` unless `builtMain` is set, then
possibly `final-artifact`. -/
def HeadLabels (b : Builder) (labels : List Label) : Prop :=
  ∃ pre post, labels = pre ++ post ∧
    ((b.builtMain = true ∧ pre = []) ∨
      (b.builtMain = false ∧ ∃ ref, pre = [Label.fixed "main" ref])) ∧
    (post = [] ∨ ∃ ref, post = [Label.fixed "final-artifact" ref])

/-- An initialised ephemeral interactive session on the given state. -/
def ephemeralSession (id : String) : InteractiveSession :=
  { CommandStr := "sh", Initialized := true, Kind := SessionKind.SessionEphemeral,
    State := { id := id } }

/-- Two targets, each with an initialised ephemeral interactive session. -/
def twoSessionsGraph : MultiTarget :=
  { Before := [{ Target := { Name := "+dep" }, MainState := { id := "dep" },
                 InteractiveSession := ephemeralSession "dep-i" }],
    Final := { Target := { Name := "+final" }, MainState := { id := "final" },
               InteractiveSession := ephemeralSession "final-i" } }

/-- A single target that saves one local output. -/
def oneLocalGraph : MultiTarget :=
  { Final := { Target := { Name := "+final" }, MainState := { id := "final" },
               SeparateArtifactsState := [{ id := "final-a0" }],
               SaveLocals := [{ DestPath := "m.txt", ArtifactPath := "m" }] } }

/-- Collaborators that always succeed, with an engine that invokes the request
constructor twice while it executes the build phase. -/
def retryEnv (mts : Option MultiTarget) : Env :=
  { (demoEnv mts) with buildRetries := 1 }

/-- The state of `bf` with another value of the captured `mts`. -/
def BfState.withMts (s : BfState) (m : Option MultiTarget) : BfState :=
  { s with c := { s.c with mts := m } }

/-- The collaborators, with a graph compiler that drops every deferred push phase from
the graph it returns. -/
def Env.withoutRunPush (env : Env) : Env :=
  { env with Earthfile2LLB := env.Earthfile2LLB.map MultiTarget.withoutRunPush }

/-- What the collaborators can observe of the output part: the calls of
`saveArtifactLocally` made so far and the local `dirIndex`. -/
def OutputState.trace (o : OutputState) : List SaveCall × Nat :=
  (o.saves, o.dirIndex)

/-- The lines that the output part prints to the push console for a deferred push
phase that was not executed: one per command, one per image, and one for an initialised
interactive session. -/
def notExecutedLines (rp : RunPush) : List String :=
  (rp.CommandStrs.map fun commandStr =>
    "Did not execute push command " ++ commandStr ++ "\n") ++
  (rp.SaveImages.map fun saveImage =>
    "Did not push image " ++ saveImage.DockerTag ++
      " as evaluating the image would have caused a RUN --push to execute") ++
  (if rp.InteractiveSession.Initialized then
    ["Did not start an " ++ rp.InteractiveSession.Kind.text ++
      " interactive session with command " ++ rp.InteractiveSession.CommandStr ++ "\n"]
  else [])

/-- The artifact and the destination of the call of `saveArtifactLocally` that
materialises a local output of a target. -/
def materialised (sts : SingleTarget) (saveLocal : SaveLocal) : Artifact × String :=
  ({ Target := sts.Target, Artifact := saveLocal.ArtifactPath }, saveLocal.DestPath)

/-- A single target with an explicit platform that saves one image. -/
def onePlatformGraph : MultiTarget :=
  { Final := { Target := { Name := "+final" }, MainState := { id := "final" },
               Platform := some { OS := "linux", Architecture := "arm64" },
               SaveImages := [{ State := { id := "img" }, DockerTag := "app:latest" }] } }

/-- A single target without a platform that saves one image. -/
def noPlatformGraph : MultiTarget :=
  { Final := { Target := { Name := "+final" }, MainState := { id := "final" },
               SaveImages := [{ State := { id := "img" }, DockerTag := "app:latest" }] } }

/-! ## Package `llbfactory` and `adjust_copy_src.go` -/

/-- Counterpart of `llb.LocalOption`: the two options the factory adds, and any other
option by its text. -/
inductive LocalOption where
  | IncludePatterns (patterns : List String)
  | SharedKeyHint (key : String)
  | Other (text : String)
deriving DecidableEq, Repr

/-- Counterpart of the `pllb.State` values a factory hands out: the state that
`pllb.Local(name, opts...)` creates, or any other state. -/
inductive PState where
  | Local (name : String) (opts : List LocalOption)
  | Given (id : String)
deriving DecidableEq, Repr

/-- Counterpart of `LocalFactory`. -/
structure LocalFactory where
  name : String
  sharedKeyHint : String := ""
  opts : List LocalOption := []
deriving DecidableEq, Repr

/-- Counterpart of the interface `Factory` with its two implementations. -/
inductive Factory where
  | Preconstructed (preconstructedState : PState)
  | Local (localFactory : LocalFactory)
deriving DecidableEq, Repr

/-- The function `PreconstructedState`. -/
def PreconstructedState (state : PState) : Factory :=
  Factory.Preconstructed state

/-- The function `Local`. -/
def Local (name : String) (opts : List LocalOption) : Factory :=
  Factory.Local { name := name, opts := opts }

/-- The method `Copy`: the name and the options are copied, the shared key hint is
left at its zero value. -/
def LocalFactory.Copy (f : LocalFactory) : LocalFactory :=
  { name := f.name, opts := f.opts.foldl (fun newOpts o => newOpts ++ [o]) [] }

/-- The method `GetName`. -/
def LocalFactory.GetName (f : LocalFactory) : String :=
  f.name

/-- The method `WithInclude`. -/
def LocalFactory.WithInclude (f : LocalFactory) (patterns : List String) : LocalFactory :=
  let f := f.Copy
  { f with opts := f.opts ++ [LocalOption.IncludePatterns patterns] }

/-- The method `WithSharedKeyHint`. -/
def LocalFactory.WithSharedKeyHint (f : LocalFactory) (key : String) : LocalFactory :=
  let f := f.Copy
  { f with opts := f.opts ++ [LocalOption.SharedKeyHint key], sharedKeyHint := key }

/-- The package variable `sharedLocalStateCache`, a map from shared key hint to state,
kept as the list of its entries, newest first. -/
abbrev StateCache := List (String × PState)

/-- Lookup `sharedLocalStateCache[key]`. -/
def StateCache.get (cache : StateCache) (key : String) : Option PState :=
  List.lookup key cache

/-- Assignment `sharedLocalStateCache[key] = st`. -/
def StateCache.set (cache : StateCache) (key : String) (st : PState) : StateCache :=
  (key, st) :: cache

/-- The method `Construct` of a `LocalFactory`, run under the package mutex: the state
it returns and the cache afterwards. -/
def LocalFactory.Construct (f : LocalFactory) (cache : StateCache) : PState × StateCache :=
  match cache.get f.sharedKeyHint with
  | some st => (st, cache)
  | none =>
    let st := PState.Local f.name f.opts
    (st, cache.set f.sharedKeyHint st)

/-- The method `Construct` of the interface. -/
def Factory.Construct (factory : Factory) (cache : StateCache) : PState × StateCache :=
  match factory with
  | Factory.Preconstructed st => (st, cache)
  | Factory.Local f => f.Construct cache

/-- The constructions of a list of local factories, one after the other. -/
def constructAll (fs : List LocalFactory) (cache : StateCache) : StateCache :=
  fs.foldl (fun c f => (f.Construct c).2) cache

/-- The collaborators of `getSharedKeyHintFromInclude`. -/
structure HashOs where
  /-- The function `inodeutil.GetInodeBestEffort`, a 64-bit number. -/
  GetInodeBestEffort : String → Nat
  /-- The call `hex.EncodeToString(h.Sum(nil))` for the bytes written to the SHA-1 hash
  `h`. -/
  Sha1Hex : List Nat → String

/-- The UTF-8 bytes of a code point. -/
def utf8Encode (c : Nat) : List Nat :=
  if c < 0x80 then [c]
  else if c < 0x800 then [0xC0 + c / 64, 0x80 + c % 64]
  else if c < 0x10000 then [0xE0 + c / 4096, 0x80 + c / 64 % 64, 0x80 + c % 64]
  else [0xF0 + c / 262144, 0x80 + c / 4096 % 64, 0x80 + c / 64 % 64, 0x80 + c % 64]

/-- The conversion `[]byte(s)`. -/
def stringBytes (s : String) : List Nat :=
  s.data.flatMap fun c => utf8Encode c.toNat

/-- The call `binary.LittleEndian.PutUint64(b, v)` on the 8-byte buffer `b`. -/
def putUint64LE (v : Nat) : List Nat :=
  (List.range 8).map fun i => v / 256 ^ i % 256

/-- The closure `addToHash` of `getSharedKeyHintFromInclude`: the bytes written so far,
followed by the path and its inode. -/
def addToHash (os : HashOs) (written : List Nat) (path : String) : List Nat :=
  written ++ stringBytes path ++ putUint64LE (os.GetInodeBestEffort path)

/-- The bytes that `getSharedKeyHintFromInclude` writes to the hash. -/
def hashedBytes (os : HashOs) (name : String) (incl : List String) : List Nat :=
  incl.foldl (addToHash os) (addToHash os [] name)

/-- The function `getSharedKeyHintFromInclude`. -/
def getSharedKeyHintFromInclude (os : HashOs) (name : String) (incl : List String) : String :=
  os.Sha1Hex (hashedBytes os name incl)

/-- The function `strings.HasSuffix`. -/
def HasSuffix (s suffix : String) : Bool :=
  suffix.data.isSuffixOf s.data

/-- The function `createIncludePatterns`. -/
def createIncludePatterns (incl : List String) : List String :=
  incl.map fun inc =>
    if inc = "." then "./*"
    else if HasSuffix inc "/." then String.mk inc.data.dropLast ++ "*"
    else inc

/-- The function `addIncludePathAndSharedKeyHint`. -/
def addIncludePathAndSharedKeyHint (os : HashOs) (factory : Factory) (src : List String) :
    Factory :=
  match factory with
  | Factory.Local localFactory =>
    let includePatterns := createIncludePatterns src
    let sharedKey := getSharedKeyHintFromInclude os localFactory.GetName includePatterns
    Factory.Local ((localFactory.WithInclude includePatterns).WithSharedKeyHint sharedKey)
  | other => other

/-- A stand-in for the collaborators of the hash: every inode is 0 and the text of the
hash lists the bytes written, so that different byte strings get different texts. -/
def plainHashOs : HashOs :=
  { GetInodeBestEffort := fun _ => 0,
    Sha1Hex := fun written => String.join (written.map fun byte => toString byte ++ ".") }

/-- A stand-in for the collaborators of the hash in which the inode of `a`, written
little-endian, is the text `00000000`, and `b` and `a00000000b` have the same inode. -/
def textInodeHashOs : HashOs :=
  { GetInodeBestEffort := fun path => if path = "a" then 0x3030303030303030 else 7,
    Sha1Hex := fun written => String.join (written.map fun byte => toString byte ++ ".") }

/-- A local factory for the build context `ctx` with one further option. -/
def ctxFactory (option : String) : LocalFactory :=
  { name := "ctx", opts := [LocalOption.Other option] }

/-! ## The method `solveImage` of `withLocalDockerRun` -/

/-- Counterpart of the `llb.State` that `solveImage` creates with `llb.Local` for the
tar of a docker image. -/
structure TarContext where
  name : String
  sessionID : String
  platform : Platform
  customName : String
deriving DecidableEq, Repr

/-- The collaborators of `solveImage`. -/
structure SolveOs where
  /-- The function `states.KeyFromHashAndTag`. -/
  KeyFromHashAndTag : SingleTarget → String → Option String
  /-- The call `ioutil.TempDir("/tmp", "earthly-docker-load")`, given the directories
  created before. -/
  TempDir : List String → Option String
  /-- Whether `DockerBuilderFun` succeeds for a graph, a tag and an output file. -/
  DockerBuilderFun : MultiTarget → String → String → Bool
  /-- The function `dockertar.GetID`. -/
  GetID : String → Option String
  /-- The text `hex.EncodeToString` gives for the SHA-256 sum of a string. -/
  Sha256Hex : String → String
  /-- The function `llbutil.DefaultPlatform`. -/
  DefaultPlatform : Platform

/-- Modelled from the spec: the type `states.SolveCache` (package `states`, absent), a
map from the key of `KeyFromHashAndTag` to the handle registered for it, kept as the
list of its entries, newest first. -/
abbrev SolveCache := List (String × TarContext)

/-- Modelled from the spec: the method `Get` of the solve cache. -/
def SolveCache.Get (cache : SolveCache) (solveID : String) : Option TarContext :=
  List.lookup solveID cache

/-- Modelled from the spec: the method `Set` of the solve cache. -/
def SolveCache.Set (cache : SolveCache) (solveID : String) (tarContext : TarContext) :
    SolveCache :=
  (solveID, tarContext) :: cache

/-- What `solveImage` reads and updates: `wdr.tarLoads`, the solve cache of the
converter options, `LocalDirs` of the final target of the converter, the directories
registered for cleanup, and the calls of `DockerBuilderFun` (tag and output file). -/
structure SolveState where
  tarLoads : List TarContext := []
  SolveCache : SolveCache := []
  LocalDirs : List (String × String) := []
  cleanups : List String := []
  builds : List (String × String) := []
deriving DecidableEq, Repr

/-- The method `solveImage`: the error it returns, if any, and the state afterwards. -/
def solveImage (os : SolveOs) (st : SolveState) (mts : MultiTarget) (opName dockerTag : String) :
    Option String × SolveState :=
  match os.KeyFromHashAndTag mts.Final dockerTag with
  | none => (some "state key func", st)
  | some solveID =>
    match st.SolveCache.Get solveID with
    | some tarContext => (none, { st with tarLoads := st.tarLoads ++ [tarContext] })
    | none =>
      match os.TempDir st.cleanups with
      | none => (some "mk temp dir for docker load", st)
      | some outDir =>
        let outFile := outDir ++ "/" ++ "image.tar"
        let st1 : SolveState :=
          { st with cleanups := st.cleanups ++ [outDir],
                    builds := st.builds ++ [(dockerTag, outFile)] }
        if os.DockerBuilderFun mts dockerTag outFile then
          match os.GetID outFile with
          | none => (some "inspect docker tar after build", st1)
          | some dockerImageID =>
            let sessionIDKey := dockerTag ++ "-" ++ dockerImageID
            let sessionID := os.Sha256Hex sessionIDKey
            let tarContext : TarContext :=
              { name := solveID, sessionID := sessionID, platform := os.DefaultPlatform,
                customName := "[internal] docker tar context " ++ opName ++ " " ++ sessionID }
            (none, { st1 with tarLoads := st1.tarLoads ++ [tarContext],
                              LocalDirs := (solveID, outDir) :: st1.LocalDirs,
                              SolveCache := st1.SolveCache.Set solveID tarContext })
        else (some ("build target " ++ opName ++ " for docker load"), st1)

/-- Calls of `solveImage` one after the other, each with its graph, operation name and
tag, whether they succeed or not. -/
def solveImages (os : SolveOs) (calls : List (MultiTarget × String × String)) (st : SolveState) :
    SolveState :=
  calls.foldl (fun s call => (solveImage os s call.1 call.2.1 call.2.2).2) st

/-- Collaborators of `solveImage` that always succeed; the key is the name of the
target and the tag. -/
def demoSolveOs : SolveOs :=
  { KeyFromHashAndTag := fun sts tag => some (sts.Target.Name ++ "#" ++ tag),
    TempDir := fun dirs => some ("/tmp/earthly-docker-load" ++ toString dirs.length),
    DockerBuilderFun := fun _ _ _ => true,
    GetID := fun outFile => some ("id:" ++ outFile),
    Sha256Hex := fun text => "sha:" ++ text,
    DefaultPlatform := { OS := "linux", Architecture := "amd64" } }

/-- A graph with a single target and nothing else. -/
def plainGraph : MultiTarget :=
  { Final := { Target := { Name := "+img" }, MainState := { id := "img" } } }

/-! ## Local output: `saveArtifactLocally`, `tempEarthlyOutDir`, `onArtifact` -/

/-- A call that changes the file system. -/
inductive FsCall where
  | Remove (name : String)
  | RemoveAll (path : String)
  | MkdirAll (path : String)
  | TempDir (name : String)
  | Link (oldname newname : String)
  | Copy (src dest : String)
deriving DecidableEq, Repr

/-- The file system and the path library as the builder sees them. What a call
observes or achieves may depend on the calls that succeeded before it, given as the
first argument; effects of calls that fail are not kept. -/
structure Os where
  /-- The function `filepath.Glob`; `none` for a malformed pattern. -/
  Glob : List FsCall → String → Option (List String)
  /-- The call `os.Stat(name)`: whether `name` is a directory, or `none` on error. -/
  Stat : List FsCall → String → Option Bool
  /-- Whether a call of `os.Remove`, `os.RemoveAll`, `os.MkdirAll`, `os.Link` or
  `reccopy.Copy` succeeds. -/
  Succeeds : List FsCall → FsCall → Bool
  /-- The call `ioutil.TempDir(dir, pattern)`: the name of the new directory. -/
  TempDir : List FsCall → String → String → Option String
  /-- The function `filepath.Join` of two elements. -/
  FilepathJoin : String → String → String
  /-- The function `filepath.FromSlash`. -/
  FilepathFromSlash : String → String
  /-- The function `filepath.IsAbs`. -/
  FilepathIsAbs : String → Bool
  /-- The function `filepath.Base`. -/
  FilepathBase : String → String
  /-- The function `filepath.Rel`. -/
  FilepathRel : String → String → Option String
  /-- The function `path.Join` of two elements. -/
  PathJoin : String → String → String
  /-- The function `path.Base`. -/
  PathBase : String → String
  /-- The function `path.Dir`. -/
  PathDir : String → String
  /-- The method `StringCanonical()` of an artifact, coloured for its target and salt. -/
  ArtifactStr : String → Artifact → String

/-- A call that changes the file system: the calls that succeeded, this one included,
or `none` if it fails. -/
def Os.attempt (os : Os) (call : FsCall) (done : List FsCall) : Option (List FsCall) :=
  if os.Succeeds done call then some (done ++ [call]) else none

/-- The errors of `saveArtifactLocally`, by the message they are created or wrapped
with. -/
inductive SaveError where
  /-- Message `glob`. -/
  | glob
  /-- Message `cannot save artifact ..., since it does not exist`. -/
  | doesNotExist (artifact : Artifact)
  /-- Message `os stat ...`. -/
  | stat (src : String)
  /-- Message `artifact is a wildcard, but AS LOCAL destination does not end with /`. -/
  | wildcardNoSlash
  /-- Message `artifact is a directory, but existing AS LOCAL destination is a file`. -/
  | dirOntoFile
  /-- Message `rm ...`. -/
  | rm (dest : String)
  /-- Message `rm -rf ...`. -/
  | rmRf (dest : String)
  /-- Message `mkdir all for artifact ...`. -/
  | mkdirAll (toDir : String)
  /-- Message `copy artifact ...`. -/
  | copy (src : String)
deriving DecidableEq, Repr

/-- The function `strings.ContainsAny`. -/
def ContainsAny (s chars : String) : Bool :=
  s.data.any fun c => chars.data.contains c

/-- The function `trimFilePathPrefix`; the warning it prints is left out. -/
def trimFilePathPrefix (os : Os) (pre thePath : String) : String :=
  match os.FilepathRel pre thePath with
  | none => thePath
  | some ret => ret

/-- The variable `to` of `saveArtifactLocally` (here `dest`) once it is placed within the external
directory and, for a destination that ends in `/`, within the destination directory. -/
def saveDestination (os : Os) (artifact : Artifact) (destPath src : String) : String :=
  let dest := destPath
  let destIsDir := HasSuffix dest "/"
  let dest := if artifact.Target.IsLocalExternal && !os.FilepathIsAbs dest then
      -- Place within external dir.
      os.PathJoin artifact.Target.LocalPath dest
    else dest
  if destIsDir then
    -- Place within dest dir.
    os.PathJoin dest (os.PathBase src)
  else dest

/-- The calls that succeeded so far and the lines printed to the buffered console. -/
structure SaveProgress where
  done : List FsCall := []
  console : List String := []
deriving DecidableEq, Repr

/-- The body of the loop of `saveArtifactLocally` over the matches of the pattern: the
error it returns, if any, and the progress made. -/
def saveMatch (os : Os) (call : SaveCall) (opt : BuildOpt) (isWildcard : Bool) (src : String)
    (s : SaveProgress) : Option SaveError × SaveProgress :=
  match os.Stat s.done src with
  | none => (some (SaveError.stat src), s)
  | some srcIsDir =>
    let dest := saveDestination os call.artifact call.destPath src
    let statDest := os.Stat s.done dest
    if statDest.isNone && (isWildcard && !HasSuffix call.destPath "/") then
      -- Ignore err. Likely dest path does not exist.
      (some SaveError.wildcardNoSlash, s)
    else
      let destExists := statDest.isSome
      let destIsDir := match statDest with
        | none => srcIsDir
        | some fiDestIsDir => fiDestIsDir
      if srcIsDir && !destIsDir then (some SaveError.dirOntoFile, s)
      else
        let removed : Except SaveError (List FsCall) :=
          if destExists then
            if !srcIsDir then
              -- Remove pre-existing dest file.
              match os.attempt (FsCall.Remove dest) s.done with
              | none => Except.error (SaveError.rm dest)
              | some done1 => Except.ok done1
            else
              -- Remove pre-existing dest dir.
              match os.attempt (FsCall.RemoveAll dest) s.done with
              | none => Except.error (SaveError.rmRf dest)
              | some done1 => Except.ok done1
          else Except.ok s.done
        match removed with
        | Except.error err => (some err, s)
        | Except.ok done1 =>
          let toDir := os.PathDir dest
          match os.attempt (FsCall.MkdirAll toDir) done1 with
          | none => (some (SaveError.mkdirAll toDir), { s with done := done1 })
          | some done2 =>
            let written := match os.attempt (FsCall.Link src dest) done2 with
              | some done3 => some done3
              | none =>
                -- Hard linking did not work. Try recursive copy.
                os.attempt (FsCall.Copy src dest) done2
            match written with
            | none => (some (SaveError.copy src), { s with done := done2 })
            | some done3 =>
              -- Write to console about this artifact.
              let artifactPath := trimFilePathPrefix os call.indexOutDir src
              let artifact2 : Artifact :=
                { Target := call.artifact.Target, Artifact := artifactPath }
              let destPath2 := os.FilepathFromSlash call.destPath
              let destPath2 := if HasSuffix call.destPath "/" then
                  os.FilepathJoin destPath2 (os.FilepathBase artifactPath)
                else destPath2
              let console := if opt.PrintPhases then
                  s.console ++ ["Artifact " ++ os.ArtifactStr call.salt artifact2 ++
                    " output as " ++ destPath2 ++ "\n"]
                else s.console
              (none, { done := done3, console := console })

/-- The loop of `saveArtifactLocally` over the matches of the pattern. -/
def saveMatches (os : Os) (call : SaveCall) (opt : BuildOpt) (isWildcard : Bool) :
    List String → SaveProgress → Option SaveError × SaveProgress
  | [], s => (none, s)
  | src :: rest, s =>
    match saveMatch os call opt isWildcard src s with
    | (some err, s1) => (some err, s1)
    | (none, s1) => saveMatches os call opt isWildcard rest s1

/-- The method `saveArtifactLocally`, called with the arguments `call` after the
file-system calls `done`: the error it returns, if any, the calls that succeeded
afterwards and the lines it printed to the buffered console. -/
def saveArtifactLocally (os : Os) (done : List FsCall) (call : SaveCall) (opt : BuildOpt) :
    Option SaveError × SaveProgress :=
  let fromPattern := os.FilepathJoin call.indexOutDir (os.FilepathFromSlash call.artifact.Artifact)
  -- Resolve possible wildcards.
  match os.Glob done fromPattern with
  | none => (some SaveError.glob, { done := done })
  | some fromGlobMatches =>
    if !call.artifact.Target.IsRemote && fromGlobMatches.length ≤ 0 then
      if call.ifExists then (none, { done := done })
      else (some (SaveError.doesNotExist call.artifact), { done := done })
    else
      let isWildcard := ContainsAny fromPattern "*?["
      saveMatches os call opt isWildcard fromGlobMatches { done := done }

/-- The sources and destinations of the calls of `os.Link` and `reccopy.Copy` among
file-system calls. -/
def writes (calls : List FsCall) : List (String × String) :=
  calls.filterMap fun call =>
    match call with
    | FsCall.Link oldname newname => some (oldname, newname)
    | FsCall.Copy src dest => some (src, dest)
    | _ => none

/-- The errors of `tempEarthlyOutDir` and `onArtifact`, by their message. -/
inductive OutDirError where
  /-- Message `dest path ... is not in the whitelist: ...`. -/
  | notInWhitelist (destPath : String)
  /-- Message `unable to create dir ...`. -/
  | unableToCreateDir (dir : String)
  /-- Message `mk temp dir for artifacts`. -/
  | mkTempDir
  /-- Message `create dir ...`. -/
  | createDir (dir : String)
deriving DecidableEq, Repr

/-- The method `tempEarthlyOutDir`: the directory and error it returns, the builder
and the calls that succeeded afterwards. The registration of the cleanup is left
out. -/
def Builder.tempEarthlyOutDir (b : Builder) (os : Os) (done : List FsCall) :
    (String × Option OutDirError) × Builder × List FsCall :=
  if b.outDirOnce then ((b.outDir, none), b, done)
  else
    let b1 : Builder := { b with outDirOnce := true }
    let tmpParentDir := ".tmp-earthly-out"
    match os.attempt (FsCall.MkdirAll tmpParentDir) done with
    | none => ((b1.outDir, some (OutDirError.unableToCreateDir tmpParentDir)), b1, done)
    | some done1 =>
      match os.TempDir done1 tmpParentDir "tmp" with
      | none => (("", some OutDirError.mkTempDir), { b1 with outDir := "" }, done1)
      | some name =>
        ((name, none), { b1 with outDir := name }, done1 ++ [FsCall.TempDir name])

/-- The closure `onArtifact` of `convertAndBuild`, called with the captured variables
`c`: the directory or the error it returns, the builder and the calls that succeeded
afterwards. -/
def onArtifact (b : Builder) (os : Os) (c : Closure) (done : List FsCall) (index : Nat)
    (destPath : String) : Except OutDirError String × Builder × List FsCall :=
  if !c.destPathWhitelist.contains destPath then
    (Except.error (OutDirError.notInWhitelist destPath), b, done)
  else
    match b.tempEarthlyOutDir os done with
    | ((_, some err), b1, done1) => (Except.error err, b1, done1)
    | ((outDir, none), b1, done1) =>
      let artifactDir := os.FilepathJoin outDir ("index-" ++ toString index)
      match os.attempt (FsCall.MkdirAll artifactDir) done1 with
      | none => (Except.error (OutDirError.createDir artifactDir), b1, done1)
      | some done2 => (Except.ok artifactDir, b1, done2)

/-! ### A small file system for the examples -/

/-- The last element of a slash-separated path. -/
def lastElement (path : String) : String :=
  String.mk (path.data.reverse.takeWhile fun c => c != '/').reverse

/-- A path without its last element and the slashes before it; `.` if nothing is
left. -/
def withoutLastElement (path : String) : String :=
  let dir := ((path.data.reverse.dropWhile fun c => c != '/').dropWhile fun c => c == '/').reverse
  if dir.isEmpty then (if path.data.head? == some '/' then "/" else ".") else String.mk dir

/-- Two path elements joined by one slash; an empty element is dropped. -/
def joinElements (dir name : String) : String :=
  if dir = "" then name
  else if name = "" then String.mk (dir.data.reverse.dropWhile fun c => c == '/').reverse
  else String.mk (dir.data.reverse.dropWhile fun c => c == '/').reverse ++ "/" ++ name

/-- Whether `path` lies below the directory `dir`. -/
def isBelow (dir path : String) : Bool :=
  (dir ++ "/").data.isPrefixOf path.data

/-- The paths of a small file system, each with whether it is a directory, after a
call: a removal deletes the path (`RemoveAll` also what lies below it), `MkdirAll` and
`TempDir` make a directory, a link or copy gives the destination the kind of the
source. -/
def applyCall (files : List (String × Bool)) (call : FsCall) : List (String × Bool) :=
  match call with
  | FsCall.Remove name => files.filter fun e => e.1 != name
  | FsCall.RemoveAll path => files.filter fun e => e.1 != path && !isBelow path e.1
  | FsCall.MkdirAll path => (path, true) :: files.filter fun e => e.1 != path
  | FsCall.TempDir name => (name, true) :: files
  | FsCall.Link oldname newname =>
    (newname, (List.lookup oldname files).getD false) :: files.filter fun e => e.1 != newname
  | FsCall.Copy src dest =>
    (dest, (List.lookup src files).getD false) :: files.filter fun e => e.1 != dest

/-- A small file system: `files` are the paths that exist at the start, each with
whether it is a directory; `globs` are the patterns with their matches. A removal
succeeds on a file or an empty directory, `MkdirAll` unless the path is a file, a link
from a file to a path that does not exist; the other calls succeed. -/
def smallOs (files : List (String × Bool)) (globs : List (String × List String)) : Os :=
  { Glob := fun _ pattern => some ((List.lookup pattern globs).getD []),
    Stat := fun done name => List.lookup name (done.foldl applyCall files),
    Succeeds := fun done call =>
      match call with
      | FsCall.Remove name =>
        (List.lookup name (done.foldl applyCall files)).isSome &&
          !((done.foldl applyCall files).any fun e => isBelow name e.1)
      | FsCall.MkdirAll path => List.lookup path (done.foldl applyCall files) != some false
      | FsCall.Link oldname newname =>
        List.lookup oldname (done.foldl applyCall files) == some false &&
          (List.lookup newname (done.foldl applyCall files)).isNone
      | _ => true,
    TempDir := fun _ dir pattern => some (joinElements dir (pattern ++ "1")),
    FilepathJoin := joinElements,
    FilepathFromSlash := fun path => path,
    FilepathIsAbs := fun path => path.data.head? == some '/',
    FilepathBase := lastElement,
    FilepathRel := fun _ _ => none,
    PathJoin := joinElements,
    PathBase := lastElement,
    PathDir := withoutLastElement,
    ArtifactStr := fun _ artifact => artifact.Target.Name ++ "/" ++ artifact.Artifact }

/-- The files `a.bin` and `b.bin` under `out` in the directory `index-0`, matched by
`out/*.bin`, and nothing at the destinations. -/
def twoBinsOs : Os :=
  smallOs [("index-0/out/a.bin", false), ("index-0/out/b.bin", false)]
    [("index-0/out/*.bin", ["index-0/out/a.bin", "index-0/out/b.bin"])]

/-- As `twoBinsOs`, with the plain file `dest/x.bin` present at the start. -/
def twoBinsOntoFileOs : Os :=
  smallOs [("index-0/out/a.bin", false), ("index-0/out/b.bin", false), ("dest/x.bin", false)]
    [("index-0/out/*.bin", ["index-0/out/a.bin", "index-0/out/b.bin"])]

/-- The call that saves `out/*.bin` of the target `target` from `index-0` to the
destination `destPath`. -/
def saveBins (target : Target) (destPath : String) : SaveCall :=
  { artifact := { Target := target, Artifact := "out/*.bin" },
    indexOutDir := "index-0", destPath := destPath, salt := "", ifExists := false }

/-- The plain file `app` under `out` in the directory `index-0`, and more paths
`files` present at the start. -/
def oneFileOs (files : List (String × Bool)) : Os :=
  smallOs (("index-0/out/app", false) :: files) [("index-0/out/app", ["index-0/out/app"])]

/-- The directory `site` under `out` in the directory `index-0`, and more paths `files`
present at the start. -/
def oneDirOs (files : List (String × Bool)) : Os :=
  smallOs (("index-0/out/site", true) :: files) [("index-0/out/site", ["index-0/out/site"])]

/-- The call that saves `out/<name>` of the target `+build` from `index-0` to the
destination `destPath`. -/
def saveOne (name destPath : String) : SaveCall :=
  { artifact := { Target := { Name := "+build" }, Artifact := "out/" ++ name },
    indexOutDir := "index-0", destPath := destPath, salt := "", ifExists := false }

/-- A request registers a `dir-N` reference whose metadata carries the destination
`destPath`. -/
def RegistersDest (res : Result) (destPath : String) : Prop :=
  ∃ n : Nat, "dir-" ++ toString n ∈ res.keys ∧
    ("ref/" ++ ("dir-" ++ toString n) ++ "/dest-path", destPath) ∈ res.Metadata

/-- Whether the metadata of a request holds an `image-N` entry that is named `tag` and
is exported to the local Docker daemon, directly (`export-image`) or through the local
registry (`export-image-local-registry`). -/
def ExportsAs (metadata : List (String × String)) (tag : String) : Prop :=
  ∃ n : Nat, ("ref/" ++ ("image-" ++ toString n) ++ "/image.name", tag) ∈ metadata ∧
    ∃ v, ("ref/" ++ ("image-" ++ toString n) ++ "/export-image", v) ∈ metadata ∨
      ("ref/" ++ ("image-" ++ toString n) ++ "/export-image-local-registry", v) ∈ metadata

/-- The state of `bf` holds no metadata of an `image-N` entry from the current
`imageIndex` on, and no entry named `tag` that is exported. -/
def NoExportAs (tag : String) (s : BfState) : Prop :=
  (∀ e ∈ s.res.Metadata, ∀ n, s.c.imageIndex ≤ n → ∀ x : String,
    x.data.head? = some '/' → e.1 ≠ "ref/" ++ ("image-" ++ toString n) ++ x) ∧
  ¬ ExportsAs s.res.Metadata tag

/-- The metadata `after` is the metadata `before` followed by fields of the entry
`image-i`, each of which satisfies `P`. -/
def ImageBlock (i : Nat) (P : String × String → Prop) (before after : List (String × String)) :
    Prop :=
  ∃ added, after = before ++ added ∧
    ∀ e ∈ added, (∃ x : String, x.data.head? = some '/' ∧
      e.1 = "ref/" ++ ("image-" ++ toString i) ++ x) ∧ P e

/-- The image `app:latest` saved, to be pushed as well, by a target for `linux/arm64`
and by the final target for `linux/amd64`. -/
def twoPlatformGraph : MultiTarget :=
  { Before := [{ Target := { Name := "+arm" }, MainState := { id := "arm" },
                 Platform := some { OS := "linux", Architecture := "arm64" },
                 SaveImages := [{ State := { id := "img-arm" }, DockerTag := "app:latest",
                                  Push := true }] }],
    Final := { Target := { Name := "+final" }, MainState := { id := "final" },
               Platform := some { OS := "linux", Architecture := "amd64" },
               SaveImages := [{ State := { id := "img-amd" }, DockerTag := "app:latest",
                                Push := true }] } }

/-- The image `app:latest` saved by targets for `linux/arm64` and `linux/amd64`, and
saved again in the deferred push phase of the final target, which has no platform. -/
def pushPhaseTagGraph : MultiTarget :=
  { Before := [{ Target := { Name := "+arm" }, MainState := { id := "arm" },
                 Platform := some { OS := "linux", Architecture := "arm64" },
                 SaveImages := [{ State := { id := "img-arm" }, DockerTag := "app:latest" }] },
               { Target := { Name := "+amd" }, MainState := { id := "amd" },
                 Platform := some { OS := "linux", Architecture := "amd64" },
                 SaveImages := [{ State := { id := "img-amd" }, DockerTag := "app:latest" }] }],
    Final := { Target := { Name := "+final" }, MainState := { id := "final" },
               RunPush := { HasState := true, State := { id := "final-push" },
                            CommandStrs := ["upload"],
                            SaveImages := [{ State := { id := "img-push" },
                                             DockerTag := "app:latest" }] } } }

/-- The tag is saved by two targets of the graph that have distinct platforms. -/
def SavedForTwoPlatforms (mts : MultiTarget) (tag : String) : Prop :=
  tag ≠ "" ∧ ∃ sts1 ∈ mts.All, ∃ sts2 ∈ mts.All, ∃ p1 p2,
    sts1.Platform = some p1 ∧ sts2.Platform = some p2 ∧ p1 ≠ p2 ∧
    (∃ saveImage ∈ sts1.SaveImages, saveImage.DockerTag = tag ∧ saveImage.DoSave = true) ∧
    (∃ saveImage ∈ sts2.SaveImages, saveImage.DockerTag = tag ∧ saveImage.DoSave = true)

/-- The index metadata of a request: every registered `image-N` reference has the
metadata `image-index` with the value `N + 1` and no other value, and every registered
`dir-N` reference has the metadata `dir-index` with the value `N` and no other value. -/
def IndexMetadata (res : Result) : Prop :=
  (∀ n : Nat, "image-" ++ toString n ∈ res.keys →
    ("ref/" ++ ("image-" ++ toString n) ++ "/image-index", toString (n + 1)) ∈ res.Metadata) ∧
  (∀ (n : Nat) (v : String),
    ("ref/" ++ ("image-" ++ toString n) ++ "/image-index", v) ∈ res.Metadata →
    v = toString (n + 1)) ∧
  (∀ n : Nat, "dir-" ++ toString n ∈ res.keys →
    ("ref/" ++ ("dir-" ++ toString n) ++ "/dir-index", toString n) ∈ res.Metadata) ∧
  (∀ (n : Nat) (v : String),
    ("ref/" ++ ("dir-" ++ toString n) ++ "/dir-index", v) ∈ res.Metadata → v = toString n)

/-- A single target without a platform that saves one image and one local output. -/
def imageAndLocalGraph : MultiTarget :=
  { Final := { Target := { Name := "+final" }, MainState := { id := "final" },
               SeparateArtifactsState := [{ id := "final-a0" }],
               SaveImages := [{ State := { id := "img" }, DockerTag := "app:latest" }],
               SaveLocals := [{ DestPath := "m.txt", ArtifactPath := "m" }] } }

/-- The first factory of a list that has the shared key hint `key`. -/
def firstWithHint (fs : List LocalFactory) (key : String) : Option LocalFactory :=
  fs.find? fun g => g.sharedKeyHint == key

/-- The number of keys `kind-N` under which a request registers references. -/
def numberedKeys (kind : String) (res : Result) : Nat :=
  res.keys.countP fun k => (kind ++ "-").data.isPrefixOf k.data

/-- What an error of the loop of `saveArtifactLocally` reports for the match `src` when
the calls `done` have succeeded: the source cannot be examined; the source is a
directory and the destination is a plain file; the removal of the destination, the
creation of its directory, or both the link and the copy fail. -/
def StepFailed (os : Os) (call : SaveCall) (src : String) (done : List FsCall) :
    SaveError → Prop
  | SaveError.stat name => name = src ∧ os.Stat done src = none
  | SaveError.dirOntoFile =>
    os.Stat done src = some true ∧
      os.Stat done (saveDestination os call.artifact call.destPath src) = some false
  | SaveError.rm dest =>
    dest = saveDestination os call.artifact call.destPath src ∧
      os.Succeeds done (FsCall.Remove dest) = false
  | SaveError.rmRf dest =>
    dest = saveDestination os call.artifact call.destPath src ∧
      os.Succeeds done (FsCall.RemoveAll dest) = false
  | SaveError.mkdirAll toDir =>
    toDir = os.PathDir (saveDestination os call.artifact call.destPath src) ∧
      os.Succeeds done (FsCall.MkdirAll toDir) = false
  | SaveError.copy name =>
    name = src ∧
      os.Succeeds done
        (FsCall.Link src (saveDestination os call.artifact call.destPath src)) = false ∧
      os.Succeeds done
        (FsCall.Copy src (saveDestination os call.artifact call.destPath src)) = false
  | _ => False

/-- The tag `app:latest_linux_amd64` saved by targets for `linux/arm64` and
`linux/amd64`, and the tag `app:latest` saved by the final target for `linux/amd64`,
whose platform-specific name under `demoEnv` is `app:latest_linux_amd64`. -/
def clashGraph : MultiTarget :=
  { Before := [{ Target := { Name := "+arm" }, MainState := { id := "arm" },
                 Platform := some { OS := "linux", Architecture := "arm64" },
                 SaveImages := [{ State := { id := "img-arm" },
                                  DockerTag := "app:latest_linux_amd64" }] },
               { Target := { Name := "+amd" }, MainState := { id := "amd" },
                 Platform := some { OS := "linux", Architecture := "amd64" },
                 SaveImages := [{ State := { id := "img-amd" },
                                  DockerTag := "app:latest_linux_amd64" }] }],
    Final := { Target := { Name := "+final" }, MainState := { id := "final" },
               Platform := some { OS := "linux", Architecture := "amd64" },
               SaveImages := [{ State := { id := "img-final" }, DockerTag := "app:latest" }] } }

/-- Whether two sequences of paths differ in such a way that, at the first position at
which they differ, neither path is a prefix of the other, or one of the sequences has
ended. -/
def divergeApart : List String → List String → Bool
  | [], [] => false
  | [], _ :: _ => true
  | _ :: _, [] => true
  | p :: ps, q :: qs =>
    if p = q then divergeApart ps qs
    else !p.data.isPrefixOf q.data && !q.data.isPrefixOf p.data

/-! ## Theorems -/

/-! ### Keys as strings -/

theorem digitChar_toNat (d : Nat) (h : d < 10) : (Nat.digitChar d).toNat - 48 = d := by
  interval_cases d <;> rfl

theorem foldl_toDigitsCore (fuel : Nat) : ∀ (n : Nat) (ds : List Char), n < fuel →
    (Nat.toDigitsCore 10 fuel n ds).foldl (fun acc c => acc * 10 + (c.toNat - 48)) 0
      = ds.foldl (fun acc c => acc * 10 + (c.toNat - 48)) n := by
  induction fuel with
  | zero => intro n ds h; omega
  | succ fuel ih =>
    intro n ds h
    simp only [Nat.toDigitsCore]
    split_ifs with h0
    · have hn : n < 10 := by
        by_contra hc
        have : 1 ≤ n / 10 := Nat.div_pos (by omega) (by omega)
        omega
      rw [Nat.mod_eq_of_lt hn]
      simp [List.foldl, digitChar_toNat n hn]
    · have hlt : n / 10 < fuel := by omega
      rw [ih _ _ hlt]
      simp only [List.foldl, digitChar_toNat _ (Nat.mod_lt n (by omega))]
      congr 1
      omega

/-- The decimal text of a number determines the number. -/
theorem toString_nat_inj {n m : Nat} (h : toString n = toString m) : n = m := by
  have h1 : Nat.toDigits 10 n = Nat.toDigits 10 m := by
    have := congrArg String.data h
    simpa [toString, Nat.repr] using this
  have hn := foldl_toDigitsCore (n + 1) n [] (by omega)
  have hm := foldl_toDigitsCore (m + 1) m [] (by omega)
  simp only [List.foldl] at hn hm
  unfold Nat.toDigits at h1
  rw [h1] at hn
  omega

theorem depKey_inj {n m : Nat} (h : "dep-" ++ toString n = "dep-" ++ toString m) : n = m := by
  have := congrArg String.data h
  simp [String.data_append] at this
  exact toString_nat_inj (String.ext this)

theorem imageKey_inj {n m : Nat} (h : "image-" ++ toString n = "image-" ++ toString m) :
    n = m := by
  have := congrArg String.data h
  simp [String.data_append] at this
  exact toString_nat_inj (String.ext this)

theorem dirKey_inj {n m : Nat} (h : "dir-" ++ toString n = "dir-" ++ toString m) : n = m := by
  have := congrArg String.data h
  simp [String.data_append] at this
  exact toString_nat_inj (String.ext this)

theorem numbered_ne_fixed (x : String) :
    ("dep-" ++ x ≠ "main" ∧ "dep-" ++ x ≠ "final-artifact" ∧ "dep-" ++ x ≠ "ephemeral") ∧
    ("image-" ++ x ≠ "main" ∧ "image-" ++ x ≠ "final-artifact" ∧
      "image-" ++ x ≠ "ephemeral") ∧
    ("dir-" ++ x ≠ "main" ∧ "dir-" ++ x ≠ "final-artifact" ∧ "dir-" ++ x ≠ "ephemeral") := by
  refine ⟨⟨?_, ?_, ?_⟩, ⟨?_, ?_, ?_⟩, ⟨?_, ?_, ?_⟩⟩ <;>
    (intro h; have := congrArg String.data h; simp [String.data_append] at this)

/-! ### The log of a request -/

theorem Refs_AddMeta (res : Result) (k v : String) : (res.AddMeta k v).Refs = res.Refs := rfl

theorem Refs_AddMetaIf (res : Result) (c : Bool) (k v : String) :
    (res.AddMetaIf c k v).Refs = res.Refs := by
  cases c <;> rfl

theorem Refs_AddRef (res : Result) (k : String) (ref : Reference) :
    (res.AddRef k ref).Refs = res.Refs ++ [(k, ref)] := rfl

theorem Refs_ite (c : Prop) [Decidable c] (a b : Result) :
    (if c then a else b).Refs = if c then a.Refs else b.Refs := by
  split <;> rfl

/-! ### Labels -/

theorem renderRefs_append (a b : List Label) : ∀ d i l : Nat,
    renderRefs d i l (a ++ b) = renderRefs d i l a ++
      renderRefs (d + a.countP Label.isDep) (i + a.countP Label.isImage)
        (l + a.countP Label.isDir) b := by
  induction a with
  | nil => intro d i l; simp [renderRefs]
  | cons x a ih =>
    intro d i l
    cases x <;>
      simp [renderRefs, ih, List.countP_cons, Label.isDep, Label.isImage, Label.isDir,
        Nat.add_assoc, Nat.add_comm 1]

theorem Follows.refl (s : BfState) : Follows [] s s := by
  simp [Follows, renderRefs]

theorem Follows.trans {a b : List Label} {s s1 s2 : BfState} (h1 : Follows a s s1)
    (h2 : Follows b s1 s2) : Follows (a ++ b) s s2 := by
  obtain ⟨r1, d1, i1, l1, m1⟩ := h1
  obtain ⟨r2, d2, i2, l2, m2⟩ := h2
  refine ⟨?_, ?_, ?_, ?_, ?_⟩
  · rw [r2, r1, renderRefs_append, d1, i1, l1, List.append_assoc]
  · rw [d2, d1, List.countP_append, Nat.add_assoc]
  · rw [i2, i1, List.countP_append, Nat.add_assoc]
  · rw [l2, l1, List.countP_append, Nat.add_assoc]
  · rw [m2, m1]

theorem BodyLabels.nil : BodyLabels 0 [] := by
  simp [BodyLabels]

theorem BodyLabels.append {n m : Nat} {a b : List Label} (ha : BodyLabels n a)
    (hb : BodyLabels m b) : BodyLabels (n + m) (a ++ b) := by
  refine ⟨?_, ?_⟩
  · intro key ref hmem
    rcases List.mem_append.1 hmem with h | h
    · exact ha.1 key ref h
    · exact hb.1 key ref h
  · rw [List.countP_append, ha.2, hb.2]

theorem BodyLabels.image (ref : Reference) : BodyLabels 0 [Label.image ref] := by
  simp [BodyLabels, Label.isFixed]

theorem BodyLabels.dep (ref : Reference) : BodyLabels 0 [Label.dep ref] := by
  simp [BodyLabels, Label.isFixed]

theorem BodyLabels.dir (ref : Reference) : BodyLabels 0 [Label.dir ref] := by
  simp [BodyLabels, Label.isFixed]

theorem BodyLabels.ephemeral (ref : Reference) :
    BodyLabels 1 [Label.fixed "ephemeral" ref] := by
  simp [BodyLabels, Label.isFixed]

/-! ### Every iteration of `bf` follows labels that do not depend on the counters -/

theorem depStep_follows (b : Builder) (env : Env) (sts : SingleTarget) :
    ∃ labels, BodyLabels 0 labels ∧
      ∀ s s2, depStep b env sts s = some s2 → Follows labels s s2 := by
  by_cases hd : needsDep b sts = true
  · cases hr : b.stateToRef env (b.targetPhaseState sts) sts.Platform with
    | none =>
      refine ⟨[], BodyLabels.nil, ?_⟩
      intro s s2 h
      simp [depStep, hd, hr] at h
    | some ref =>
      refine ⟨[Label.dep ref], BodyLabels.dep ref, ?_⟩
      intro s s2 h
      simp [depStep, hd, hr] at h
      subst h
      simp [Follows, renderRefs, Refs_AddRef, Label.isDep, Label.isImage, Label.isDir]
  · refine ⟨[], BodyLabels.nil, ?_⟩
    intro s s2 h
    simp [depStep, hd] at h
    subst h
    exact Follows.refl _

theorem singleImage_follows (b : Builder) (env : Env) (doPush doExport : Bool)
    (saveImage : SaveImage) (ref : Reference) (config : String) (s : BfState) :
    Follows [Label.image ref] s (singleImage b env doPush doExport saveImage ref config s) := by
  simp [Follows, renderRefs, singleImage, Refs_AddRef, Refs_AddMeta, Refs_AddMetaIf, Refs_ite,
    Label.isDep, Label.isImage, Label.isDir]

theorem multiImagePush_follows (platformStr : String) (saveImage : SaveImage)
    (ref : Reference) (config : String) (s : BfState) :
    Follows [Label.image ref] s (multiImagePush platformStr saveImage ref config s) := by
  simp [Follows, renderRefs, multiImagePush, Refs_AddRef, Refs_AddMeta, Refs_AddMetaIf,
    Label.isDep, Label.isImage, Label.isDir]

theorem multiImageExport_follows (b : Builder) (env : Env) (platform : Platform)
    (saveImage : SaveImage) (ref : Reference) (config : String) (s s2 : BfState)
    (h : multiImageExport b env platform saveImage ref config s = some s2) :
    Follows [Label.image ref] s s2 := by
  unfold multiImageExport at h
  simp only at h
  split at h
  · exact absurd h (by simp)
  · split at h
    · exact absurd h (by simp)
    · simp only [Option.some.injEq] at h
      subst h
      simp [Follows, renderRefs, Refs_AddRef, Refs_AddMeta, Refs_ite,
        Label.isDep, Label.isImage, Label.isDir]

theorem saveImageStep_follows (b : Builder) (env : Env) (opt : BuildOpt)
    (multi : List String) (sts : SingleTarget) (isFinal : Bool) (saveImage : SaveImage) :
    ∃ labels, BodyLabels 0 labels ∧
      ∀ s s2, saveImageStep b env opt multi sts isFinal saveImage s = some s2 →
        Follows labels s s2 := by
  by_cases hskip : ((!shouldPush opt sts saveImage && !shouldExport opt isFinal saveImage &&
      !useCacheHint b saveImage) ||
      (!shouldPush opt sts saveImage && saveImage.HasPushDependencies)) = true
  · refine ⟨[], BodyLabels.nil, ?_⟩
    intro s s2 h
    simp only [saveImageStep, hskip, if_true, Option.some.injEq] at h
    subst h
    exact Follows.refl _
  · cases hr : b.stateToRef env saveImage.State sts.Platform with
    | none =>
      refine ⟨[], BodyLabels.nil, ?_⟩
      intro s s2 h
      simp [saveImageStep, hskip, hr] at h
    | some ref =>
      cases hm : env.Marshal saveImage.Image with
      | none =>
        refine ⟨[], BodyLabels.nil, ?_⟩
        intro s s2 h
        simp [saveImageStep, hskip, hr, hm] at h
      | some config =>
        by_cases hmulti : multi.contains saveImage.DockerTag = true
        · refine ⟨(if shouldPush opt sts saveImage then [Label.image ref] else []) ++
            (if shouldExport opt isFinal saveImage then [Label.image ref] else []), ?_, ?_⟩
          · have h0 : BodyLabels (0 + 0)
                ((if shouldPush opt sts saveImage then [Label.image ref] else []) ++
                  (if shouldExport opt isFinal saveImage then [Label.image ref] else [])) := by
              apply BodyLabels.append
              · split
                · exact BodyLabels.image ref
                · exact BodyLabels.nil
              · split
                · exact BodyLabels.image ref
                · exact BodyLabels.nil
            simpa using h0
          · intro s s2 h
            simp only [saveImageStep, hskip, hr, hm, hmulti] at h
            simp only [Bool.false_eq_true, if_false, Bool.not_true] at h
            apply @Follows.trans _ _ s (if shouldPush opt sts saveImage = true then
              multiImagePush (env.PlatformWithDefaultToString sts.Platform) saveImage ref
                config s else s) s2
            · split
              · exact multiImagePush_follows _ _ _ _ _
              · exact Follows.refl _
            · split at h
              · rename_i he
                simp only [he, if_true]
                exact multiImageExport_follows _ _ _ _ _ _ _ _ h
              · rename_i he
                simp only [Option.some.injEq] at h
                subst h
                simp only [he, Bool.false_eq_true, if_false]
                exact Follows.refl _
        · refine ⟨[Label.image ref], BodyLabels.image ref, ?_⟩
          intro s s2 h
          simp only [saveImageStep, hskip, hr, hm, hmulti] at h
          simp only [Bool.false_eq_true, if_false, Bool.not_false, if_true,
            Option.some.injEq] at h
          subst h
          exact singleImage_follows _ _ _ _ _ _ _ _

theorem saveImagesLoop_follows (b : Builder) (env : Env) (opt : BuildOpt)
    (multi : List String) (sts : SingleTarget) (isFinal : Bool) (images : List SaveImage) :
    ∃ labels, BodyLabels 0 labels ∧
      ∀ s s2, saveImagesLoop b env opt multi sts isFinal images s = some s2 →
        Follows labels s s2 := by
  induction images with
  | nil =>
    refine ⟨[], BodyLabels.nil, ?_⟩
    intro s s2 h
    simp only [saveImagesLoop, Option.some.injEq] at h
    subst h
    exact Follows.refl _
  | cons saveImage rest ih =>
    obtain ⟨l1, hb1, h1⟩ := saveImageStep_follows b env opt multi sts isFinal saveImage
    obtain ⟨l2, hb2, h2⟩ := ih
    refine ⟨l1 ++ l2, by simpa using hb1.append hb2, ?_⟩
    intro s s2 h
    simp only [saveImagesLoop] at h
    split at h
    · exact absurd h (by simp)
    · rename_i s1 hs1
      exact (h1 s s1 hs1).trans (h2 s1 s2 h)

theorem saveLocalStep_follows (b : Builder) (env : Env) (sts : SingleTarget)
    (saveLocal : SaveLocal) :
    ∃ labels, BodyLabels 0 labels ∧
      ∀ s s2, saveLocalStep b env sts saveLocal s = some s2 → Follows labels s s2 := by
  cases hst : sts.SeparateArtifactsState[saveLocal.Index]? with
  | none =>
    refine ⟨[], BodyLabels.nil, ?_⟩
    intro s s2 h
    simp [saveLocalStep, hst] at h
  | some state =>
    cases hr : b.artifactStateToRef env state sts.Platform with
    | none =>
      refine ⟨[], BodyLabels.nil, ?_⟩
      intro s s2 h
      simp [saveLocalStep, hst, hr] at h
    | some ref =>
      refine ⟨[Label.dir ref], BodyLabels.dir ref, ?_⟩
      intro s s2 h
      simp only [saveLocalStep, hst, hr, Option.some.injEq] at h
      subst h
      simp [Follows, renderRefs, Refs_AddRef, Refs_AddMeta, Label.isDep, Label.isImage,
        Label.isDir]

theorem saveLocalsLoop_follows (b : Builder) (env : Env) (sts : SingleTarget)
    (locals : List SaveLocal) :
    ∃ labels, BodyLabels 0 labels ∧
      ∀ s s2, saveLocalsLoop b env sts locals s = some s2 → Follows labels s s2 := by
  induction locals with
  | nil =>
    refine ⟨[], BodyLabels.nil, ?_⟩
    intro s s2 h
    simp only [saveLocalsLoop, Option.some.injEq] at h
    subst h
    exact Follows.refl _
  | cons saveLocal rest ih =>
    obtain ⟨l1, hb1, h1⟩ := saveLocalStep_follows b env sts saveLocal
    obtain ⟨l2, hb2, h2⟩ := ih
    refine ⟨l1 ++ l2, by simpa using hb1.append hb2, ?_⟩
    intro s s2 h
    simp only [saveLocalsLoop] at h
    split at h
    · exact absurd h (by simp)
    · rename_i s1 hs1
      exact (h1 s s1 hs1).trans (h2 s1 s2 h)

theorem ephemeralStep_follows (b : Builder) (env : Env) (sts : SingleTarget) :
    ∃ labels, BodyLabels (if hasEphemeral b sts then 1 else 0) labels ∧
      ∀ s s2, ephemeralStep b env sts s = some s2 → Follows labels s s2 := by
  by_cases he : hasEphemeral b sts = true
  · have he2 := he
    unfold hasEphemeral at he2
    cases hr : b.stateToRef env (b.targetPhaseInteractiveSession sts).State sts.Platform with
    | none =>
      refine ⟨[Label.fixed "ephemeral" ""], by simpa [he] using BodyLabels.ephemeral "", ?_⟩
      intro s s2 h
      simp [ephemeralStep, he2, hr] at h
    | some ref =>
      refine ⟨[Label.fixed "ephemeral" ref], by simpa [he] using BodyLabels.ephemeral ref, ?_⟩
      intro s s2 h
      simp only [ephemeralStep, he2, hr, if_true, Option.some.injEq] at h
      subst h
      simp [Follows, renderRefs, Refs_AddRef, Label.isDep, Label.isImage, Label.isDir]
  · have he2 := he
    unfold hasEphemeral at he2
    refine ⟨[], by simpa [he] using BodyLabels.nil, ?_⟩
    intro s s2 h
    simp only [ephemeralStep, he2, Bool.false_eq_true, if_false, Option.some.injEq] at h
    subst h
    exact Follows.refl _

theorem targetStep_follows (b : Builder) (env : Env) (opt : BuildOpt) (multi : List String)
    (sts : SingleTarget) (isFinal : Bool) :
    ∃ labels, BodyLabels (if hasEphemeral b sts then 1 else 0) labels ∧
      ∀ s s2, targetStep b env opt multi sts isFinal s = some s2 → Follows labels s s2 := by
  obtain ⟨l1, hb1, h1⟩ := depStep_follows b env sts
  obtain ⟨l2, hb2, h2⟩ :=
    saveImagesLoop_follows b env opt multi sts isFinal (b.targetPhaseImages sts)
  obtain ⟨l3, hb3, h3⟩ := saveLocalsLoop_follows b env sts (b.targetPhaseArtifacts sts)
  obtain ⟨l4, hb4, h4⟩ := ephemeralStep_follows b env sts
  by_cases hp : performSaveLocals opt = true
  · refine ⟨l1 ++ (l2 ++ (l3 ++ l4)), ?_, ?_⟩
    · simpa using hb1.append (hb2.append (hb3.append hb4))
    · intro s s2 h
      simp only [targetStep, hp, if_true] at h
      split at h
      · exact absurd h (by simp)
      · rename_i s1 hs1
        split at h
        · exact absurd h (by simp)
        · rename_i s2a hs2
          split at h
          · exact absurd h (by simp)
          · rename_i s3 hs3
            exact (h1 _ _ hs1).trans ((h2 _ _ hs2).trans ((h3 _ _ hs3).trans (h4 _ _ h)))
  · refine ⟨l1 ++ (l2 ++ l4), ?_, ?_⟩
    · simpa using hb1.append (hb2.append hb4)
    · intro s s2 h
      simp only [targetStep, hp, Bool.false_eq_true, if_false] at h
      split at h
      · exact absurd h (by simp)
      · rename_i s1 hs1
        split at h
        · exact absurd h (by simp)
        · rename_i s2a hs2
          exact (h1 _ _ hs1).trans ((h2 _ _ hs2).trans (h4 _ _ h))

theorem targetsLoop_follows (b : Builder) (env : Env) (opt : BuildOpt) (multi : List String)
    (targets : List (SingleTarget × Bool)) :
    ∃ labels, BodyLabels (targets.countP fun t => hasEphemeral b t.1) labels ∧
      ∀ s s2, targetsLoop b env opt multi targets s = some s2 → Follows labels s s2 := by
  induction targets with
  | nil =>
    refine ⟨[], BodyLabels.nil, ?_⟩
    intro s s2 h
    simp only [targetsLoop, Option.some.injEq] at h
    subst h
    exact Follows.refl _
  | cons t rest ih =>
    obtain ⟨sts, isFinal⟩ := t
    obtain ⟨l1, hb1, h1⟩ := targetStep_follows b env opt multi sts isFinal
    obtain ⟨l2, hb2, h2⟩ := ih
    refine ⟨l1 ++ l2, ?_, ?_⟩
    · have := hb1.append hb2
      rw [List.countP_cons]
      rw [Nat.add_comm]
      exact this
    · intro s s2 h
      simp only [targetsLoop] at h
      split at h
      · exact absurd h (by simp)
      · rename_i s1 hs1
        exact (h1 s s1 hs1).trans (h2 s1 s2 h)

theorem HeadLabels.counts {b : Builder} {labels : List Label} (h : HeadLabels b labels) :
    labels.countP Label.isDep = 0 ∧ labels.countP Label.isImage = 0 ∧
      labels.countP Label.isDir = 0 := by
  obtain ⟨pre, post, rfl, hpre, hpost⟩ := h
  rcases hpre with ⟨_, rfl⟩ | ⟨_, ref, rfl⟩ <;> rcases hpost with rfl | ⟨ref2, rfl⟩ <;>
    simp [Label.isDep, Label.isImage, Label.isDir]

theorem bfHead_follows (b : Builder) (env : Env) (opt : BuildOpt) (mts : MultiTarget) :
    ∃ labels, HeadLabels b labels ∧
      ∀ res, bfHead b env opt mts = some res → ∀ d i l, res.Refs = renderRefs d i l labels := by
  have hpre : ∃ pre, ((b.builtMain = true ∧ pre = []) ∨
        (b.builtMain = false ∧ ∃ ref, pre = [Label.fixed "main" ref])) ∧
      ∀ res : Result, (if (!b.builtMain) = true then
          (b.stateToRef env mts.Final.MainState mts.Final.Platform).map
            fun ref => ({} : Result).AddRef "main" ref
        else some {}) = some res → ∀ d i l, res.Refs = renderRefs d i l pre := by
    cases hb : b.builtMain with
    | true =>
      refine ⟨[], Or.inl ⟨rfl, rfl⟩, ?_⟩
      intro res h d i l
      simp at h
      subst h
      rfl
    | false =>
      cases hr : b.stateToRef env mts.Final.MainState mts.Final.Platform with
      | none =>
        refine ⟨[Label.fixed "main" ""], Or.inr ⟨rfl, _, rfl⟩, ?_⟩
        intro res h
        simp at h
      | some ref =>
        refine ⟨[Label.fixed "main" ref], Or.inr ⟨rfl, _, rfl⟩, ?_⟩
        intro res h d i l
        simp at h
        subst h
        rfl
  obtain ⟨pre, hpre1, hpre2⟩ := hpre
  by_cases hfa : (!opt.NoOutput && opt.OnlyArtifact.isSome && !opt.OnlyFinalTargetImages) = true
  · cases hr : b.stateToRef env mts.Final.ArtifactsState mts.Final.Platform with
    | none =>
      refine ⟨pre ++ [], ⟨pre, [], rfl, hpre1, Or.inl rfl⟩, ?_⟩
      intro res h
      unfold bfHead at h
      simp only at h
      split at h
      · exact absurd h (by simp)
      · simp [hfa, hr] at h
    | some ref =>
      refine ⟨pre ++ [Label.fixed "final-artifact" ref],
        ⟨pre, _, rfl, hpre1, Or.inr ⟨ref, rfl⟩⟩, ?_⟩
      intro res h d i l
      unfold bfHead at h
      simp only at h
      split at h
      · exact absurd h (by simp)
      · rename_i res1 hres1
        simp only [hfa, hr, if_true, Option.some.injEq] at h
        subst h
        have := hpre2 res1 hres1 d i l
        rw [renderRefs_append]
        simp [Refs_AddMeta, Refs_AddRef, this, renderRefs]
  · refine ⟨pre ++ [], ⟨pre, [], rfl, hpre1, Or.inl rfl⟩, ?_⟩
    intro res h d i l
    unfold bfHead at h
    simp only at h
    split at h
    · exact absurd h (by simp)
    · rename_i res1 hres1
      simp only [hfa, Bool.false_eq_true, if_false, Option.some.injEq] at h
      subst h
      simpa using hpre2 res1 hres1 d i l

theorem countP_AllTagged (p : SingleTarget → Bool) (mts : MultiTarget) :
    (mts.AllTagged.countP fun t => p t.1) = mts.All.countP p := by
  simp [MultiTarget.AllTagged, MultiTarget.All, List.countP_append, List.countP_cons,
    List.countP_map, Function.comp_def]

/-- Every successful invocation of `bf` on the graph `mts` registers the references of
one list of labels that depends on neither the counters nor the other captured
variables. -/
theorem bf_follows (b : Builder) (env : Env) (opt : BuildOpt) (mts : MultiTarget) :
    ∃ hl bl, HeadLabels b hl ∧ BodyLabels (mts.All.countP (hasEphemeral b)) bl ∧
      ∀ c r c2, bfGraph b env c = some mts → bf b env opt c = some (r, c2) →
        r.Refs = renderRefs c.depIndex c.imageIndex c.dirIndex (hl ++ bl) ∧
        c2.depIndex = c.depIndex + bl.countP Label.isDep ∧
        c2.imageIndex = c.imageIndex + bl.countP Label.isImage ∧
        c2.dirIndex = c.dirIndex + bl.countP Label.isDir ∧
        c2.mts = some mts := by
  obtain ⟨hl, hh, h1⟩ := bfHead_follows b env opt mts
  obtain ⟨bl, hb, h2⟩ := targetsLoop_follows b env opt (isMultiPlatform b mts.All) mts.AllTagged
  rw [countP_AllTagged (hasEphemeral b)] at hb
  refine ⟨hl, bl, hh, hb, ?_⟩
  intro c r c2 hg h
  simp only [bf, hg] at h
  split at h
  · exact absurd h (by simp)
  · rename_i res hres
    split at h
    · exact absurd h (by simp)
    · rename_i s hs
      simp only [Option.some.injEq, Prod.mk.injEq] at h
      obtain ⟨rfl, rfl⟩ := h
      obtain ⟨f1, f2, f3, f4, f5⟩ := h2 _ _ hs
      obtain ⟨z1, z2, z3⟩ := hh.counts
      refine ⟨?_, f2, f3, f4, f5⟩
      rw [f1, renderRefs_append, z1, z2, z3]
      simp only [Nat.add_zero]
      rw [h1 res hres c.depIndex c.imageIndex c.dirIndex]

/-! ### Keys registered for a list of labels -/

theorem keys_ne :
    (∀ x y : String, "dep-" ++ x ≠ "image-" ++ y) ∧ (∀ x y : String, "dep-" ++ x ≠ "dir-" ++ y) ∧
    (∀ x y : String, "image-" ++ x ≠ "dep-" ++ y) ∧
    (∀ x y : String, "image-" ++ x ≠ "dir-" ++ y) ∧
    (∀ x y : String, "dir-" ++ x ≠ "dep-" ++ y) ∧
    (∀ x y : String, "dir-" ++ x ≠ "image-" ++ y) := by
  refine ⟨?_, ?_, ?_, ?_, ?_, ?_⟩ <;>
    (intro x y h; have := congrArg String.data h; simp [String.data_append] at this)

/-- A key registered by the loops of `bf` is `ephemeral` or a numbered key whose number
is not below the counter the loops started from. -/
theorem body_key_cases (labels : List Label) : ∀ d i l : Nat,
    (∀ key ref, Label.fixed key ref ∈ labels → key = "ephemeral") →
    ∀ k ∈ (renderRefs d i l labels).map Prod.fst,
      k = "ephemeral" ∨ (∃ n, d ≤ n ∧ k = "dep-" ++ toString n) ∨
        (∃ n, i ≤ n ∧ k = "image-" ++ toString n) ∨ (∃ n, l ≤ n ∧ k = "dir-" ++ toString n) := by
  induction labels with
  | nil => intro d i l _ k hk; simp [renderRefs] at hk
  | cons x rest ih =>
    intro d i l hfix k hk
    have hrest : ∀ key ref, Label.fixed key ref ∈ rest → key = "ephemeral" :=
      fun key ref hm => hfix key ref (List.mem_cons_of_mem _ hm)
    cases x with
    | fixed key ref =>
      simp only [renderRefs, List.map_cons, List.mem_cons] at hk
      rcases hk with rfl | hk
      · exact Or.inl (hfix _ ref (List.mem_cons_self _ _))
      · exact ih d i l hrest k hk
    | dep ref =>
      simp only [renderRefs, List.map_cons, List.mem_cons] at hk
      rcases hk with rfl | hk
      · exact Or.inr (Or.inl ⟨d, le_refl _, rfl⟩)
      · rcases ih (d + 1) i l hrest k hk with h | ⟨n, hn, h⟩ | h | h
        · exact Or.inl h
        · exact Or.inr (Or.inl ⟨n, by omega, h⟩)
        · exact Or.inr (Or.inr (Or.inl h))
        · exact Or.inr (Or.inr (Or.inr h))
    | image ref =>
      simp only [renderRefs, List.map_cons, List.mem_cons] at hk
      rcases hk with rfl | hk
      · exact Or.inr (Or.inr (Or.inl ⟨i, le_refl _, rfl⟩))
      · rcases ih d (i + 1) l hrest k hk with h | h | ⟨n, hn, h⟩ | h
        · exact Or.inl h
        · exact Or.inr (Or.inl h)
        · exact Or.inr (Or.inr (Or.inl ⟨n, by omega, h⟩))
        · exact Or.inr (Or.inr (Or.inr h))
    | dir ref =>
      simp only [renderRefs, List.map_cons, List.mem_cons] at hk
      rcases hk with rfl | hk
      · exact Or.inr (Or.inr (Or.inr ⟨l, le_refl _, rfl⟩))
      · rcases ih d i (l + 1) hrest k hk with h | h | h | ⟨n, hn, h⟩
        · exact Or.inl h
        · exact Or.inr (Or.inl h)
        · exact Or.inr (Or.inr (Or.inl h))
        · exact Or.inr (Or.inr (Or.inr ⟨n, by omega, h⟩))

theorem body_keys_not_fixed (labels : List Label) (d i l : Nat)
    (hfix : ∀ key ref, Label.fixed key ref ∈ labels → key = "ephemeral") :
    "main" ∉ (renderRefs d i l labels).map Prod.fst ∧
      "final-artifact" ∉ (renderRefs d i l labels).map Prod.fst := by
  constructor
  · intro hk
    rcases body_key_cases labels d i l hfix _ hk with h | ⟨n, _, h⟩ | ⟨n, _, h⟩ | ⟨n, _, h⟩
    · exact absurd h (by decide)
    · exact (numbered_ne_fixed _).1.1 h.symm
    · exact (numbered_ne_fixed _).2.1.1 h.symm
    · exact (numbered_ne_fixed _).2.2.1 h.symm
  · intro hk
    rcases body_key_cases labels d i l hfix _ hk with h | ⟨n, _, h⟩ | ⟨n, _, h⟩ | ⟨n, _, h⟩
    · exact absurd h (by decide)
    · exact (numbered_ne_fixed _).1.2.1 h.symm
    · exact (numbered_ne_fixed _).2.1.2.1 h.symm
    · exact (numbered_ne_fixed _).2.2.2.1 h.symm

/-- The numbered keys registered by the loops of `bf` are pairwise distinct. -/
theorem body_keys_nodup (labels : List Label) : ∀ d i l : Nat,
    (∀ key ref, Label.fixed key ref ∈ labels → key = "ephemeral") →
    (((renderRefs d i l labels).map Prod.fst).filter fun k => k != "ephemeral").Nodup := by
  induction labels with
  | nil => intro d i l _; simp [renderRefs]
  | cons x rest ih =>
    intro d i l hfix
    have hrest : ∀ key ref, Label.fixed key ref ∈ rest → key = "ephemeral" :=
      fun key ref hm => hfix key ref (List.mem_cons_of_mem _ hm)
    cases x with
    | fixed key ref =>
      have hkey : key = "ephemeral" := hfix _ ref (List.mem_cons_self _ _)
      subst hkey
      simpa [renderRefs, List.filter_cons] using ih d i l hrest
    | dep ref =>
      have hne : ("dep-" ++ toString d != "ephemeral") = true := by
        simpa using (numbered_ne_fixed (toString d)).1.2.2
      simp only [renderRefs, List.map_cons, List.filter_cons, hne, if_true, List.nodup_cons]
      refine ⟨?_, ih (d + 1) i l hrest⟩
      intro hmem
      rcases body_key_cases rest (d + 1) i l hrest _ (List.mem_filter.1 hmem).1 with
        h | ⟨n, hn, h⟩ | ⟨n, _, h⟩ | ⟨n, _, h⟩
      · exact (numbered_ne_fixed _).1.2.2 h
      · have := depKey_inj h
        omega
      · exact keys_ne.1 _ _ h
      · exact keys_ne.2.1 _ _ h
    | image ref =>
      have hne : ("image-" ++ toString i != "ephemeral") = true := by
        simpa using (numbered_ne_fixed (toString i)).2.1.2.2
      simp only [renderRefs, List.map_cons, List.filter_cons, hne, if_true, List.nodup_cons]
      refine ⟨?_, ih d (i + 1) l hrest⟩
      intro hmem
      rcases body_key_cases rest d (i + 1) l hrest _ (List.mem_filter.1 hmem).1 with
        h | ⟨n, _, h⟩ | ⟨n, hn, h⟩ | ⟨n, _, h⟩
      · exact (numbered_ne_fixed _).2.1.2.2 h
      · exact keys_ne.2.2.1 _ _ h
      · have := imageKey_inj h
        omega
      · exact keys_ne.2.2.2.1 _ _ h
    | dir ref =>
      have hne : ("dir-" ++ toString l != "ephemeral") = true := by
        simpa using (numbered_ne_fixed (toString l)).2.2.2.2
      simp only [renderRefs, List.map_cons, List.filter_cons, hne, if_true, List.nodup_cons]
      refine ⟨?_, ih d i (l + 1) hrest⟩
      intro hmem
      rcases body_key_cases rest d i (l + 1) hrest _ (List.mem_filter.1 hmem).1 with
        h | ⟨n, _, h⟩ | ⟨n, _, h⟩ | ⟨n, hn, h⟩
      · exact (numbered_ne_fixed _).2.2.2.2 h
      · exact keys_ne.2.2.2.2.1 _ _ h
      · exact keys_ne.2.2.2.2.2 _ _ h
      · have := dirKey_inj h
        omega

/-- The loops of `bf` register `ephemeral` once per fixed label. -/
theorem body_count_ephemeral (labels : List Label) : ∀ d i l : Nat,
    (∀ key ref, Label.fixed key ref ∈ labels → key = "ephemeral") →
    ((renderRefs d i l labels).map Prod.fst).count "ephemeral" =
      labels.countP Label.isFixed := by
  induction labels with
  | nil => intro d i l _; simp [renderRefs]
  | cons x rest ih =>
    intro d i l hfix
    have hrest : ∀ key ref, Label.fixed key ref ∈ rest → key = "ephemeral" :=
      fun key ref hm => hfix key ref (List.mem_cons_of_mem _ hm)
    cases x with
    | fixed key ref =>
      have hkey : key = "ephemeral" := hfix _ ref (List.mem_cons_self _ _)
      subst hkey
      simp [renderRefs, List.countP_cons, Label.isFixed, ih d i l hrest]
    | dep ref =>
      have hne : ("dep-" ++ toString d == "ephemeral") = false := by
        simpa using (numbered_ne_fixed (toString d)).1.2.2
      simp [renderRefs, List.countP_cons, Label.isFixed, ih (d + 1) i l hrest, List.count_cons,
        hne]
    | image ref =>
      have hne : ("image-" ++ toString i == "ephemeral") = false := by
        simpa using (numbered_ne_fixed (toString i)).2.1.2.2
      simp [renderRefs, List.countP_cons, Label.isFixed, ih d (i + 1) l hrest, List.count_cons,
        hne]
    | dir ref =>
      have hne : ("dir-" ++ toString l == "ephemeral") = false := by
        simpa using (numbered_ne_fixed (toString l)).2.2.2.2
      simp [renderRefs, List.countP_cons, Label.isFixed, ih d i (l + 1) hrest, List.count_cons,
        hne]

/-- The keys of a request: `main` unless `builtMain` is set, possibly `final-artifact`,
then the keys of the loops. -/
theorem head_body_keys {b : Builder} {hl bl : List Label} (hh : HeadLabels b hl) (d i l : Nat) :
    ∃ hk : List String,
      (renderRefs d i l (hl ++ bl)).map Prod.fst = hk ++ (renderRefs d i l bl).map Prod.fst ∧
      hk.Nodup ∧ (∀ k ∈ hk, k = "main" ∨ k = "final-artifact") ∧
      hk.count "main" = if b.builtMain then 0 else 1 := by
  obtain ⟨pre, post, rfl, hpre, hpost⟩ := hh
  have hc := (HeadLabels.counts ⟨pre, post, rfl, hpre, hpost⟩)
  refine ⟨(renderRefs d i l (pre ++ post)).map Prod.fst, ?_, ?_, ?_, ?_⟩
  · rw [renderRefs_append (pre ++ post) bl, hc.1, hc.2.1, hc.2.2]
    simp
  · rcases hpre with ⟨_, rfl⟩ | ⟨_, ref, rfl⟩ <;> rcases hpost with rfl | ⟨ref2, rfl⟩ <;>
      simp [renderRefs]
  · rcases hpre with ⟨_, rfl⟩ | ⟨_, ref, rfl⟩ <;> rcases hpost with rfl | ⟨ref2, rfl⟩ <;>
      simp [renderRefs]
  · rcases hpre with ⟨hb, rfl⟩ | ⟨hb, ref, rfl⟩ <;> rcases hpost with rfl | ⟨ref2, rfl⟩ <;>
      simp [renderRefs, hb, List.count_cons]


/-- C1: on the graph `pushLocalGraph`, built in full output mode with push and one
invocation of the request constructor per phase, the request constructor registers the
deferred local output `p.txt` as `dir-1` (with `dir-index` 1) and `m.txt` as `dir-0`,
while the output part reads `p.txt` from `index-0` and `m.txt` from `index-1`: the two
numberings do not agree. -/
theorem output_phase_reads_declaration_at_other_index :
    ∃ log, convertAndBuild {} (demoEnv (some pushLocalGraph)) { Push := true } = some log ∧
      log.requests.map (fun r => (r.1, r.2.keys)) =
        [(PhaseBuild, ["main", "dir-0"]), (PhasePush, ["dep-0", "dir-1"])] ∧
      ("ref/dir-0/dest-path", "m.txt") ∈ log.requests.flatMap (fun r => r.2.Metadata) ∧
      ("ref/dir-1/dest-path", "p.txt") ∈ log.requests.flatMap (fun r => r.2.Metadata) ∧
      ("ref/dir-1/dir-index", "1") ∈ log.requests.flatMap (fun r => r.2.Metadata) ∧
      log.saves.map (fun call => (call.destPath, call.indexOutDir)) =
        [("p.txt", "out/index-0"), ("m.txt", "out/index-1")] :=
  ⟨_, rfl, by decide, by decide, by decide, by decide, by decide⟩

/-- C8: an image declaration with `DoSave = false` is passed over by the request
constructor, whatever its `Push` and `CacheHint` flags (no `image-N` entry, no metadata,
the request and the captured variables are unchanged), unless `CacheHint` is set and
cache export is enabled. -/
theorem saveImageStep_unsaved_is_skipped (b : Builder) (env : Env) (opt : BuildOpt)
    (multi : List String) (sts : SingleTarget) (isFinal : Bool) (saveImage : SaveImage)
    (s : BfState) (hsave : saveImage.DoSave = false)
    (hhint : ¬ (saveImage.CacheHint = true ∧ b.opt.CacheExport ≠ "")) :
    saveImageStep b env opt multi sts isFinal saveImage s = some s := by
  have hp : shouldPush opt sts saveImage = false := by simp [shouldPush, hsave]
  have he : shouldExport opt isFinal saveImage = false := by simp [shouldExport, hsave]
  have hh : useCacheHint b saveImage = false := by
    unfold useCacheHint
    by_cases hc : saveImage.CacheHint = true
    · have : b.opt.CacheExport = "" := by
        by_contra hne
        exact hhint ⟨hc, hne⟩
      simp [this]
    · simp [hc]
  simp [saveImageStep, hp, he, hh]

/-- Witness of C8: a pushable image with a cache hint, not saved, while cache export
is disabled. -/
theorem saveImageStep_unsaved_is_skipped_witness :
    unsavedImage.DoSave = false ∧
      saveImageStep {} (demoEnv none) { Push := true } [] plainTarget true unsavedImage {} =
        some {} :=
  ⟨rfl, saveImageStep_unsaved_is_skipped {} (demoEnv none) { Push := true } [] plainTarget
    true unsavedImage {} rfl (by decide)⟩

/-- C9: the request constructor skips an image entirely (the request, the image index
and the other captured variables are unchanged) when the image is neither to be pushed,
nor exported, nor kept by a cache hint, and also when it has push dependencies and is
not to be pushed in this request. -/
theorem saveImageStep_short_circuit (b : Builder) (env : Env) (opt : BuildOpt)
    (multi : List String) (sts : SingleTarget) (isFinal : Bool) (saveImage : SaveImage)
    (s : BfState)
    (h : (shouldPush opt sts saveImage = false ∧ shouldExport opt isFinal saveImage = false ∧
          useCacheHint b saveImage = false) ∨
        (saveImage.HasPushDependencies = true ∧ shouldPush opt sts saveImage = false)) :
    saveImageStep b env opt multi sts isFinal saveImage s = some s := by
  rcases h with ⟨hp, he, hh⟩ | ⟨hd, hp⟩
  · simp [saveImageStep, hp, he, hh]
  · simp [saveImageStep, hp, hd]

/-- Witness of C9: a saved image with push dependencies in a build without push; it
would be exported, and is skipped all the same. -/
theorem saveImageStep_short_circuit_witness :
    shouldExport {} true pushDependentImage = true ∧
      saveImageStep {} (demoEnv none) {} [] plainTarget true pushDependentImage {} =
        some {} :=
  ⟨by decide, saveImageStep_short_circuit {} (demoEnv none) {} [] plainTarget true
    pushDependentImage {} (Or.inr ⟨rfl, by decide⟩)⟩

/-! ### Consequences for one invocation of `bf` -/

theorem bf_graph_of_some {b : Builder} {env : Env} {opt : BuildOpt} {c c2 : Closure}
    {r : Result} (h : bf b env opt c = some (r, c2)) : ∃ mts, bfGraph b env c = some mts := by
  cases hg : bfGraph b env c with
  | none => simp [bf, hg] at h
  | some mts => exact ⟨mts, rfl⟩

theorem Result.keys_eq (r : Result) : r.keys = r.Refs.map Prod.fst := rfl

/-- An invocation of `bf` registers `main` once while `builtMain` is unset and never
afterwards; no other key than `ephemeral` is registered twice; `ephemeral` is
registered once per target with an initialised ephemeral session. -/
theorem bf_keys {b : Builder} {env : Env} {opt : BuildOpt} {c c2 : Closure}
    {r : Result} {mts : MultiTarget} (hg : bfGraph b env c = some mts)
    (h : bf b env opt c = some (r, c2)) :
    r.keys.count "main" = (if b.builtMain then 0 else 1) ∧
      (r.keys.filter fun k => k != "ephemeral").Nodup ∧
      r.keys.count "ephemeral" = mts.All.countP (hasEphemeral b) ∧ c2.mts = some mts := by
  obtain ⟨hl, bl, hh, hb, hall⟩ := bf_follows b env opt mts
  obtain ⟨hrefs, _, _, _, hm⟩ := hall c r c2 hg h
  obtain ⟨hk, hkeys, hnd, hhk, hmain⟩ := @head_body_keys b hl bl hh c.depIndex c.imageIndex
    c.dirIndex
  have hnf := body_keys_not_fixed bl c.depIndex c.imageIndex c.dirIndex hb.1
  rw [Result.keys_eq, hrefs, hkeys]
  refine ⟨?_, ?_, ?_, hm⟩
  · rw [List.count_append, hmain, List.count_eq_zero_of_not_mem hnf.1, Nat.add_zero]
  · rw [List.filter_append]
    refine List.Nodup.append (hnd.filter _) (body_keys_nodup bl _ _ _ hb.1) ?_
    intro k hk1 hk2
    have hk1 := (List.mem_filter.1 hk1).1
    have hk2 := (List.mem_filter.1 hk2).1
    rcases hhk k hk1 with rfl | rfl
    · exact hnf.1 hk2
    · exact hnf.2 hk2
  · rw [List.count_append, body_count_ephemeral bl _ _ _ hb.1, hb.2]
    have : hk.count "ephemeral" = 0 := by
      apply List.count_eq_zero_of_not_mem
      intro hmem
      rcases hhk _ hmem with h1 | h1 <;> exact absurd h1 (by decide)
    rw [this, Nat.zero_add]

/-- C4: within one invocation of the request constructor no key other than
`ephemeral` is registered more than once (`main`, `final-artifact` and every `dep-N`,
`image-N` and `dir-N` occur at most once), and `ephemeral` is registered once for each
target whose interactive session of the current phase is an initialised ephemeral
session, hence at most once when at most one target has such a session. -/
theorem bf_keys_unique_except_ephemeral (b : Builder) (env : Env) (opt : BuildOpt)
    (c c2 : Closure) (r : Result) (h : bf b env opt c = some (r, c2)) :
    (r.keys.filter fun k => k != "ephemeral").Nodup ∧
      ∃ mts, c2.mts = some mts ∧
        r.keys.count "ephemeral" = mts.All.countP (hasEphemeral b) := by
  obtain ⟨mts, hg⟩ := bf_graph_of_some h
  obtain ⟨_, hnd, hcount, hm⟩ := bf_keys hg h
  exact ⟨hnd, mts, hm, hcount⟩

/-- Witness of C4: the request of the build phase for `pushLocalGraph`. -/
theorem bf_keys_unique_except_ephemeral_witness :
    ∃ p, bf {} (demoEnv (some pushLocalGraph)) {} {} = some p ∧
      p.1.keys = ["main", "dir-0"] ∧
      (p.1.keys.filter fun k => k != "ephemeral").Nodup ∧
      ∃ mts, p.2.mts = some mts ∧
        p.1.keys.count "ephemeral" = mts.All.countP (hasEphemeral {}) :=
  ⟨_, rfl, rfl,
    bf_keys_unique_except_ephemeral {} (demoEnv (some pushLocalGraph)) {} {} _ _ rfl⟩

/-- C4, as stated, fails: on `twoSessionsGraph` one invocation of the request
constructor registers the key `ephemeral` twice. -/
theorem bf_registers_ephemeral_twice :
    ∃ p, bf {} (demoEnv (some twoSessionsGraph)) {} {} = some p ∧
      p.1.Refs = [("main", "ref:final"), ("ephemeral", "ref:dep-i"),
        ("ephemeral", "ref:final-i")] ∧
      ¬ p.1.keys.Nodup :=
  ⟨_, rfl, rfl, by decide⟩

/-! ### The resolver is not consulted once `builtMain` is set -/

theorem saveImagesLoop_resolver (b : Builder) (env : Env) (x : Option MultiTarget)
    (opt : BuildOpt) (multi : List String) (sts : SingleTarget) (isFinal : Bool)
    (images : List SaveImage) : ∀ s,
    saveImagesLoop b { env with Earthfile2LLB := x } opt multi sts isFinal images s =
      saveImagesLoop b env opt multi sts isFinal images s := by
  induction images with
  | nil => intro s; rfl
  | cons saveImage rest ih =>
    intro s
    simp only [saveImagesLoop]
    have : saveImageStep b { env with Earthfile2LLB := x } opt multi sts isFinal saveImage s =
        saveImageStep b env opt multi sts isFinal saveImage s := rfl
    rw [this]
    cases saveImageStep b env opt multi sts isFinal saveImage s with
    | none => rfl
    | some s1 => exact ih s1

theorem saveLocalsLoop_resolver (b : Builder) (env : Env) (x : Option MultiTarget)
    (sts : SingleTarget) (locals : List SaveLocal) : ∀ s,
    saveLocalsLoop b { env with Earthfile2LLB := x } sts locals s =
      saveLocalsLoop b env sts locals s := by
  induction locals with
  | nil => intro s; rfl
  | cons saveLocal rest ih =>
    intro s
    simp only [saveLocalsLoop]
    have : saveLocalStep b { env with Earthfile2LLB := x } sts saveLocal s =
        saveLocalStep b env sts saveLocal s := rfl
    rw [this]
    cases saveLocalStep b env sts saveLocal s with
    | none => rfl
    | some s1 => exact ih s1

theorem targetStep_resolver (b : Builder) (env : Env) (x : Option MultiTarget)
    (opt : BuildOpt) (multi : List String) (sts : SingleTarget) (isFinal : Bool) (s : BfState) :
    targetStep b { env with Earthfile2LLB := x } opt multi sts isFinal s =
      targetStep b env opt multi sts isFinal s := by
  simp only [targetStep, saveImagesLoop_resolver, saveLocalsLoop_resolver]
  rfl

theorem targetsLoop_resolver (b : Builder) (env : Env) (x : Option MultiTarget)
    (opt : BuildOpt) (multi : List String) (targets : List (SingleTarget × Bool)) : ∀ s,
    targetsLoop b { env with Earthfile2LLB := x } opt multi targets s =
      targetsLoop b env opt multi targets s := by
  induction targets with
  | nil => intro s; rfl
  | cons t rest ih =>
    intro s
    obtain ⟨sts, isFinal⟩ := t
    simp only [targetsLoop, targetStep_resolver]
    cases targetStep b env opt multi sts isFinal s with
    | none => rfl
    | some s1 => exact ih s1

/-- Once `builtMain` is set, an invocation of `bf` does not depend on what the graph
compiler would return: it works on the captured graph. -/
theorem bf_resolver (b : Builder) (env : Env) (x : Option MultiTarget) (opt : BuildOpt)
    (c : Closure) (hb : b.builtMain = true) :
    bf b { env with Earthfile2LLB := x } opt c = bf b env opt c := by
  have hg : bfGraph b { env with Earthfile2LLB := x } c = bfGraph b env c := by
    simp [bfGraph, hb]
  have hh : ∀ mts, bfHead b { env with Earthfile2LLB := x } opt mts = bfHead b env opt mts :=
    fun _ => rfl
  simp only [bf, hg, hh, targetsLoop_resolver]

/-! ### The requests of a run of `convertAndBuild` -/

theorem invokeAll_mem (f : Closure → Option (Result × Closure)) (n : Nat) :
    ∀ (c c2 : Closure) (rs : List Result), invokeAll f n c = some (rs, c2) →
      ∀ r ∈ rs, ∃ c0 c1, f c0 = some (r, c1) := by
  induction n with
  | zero =>
    intro c c2 rs h r hr
    simp only [invokeAll] at h
    split at h
    · exact absurd h (by simp)
    · rename_i res c1 hres
      simp only [Option.some.injEq, Prod.mk.injEq] at h
      obtain ⟨rfl, rfl⟩ := h
      simp only [List.mem_singleton] at hr
      subst hr
      exact ⟨c, _, hres⟩
  | succ n ih =>
    intro c c2 rs h r hr
    simp only [invokeAll] at h
    split at h
    · exact absurd h (by simp)
    · rename_i res c1 hres
      split at h
      · exact absurd h (by simp)
      · rename_i rest c3 hrest
        simp only [Option.some.injEq, Prod.mk.injEq] at h
        obtain ⟨rfl, rfl⟩ := h
        rcases List.mem_cons.1 hr with rfl | hr
        · exact ⟨c, _, hres⟩
        · exact ih _ _ _ hrest r hr

theorem invokeAll_first (f : Closure → Option (Result × Closure)) (n : Nat) (c c2 : Closure)
    (rs : List Result) (h : invokeAll f n c = some (rs, c2)) : ∃ p, f c = some p := by
  cases n with
  | zero =>
    simp only [invokeAll] at h
    split at h
    · exact absurd h (by simp)
    · rename_i res c1 hres
      exact ⟨_, hres⟩
  | succ n =>
    simp only [invokeAll] at h
    split at h
    · exact absurd h (by simp)
    · rename_i res c1 hres
      exact ⟨_, hres⟩

theorem buildMainMulti_inv {env : Env} {f : Closure → Option (Result × Closure)} {n : Nat}
    {phase : String} {c c2 : Closure} {reqs : List (String × Result)}
    (h : buildMainMulti env f n phase c = some (reqs, c2)) :
    ∃ rs, invokeAll f n c = some (rs, c2) ∧ reqs = rs.map fun res => (phase, res) := by
  simp only [buildMainMulti] at h
  split at h
  · exact absurd h (by simp)
  · rename_i rs c1 hrs
    split at h
    · simp only [Option.some.injEq, Prod.mk.injEq] at h
      obtain ⟨rfl, rfl⟩ := h
      exact ⟨rs, hrs, rfl⟩
    · exact absurd h (by simp)

theorem pushPhase_inv {b : Builder} {env : Env} {opt : BuildOpt} {mts : MultiTarget}
    {c c2 : Closure} {reqs : List (String × Result)}
    (h : pushPhase b env opt mts c = some (reqs, c2)) :
    (reqs = [] ∧ c2 = c) ∨
      (opt.Push = true ∧ opt.OnlyArtifact = none ∧ opt.OnlyFinalTargetImages = false ∧
        (∃ sts ∈ mts.All, sts.RunPush.HasState = true) ∧
        ∃ rs, invokeAll (bf b env opt) env.pushRetries c = some (rs, c2) ∧
          reqs = rs.map fun res => (PhasePush, res)) := by
  simp only [pushPhase] at h
  split at h
  · rename_i hc
    split at h
    · rename_i hrp
      right
      simp only [Bool.and_eq_true, Bool.not_eq_true', Option.isNone_iff_eq_none] at hc
      obtain ⟨rs, h1, h2⟩ := buildMainMulti_inv h
      refine ⟨hc.1.1, hc.1.2, hc.2, ?_, rs, h1, h2⟩
      simpa [List.any_eq_true] using hrp
    · simp only [Option.some.injEq, Prod.mk.injEq] at h
      exact Or.inl ⟨h.1.symm, h.2.symm⟩
  · simp only [Option.some.injEq, Prod.mk.injEq] at h
    exact Or.inl ⟨h.1.symm, h.2.symm⟩

/-- The parts of a successful run of `convertAndBuild`. -/
theorem convertAndBuild_inv {b : Builder} {env : Env} {opt : BuildOpt} {log : BuildLog}
    (h : convertAndBuild b env opt = some log) :
    ∃ buildRs c1 pushReqs o,
      invokeAll (bf b env opt) env.buildRetries {} = some (buildRs, c1) ∧
      c1.mts = some log.mts ∧
      pushPhase { b with builtMain := true } env opt log.mts c1 = some (pushReqs, log.closure) ∧
      outputPhase env opt log.mts = some o ∧
      log.requests = (buildRs.map fun res => (PhaseBuild, res)) ++ pushReqs ∧
      log.pushConsole = o.pushConsole ∧ log.outputConsole = o.outputConsole ∧
      log.saves = o.saves := by
  simp only [convertAndBuild] at h
  split at h
  · exact absurd h (by simp)
  · rename_i buildReqs c1 hbuild
    obtain ⟨buildRs, hinv, rfl⟩ := buildMainMulti_inv hbuild
    split at h
    · exact absurd h (by simp)
    · rename_i mts hmts
      split at h
      · exact absurd h (by simp)
      · rename_i pushReqs c2 hpush
        split at h
        · exact absurd h (by simp)
        · rename_i o ho
          split at h
          · simp only [Option.some.injEq] at h
            subst h
            exact ⟨buildRs, c1, pushReqs, o, hinv, hmts, hpush, ho, rfl, rfl, rfl, rfl⟩
          · exact absurd h (by simp)

/-- A run of `convertAndBuild` succeeds only on a builder whose `builtMain` is unset. -/
theorem convertAndBuild_fresh {b : Builder} {env : Env} {opt : BuildOpt} {log : BuildLog}
    (h : convertAndBuild b env opt = some log) : b.builtMain = false := by
  obtain ⟨buildRs, c1, _, _, hinv, _⟩ := convertAndBuild_inv h
  obtain ⟨p, hp⟩ := invokeAll_first _ _ _ _ _ hinv
  obtain ⟨mts, hg⟩ := @bf_graph_of_some b env opt {} p.2 p.1 hp
  cases hb : b.builtMain with
  | false => rfl
  | true => simp [bfGraph, hb] at hg

theorem bf_count_main {b : Builder} {env : Env} {opt : BuildOpt} {c c2 : Closure}
    {r : Result} (h : bf b env opt c = some (r, c2)) :
    r.keys.count "main" = if b.builtMain then 0 else 1 := by
  obtain ⟨mts, hg⟩ := bf_graph_of_some h
  exact (bf_keys hg h).1

/-- C3: the request constructor resolves the graph and registers `main` in exactly the
invocations made while `builtMain` is unset, and `convertAndBuild` sets `builtMain` only
when the build phase has returned. So every request constructed during the build phase
registers `main` once (also when the engine invokes the constructor again during that
phase), no request constructed during the push phase registers `main`, and an
invocation made after the build phase does not depend on the graph compiler. -/
theorem main_registered_by_build_phase_requests (b : Builder) (env : Env) (opt : BuildOpt)
    (log : BuildLog) (h : convertAndBuild b env opt = some log) :
    (∀ r, (PhaseBuild, r) ∈ log.requests → r.keys.count "main" = 1) ∧
    (∀ r, (PhasePush, r) ∈ log.requests → "main" ∉ r.keys) ∧
    log.builder.builtMain = true ∧
    (∀ x c, bf log.builder { env with Earthfile2LLB := x } opt c = bf log.builder env opt c) := by
  have hfresh := convertAndBuild_fresh h
  obtain ⟨buildRs, c1, pushReqs, o, hinv, hmts, hpush, ho, hreq, _, _, _⟩ :=
    convertAndBuild_inv h
  have hbuilder : log.builder = { b with builtMain := true } := by
    simp only [convertAndBuild] at h
    split at h
    · exact absurd h (by simp)
    · split at h
      · exact absurd h (by simp)
      · split at h
        · exact absurd h (by simp)
        · split at h
          · exact absurd h (by simp)
          · split at h
            · simp only [Option.some.injEq] at h
              subst h
              rfl
            · exact absurd h (by simp)
  have hne : PhaseBuild ≠ PhasePush := by decide
  refine ⟨?_, ?_, ?_, ?_⟩
  · intro r hr
    rw [hreq] at hr
    rcases List.mem_append.1 hr with hr | hr
    · obtain ⟨res, hres, he⟩ := List.mem_map.1 hr
      simp only [Prod.mk.injEq, true_and] at he
      subst he
      obtain ⟨c0, c3, hbf⟩ := invokeAll_mem _ _ _ _ _ hinv res hres
      simpa [hfresh] using bf_count_main hbf
    · rcases pushPhase_inv hpush with ⟨rfl, _⟩ | ⟨_, _, _, _, rs, _, rfl⟩
      · simp at hr
      · obtain ⟨res, _, he⟩ := List.mem_map.1 hr
        simp only [Prod.mk.injEq] at he
        exact absurd he.1.symm hne
  · intro r hr
    rw [hreq] at hr
    rcases List.mem_append.1 hr with hr | hr
    · obtain ⟨res, _, he⟩ := List.mem_map.1 hr
      simp only [Prod.mk.injEq] at he
      exact absurd he.1 hne
    · rcases pushPhase_inv hpush with ⟨rfl, _⟩ | ⟨_, _, _, _, rs, hrs, rfl⟩
      · simp at hr
      · obtain ⟨res, hres, he⟩ := List.mem_map.1 hr
        simp only [Prod.mk.injEq, true_and] at he
        subst he
        obtain ⟨c0, c3, hbf⟩ := invokeAll_mem _ _ _ _ _ hrs res hres
        have := bf_count_main hbf
        simp only [if_true] at this
        exact List.count_eq_zero.1 this
  · rw [hbuilder]
  · intro x c
    exact bf_resolver _ _ _ _ _ (by rw [hbuilder])

/-- Witness of C3: the build with push of `pushLocalGraph`, one request per phase. -/
theorem main_registered_by_build_phase_requests_witness :
    ∃ log, convertAndBuild {} (demoEnv (some pushLocalGraph)) { Push := true } = some log ∧
      log.requests.map (fun r => (r.1, r.2.keys)) =
        [(PhaseBuild, ["main", "dir-0"]), (PhasePush, ["dep-0", "dir-1"])] ∧
      (∀ r, (PhaseBuild, r) ∈ log.requests → r.keys.count "main" = 1) ∧
      (∀ r, (PhasePush, r) ∈ log.requests → "main" ∉ r.keys) :=
  ⟨_, rfl, by decide,
    (main_registered_by_build_phase_requests {} (demoEnv (some pushLocalGraph))
      { Push := true } _ rfl).1,
    (main_registered_by_build_phase_requests {} (demoEnv (some pushLocalGraph))
      { Push := true } _ rfl).2.1⟩

/-- C3, as stated, fails: when the engine invokes the request constructor twice while
it executes the build phase, the second invocation registers `main` again. -/
theorem main_registered_again_within_build_phase :
    ∃ log, convertAndBuild {} (retryEnv (some oneLocalGraph)) {} = some log ∧
      log.requests.map (fun r => (r.1, r.2.Refs)) =
        [(PhaseBuild, [("main", "ref:final"), ("dir-0", "ref:final-a0")]),
         (PhaseBuild, [("main", "ref:final"), ("dir-1", "ref:final-a0")])] :=
  ⟨_, rfl, by decide⟩

/-! ### Two invocations of `bf` -/

theorem renderRefs_shift (dd ii ll : Nat) (labels : List Label) : ∀ d i l : Nat,
    (∀ key ref, Label.fixed key ref ∈ labels →
      key = "main" ∨ key = "final-artifact" ∨ key = "ephemeral") →
    List.Forall₂ (RefShifted dd ii ll) (renderRefs d i l labels)
      (renderRefs (d + dd) (i + ii) (l + ll) labels) := by
  induction labels with
  | nil => intro d i l _; exact List.Forall₂.nil
  | cons x rest ih =>
    intro d i l hfix
    have hrest : ∀ key ref, Label.fixed key ref ∈ rest →
        key = "main" ∨ key = "final-artifact" ∨ key = "ephemeral" :=
      fun key ref hm => hfix key ref (List.mem_cons_of_mem _ hm)
    cases x with
    | fixed key ref =>
      exact List.Forall₂.cons ⟨Or.inl ⟨rfl, hfix key ref (List.mem_cons_self _ _)⟩, rfl⟩
        (ih d i l hrest)
    | dep ref =>
      have := ih (d + 1) i l hrest
      rw [Nat.add_right_comm] at this
      exact List.Forall₂.cons ⟨Or.inr (Or.inl ⟨d, rfl, rfl⟩), rfl⟩ this
    | image ref =>
      have := ih d (i + 1) l hrest
      rw [Nat.add_right_comm i 1 ii] at this
      exact List.Forall₂.cons ⟨Or.inr (Or.inr (Or.inl ⟨i, rfl, rfl⟩)), rfl⟩ this
    | dir ref =>
      have := ih d i (l + 1) hrest
      rw [Nat.add_right_comm l 1 ll] at this
      exact List.Forall₂.cons ⟨Or.inr (Or.inr (Or.inr ⟨l, rfl, rfl⟩)), rfl⟩ this

theorem head_body_fixed {b : Builder} {n : Nat} {hl bl : List Label} (hh : HeadLabels b hl)
    (hb : BodyLabels n bl) : ∀ key ref, Label.fixed key ref ∈ hl ++ bl →
      key = "main" ∨ key = "final-artifact" ∨ key = "ephemeral" := by
  intro key ref hmem
  rcases List.mem_append.1 hmem with hm | hm
  · obtain ⟨pre, post, rfl, hpre, hpost⟩ := hh
    rcases List.mem_append.1 hm with hm | hm
    · rcases hpre with ⟨_, rfl⟩ | ⟨_, ref2, rfl⟩
      · simp at hm
      · simp only [List.mem_singleton, Label.fixed.injEq] at hm
        exact Or.inl hm.1
    · rcases hpost with rfl | ⟨ref2, rfl⟩
      · simp at hm
      · simp only [List.mem_singleton, Label.fixed.injEq] at hm
        exact Or.inr (Or.inl hm.1)
  · exact Or.inr (Or.inr (hb.1 key ref hm))

theorem forall2_of_mem {α β : Type} {R S : α → β → Prop} {xs : List α} {ys : List β}
    (h : List.Forall₂ R xs ys) (hmem : ∀ x ∈ xs, ∀ y, R x y → S x y) :
    List.Forall₂ S xs ys := by
  induction h with
  | nil => exact List.Forall₂.nil
  | cons hxy _ ih =>
    exact List.Forall₂.cons (hmem _ (List.mem_cons_self _ _) _ hxy)
      (ih fun x hx y hr => hmem x (List.mem_cons_of_mem _ hx) y hr)

theorem numbered_key_kinds (x : String) :
    (("dep" ++ "-").data.isPrefixOf ("dep-" ++ x).data = true ∧
      ("image" ++ "-").data.isPrefixOf ("dep-" ++ x).data = false ∧
      ("dir" ++ "-").data.isPrefixOf ("dep-" ++ x).data = false) ∧
    (("dep" ++ "-").data.isPrefixOf ("image-" ++ x).data = false ∧
      ("image" ++ "-").data.isPrefixOf ("image-" ++ x).data = true ∧
      ("dir" ++ "-").data.isPrefixOf ("image-" ++ x).data = false) ∧
    (("dep" ++ "-").data.isPrefixOf ("dir-" ++ x).data = false ∧
      ("image" ++ "-").data.isPrefixOf ("dir-" ++ x).data = false ∧
      ("dir" ++ "-").data.isPrefixOf ("dir-" ++ x).data = true) := by
  have e1 : ("dep" ++ "-").data = ['d', 'e', 'p', '-'] := by decide
  have e2 : ("image" ++ "-").data = ['i', 'm', 'a', 'g', 'e', '-'] := by decide
  have e3 : ("dir" ++ "-").data = ['d', 'i', 'r', '-'] := by decide
  have d1 : ("dep-" : String).data = ['d', 'e', 'p', '-'] := by decide
  have d2 : ("image-" : String).data = ['i', 'm', 'a', 'g', 'e', '-'] := by decide
  have d3 : ("dir-" : String).data = ['d', 'i', 'r', '-'] := by decide
  simp [String.data_append, e1, e2, e3, d1, d2, d3, List.isPrefixOf]

/-- The keys numbered for a list of labels are as many as the labels of each kind. -/
theorem renderRefs_numbered (labels : List Label) : ∀ d i l : Nat,
    (∀ key ref, Label.fixed key ref ∈ labels →
      key = "main" ∨ key = "final-artifact" ∨ key = "ephemeral") →
    (((renderRefs d i l labels).map Prod.fst).countP
        (fun k => ("dep" ++ "-").data.isPrefixOf k.data) = labels.countP Label.isDep) ∧
    (((renderRefs d i l labels).map Prod.fst).countP
        (fun k => ("image" ++ "-").data.isPrefixOf k.data) = labels.countP Label.isImage) ∧
    (((renderRefs d i l labels).map Prod.fst).countP
        (fun k => ("dir" ++ "-").data.isPrefixOf k.data) = labels.countP Label.isDir) := by
  induction labels with
  | nil => intro d i l _; simp [renderRefs]
  | cons x rest ih =>
    intro d i l hfix
    have hrest : ∀ key ref, Label.fixed key ref ∈ rest →
        key = "main" ∨ key = "final-artifact" ∨ key = "ephemeral" :=
      fun key ref hm => hfix key ref (List.mem_cons_of_mem _ hm)
    cases x with
    | fixed key ref =>
      obtain ⟨h1, h2, h3⟩ := ih d i l hrest
      have hk := hfix key ref (List.mem_cons_self _ _)
      have hno : ("dep" ++ "-").data.isPrefixOf key.data = false ∧
          ("image" ++ "-").data.isPrefixOf key.data = false ∧
          ("dir" ++ "-").data.isPrefixOf key.data = false := by
        rcases hk with rfl | rfl | rfl <;> decide
      simp only [renderRefs, List.map_cons, List.countP_cons, hno.1, hno.2.1, hno.2.2, h1, h2,
        h3, Label.isDep, Label.isImage, Label.isDir, Bool.false_eq_true, if_false,
        Nat.add_zero]
      exact ⟨trivial, trivial, trivial⟩
    | dep ref =>
      obtain ⟨h1, h2, h3⟩ := ih (d + 1) i l hrest
      obtain ⟨p1, p2, p3⟩ := (numbered_key_kinds (toString d)).1
      simp only [renderRefs, List.map_cons, List.countP_cons, p1, p2, p3, h1, h2, h3,
        Label.isDep, Label.isImage, Label.isDir, Bool.false_eq_true, if_false, if_true,
        Nat.add_zero]
      exact ⟨trivial, trivial, trivial⟩
    | image ref =>
      obtain ⟨h1, h2, h3⟩ := ih d (i + 1) l hrest
      obtain ⟨p1, p2, p3⟩ := (numbered_key_kinds (toString i)).2.1
      simp only [renderRefs, List.map_cons, List.countP_cons, p1, p2, p3, h1, h2, h3,
        Label.isDep, Label.isImage, Label.isDir, Bool.false_eq_true, if_false, if_true,
        Nat.add_zero]
      exact ⟨trivial, trivial, trivial⟩
    | dir ref =>
      obtain ⟨h1, h2, h3⟩ := ih d i (l + 1) hrest
      obtain ⟨p1, p2, p3⟩ := (numbered_key_kinds (toString l)).2.2
      simp only [renderRefs, List.map_cons, List.countP_cons, p1, p2, p3, h1, h2, h3,
        Label.isDep, Label.isImage, Label.isDir, Bool.false_eq_true, if_false, if_true,
        Nat.add_zero]
      exact ⟨trivial, trivial, trivial⟩

/-- An invocation of `bf` advances each counter by the number of keys of its kind that
the request registers. -/
theorem bf_counters (b : Builder) (env : Env) (opt : BuildOpt) (c c1 : Closure) (r : Result)
    (h : bf b env opt c = some (r, c1)) :
    c1.depIndex = c.depIndex + numberedKeys "dep" r ∧
    c1.imageIndex = c.imageIndex + numberedKeys "image" r ∧
    c1.dirIndex = c.dirIndex + numberedKeys "dir" r := by
  obtain ⟨mts, hg⟩ := bf_graph_of_some h
  obtain ⟨hl, bl, hh, hb, hall⟩ := bf_follows b env opt mts
  obtain ⟨hr, hd, hi, hdir, _⟩ := hall c r c1 hg h
  obtain ⟨z1, z2, z3⟩ := hh.counts
  obtain ⟨n1, n2, n3⟩ := renderRefs_numbered (hl ++ bl) c.depIndex c.imageIndex c.dirIndex
    (head_body_fixed hh hb)
  simp only [numberedKeys, Result.keys, hr, n1, n2, n3, List.countP_append, z1, z2, z3,
    Nat.zero_add]
  exact ⟨hd, hi, hdir⟩

/-- C2: a second invocation of the request constructor on the same graph registers the
same references in the same order. The first invocation advances the counters
`depIndex`, `imageIndex` and `dirIndex` by the number of `dep-N`, `image-N` and `dir-N`
keys it registers, and the counters are not reset: the second invocation registers each
reference under the same key if the key is `main`, `final-artifact` or `ephemeral`, and
under the key whose number is higher by the number of keys of that kind of the first
invocation otherwise, so that no numbered key is repeated. -/
theorem bf_second_invocation_continues_numbering (b : Builder) (env : Env) (opt : BuildOpt)
    (c c1 c2 : Closure) (r1 r2 : Result) (h1 : bf b env opt c = some (r1, c1))
    (h2 : bf b env opt c1 = some (r2, c2)) :
    (c1.depIndex = c.depIndex + numberedKeys "dep" r1 ∧
      c1.imageIndex = c.imageIndex + numberedKeys "image" r1 ∧
      c1.dirIndex = c.dirIndex + numberedKeys "dir" r1) ∧
    List.Forall₂
      (fun e e2 =>
        RefShifted (numberedKeys "dep" r1) (numberedKeys "image" r1) (numberedKeys "dir" r1)
          e e2 ∧
        (e2.1 = e.1 ↔ e.1 = "main" ∨ e.1 = "final-artifact" ∨ e.1 = "ephemeral"))
      r1.Refs r2.Refs := by
  obtain ⟨k1, k2, k3⟩ := bf_counters b env opt c c1 r1 h1
  refine ⟨⟨k1, k2, k3⟩, ?_⟩
  obtain ⟨mts, hg⟩ := bf_graph_of_some h1
  obtain ⟨hl, bl, hh, hb, hall⟩ := bf_follows b env opt mts
  obtain ⟨hr1, hd, hi, hdir, hm⟩ := hall c r1 c1 hg h1
  have hg1 : bfGraph b env c1 = some mts := by
    unfold bfGraph at hg ⊢
    split
    · rename_i hb0
      simpa [hb0] using hg
    · exact hm
  obtain ⟨hr2, _, _, _, _⟩ := hall c1 r2 c2 hg1 h2
  have hshift : List.Forall₂
      (RefShifted (numberedKeys "dep" r1) (numberedKeys "image" r1) (numberedKeys "dir" r1))
      r1.Refs r2.Refs := by
    rw [hr1, hr2, k1, k2, k3]
    exact renderRefs_shift _ _ _ _ _ _ _ (head_body_fixed hh hb)
  refine forall2_of_mem hshift ?_
  intro e he e2 hs
  refine ⟨hs, ?_⟩
  have hkey : e.1 ∈ r1.keys := List.mem_map.2 ⟨e, he, rfl⟩
  obtain ⟨hks, _⟩ := hs
  rcases hks with ⟨heq, hfix⟩ | ⟨n, hk, hk2⟩ | ⟨n, hk, hk2⟩ | ⟨n, hk, hk2⟩
  · exact ⟨fun _ => hfix, fun _ => heq⟩
  · have hpos : 0 < numberedKeys "dep" r1 :=
      List.countP_pos_iff.2 ⟨e.1, hkey, by rw [hk]; exact (numbered_key_kinds _).1.1⟩
    constructor
    · intro heq
      rw [hk, hk2] at heq
      have := depKey_inj heq
      omega
    · intro hfix
      rw [hk] at hfix
      rcases hfix with hf | hf | hf
      · exact absurd hf (numbered_ne_fixed _).1.1
      · exact absurd hf (numbered_ne_fixed _).1.2.1
      · exact absurd hf (numbered_ne_fixed _).1.2.2
  · have hpos : 0 < numberedKeys "image" r1 :=
      List.countP_pos_iff.2 ⟨e.1, hkey, by rw [hk]; exact (numbered_key_kinds _).2.1.2.1⟩
    constructor
    · intro heq
      rw [hk, hk2] at heq
      have := imageKey_inj heq
      omega
    · intro hfix
      rw [hk] at hfix
      rcases hfix with hf | hf | hf
      · exact absurd hf (numbered_ne_fixed _).2.1.1
      · exact absurd hf (numbered_ne_fixed _).2.1.2.1
      · exact absurd hf (numbered_ne_fixed _).2.1.2.2
  · have hpos : 0 < numberedKeys "dir" r1 :=
      List.countP_pos_iff.2 ⟨e.1, hkey, by rw [hk]; exact (numbered_key_kinds _).2.2.2.2⟩
    constructor
    · intro heq
      rw [hk, hk2] at heq
      have := dirKey_inj heq
      omega
    · intro hfix
      rw [hk] at hfix
      rcases hfix with hf | hf | hf
      · exact absurd hf (numbered_ne_fixed _).2.2.1
      · exact absurd hf (numbered_ne_fixed _).2.2.2.1
      · exact absurd hf (numbered_ne_fixed _).2.2.2.2

/-- Witness of C2: two invocations for `oneLocalGraph`; the first registers one `dir-N`
key and no other numbered key, and the local output is registered as `dir-0` by the
first and as `dir-1` by the second. -/
theorem bf_second_invocation_continues_numbering_witness :
    ∃ p1 p2, bf {} (demoEnv (some oneLocalGraph)) {} {} = some p1 ∧
      bf {} (demoEnv (some oneLocalGraph)) {} p1.2 = some p2 ∧
      (numberedKeys "dep" p1.1 = 0 ∧ numberedKeys "image" p1.1 = 0 ∧
        numberedKeys "dir" p1.1 = 1) ∧
      ((p1.2.depIndex = 0 + numberedKeys "dep" p1.1 ∧
          p1.2.imageIndex = 0 + numberedKeys "image" p1.1 ∧
          p1.2.dirIndex = 0 + numberedKeys "dir" p1.1) ∧
        List.Forall₂
          (fun e e2 =>
            RefShifted (numberedKeys "dep" p1.1) (numberedKeys "image" p1.1)
              (numberedKeys "dir" p1.1) e e2 ∧
            (e2.1 = e.1 ↔ e.1 = "main" ∨ e.1 = "final-artifact" ∨ e.1 = "ephemeral"))
          p1.1.Refs p2.1.Refs) :=
  ⟨_, _, rfl, rfl, by decide,
    bf_second_invocation_continues_numbering {} (demoEnv (some oneLocalGraph)) {} {} _ _ _ _
      rfl rfl⟩

/-- C2, as stated, fails: invoked twice on `oneLocalGraph`, the request constructor
registers the same local output as `dir-0` the first time and as `dir-1` the second. -/
theorem bf_second_invocation_renumbers :
    ∃ p1 p2, bf {} (demoEnv (some oneLocalGraph)) {} {} = some p1 ∧
      bf {} (demoEnv (some oneLocalGraph)) {} p1.2 = some p2 ∧
      p1.1.Refs = [("main", "ref:final"), ("dir-0", "ref:final-a0")] ∧
      p2.1.Refs = [("main", "ref:final"), ("dir-1", "ref:final-a0")] ∧
      p1.1.Metadata.map Prod.snd = ["+final/m", "m", "m.txt", "true", "0"] ∧
      p2.1.Metadata.map Prod.snd = ["+final/m", "m", "m.txt", "true", "1"] :=
  ⟨_, _, rfl, rfl, rfl, rfl, rfl, rfl⟩

/-! ### Before `builtMain` is set, `bf` does not read the deferred push phase -/

theorem depStep_withoutRunPush (b : Builder) (env : Env) (x m : Option MultiTarget)
    (sts : SingleTarget) (s : BfState) (hb : b.builtMain = false) :
    depStep b { env with Earthfile2LLB := x } sts.withoutRunPush (s.withMts m) =
      (depStep b env sts s).map fun s2 => s2.withMts m := by
  simp only [depStep, needsDep, hb, Builder.targetPhaseState, Builder.stateToRef,
    SingleTarget.withoutRunPush, BfState.withMts, Bool.false_and, Bool.or_false,
    Bool.false_eq_true, if_false]
  split
  · split <;> rfl
  · rfl

theorem multiImageExport_withMts (b : Builder) (env : Env) (m : Option MultiTarget)
    (platform : Platform) (saveImage : SaveImage) (ref : Reference) (config : String)
    (s : BfState) :
    multiImageExport b env platform saveImage ref config (s.withMts m) =
      (multiImageExport b env platform saveImage ref config s).map fun s2 => s2.withMts m := by
  simp only [multiImageExport, BfState.withMts]
  cases env.platformSpecificImageName saveImage.DockerTag platform with
  | none => rfl
  | some platformImgName =>
    simp only []
    cases env.platformSpecificImageName
        ("sess-" ++ env.SessionID ++ "/mp:img" ++ toString (s.c.imageIndex + 1)) platform with
    | none => rfl
    | some localRegPullID => rfl

theorem saveImageStep_withMts (b : Builder) (env : Env) (x m : Option MultiTarget)
    (opt : BuildOpt) (multi : List String) (sts : SingleTarget) (isFinal : Bool)
    (saveImage : SaveImage) (s : BfState) :
    saveImageStep b { env with Earthfile2LLB := x } opt multi sts.withoutRunPush isFinal
        saveImage (s.withMts m) =
      (saveImageStep b env opt multi sts isFinal saveImage s).map fun s2 => s2.withMts m := by
  have h0 : saveImageStep b { env with Earthfile2LLB := x } opt multi sts.withoutRunPush
      isFinal saveImage (s.withMts m) =
      saveImageStep b env opt multi sts isFinal saveImage (s.withMts m) := rfl
  rw [h0]
  simp only [saveImageStep]
  split
  · rfl
  · cases b.stateToRef env saveImage.State sts.Platform with
    | none => rfl
    | some ref =>
      simp only []
      cases env.Marshal saveImage.Image with
      | none => rfl
      | some config =>
        simp only []
        split
        · rfl
        · cases shouldPush opt sts saveImage <;> cases shouldExport opt isFinal saveImage
          · rfl
          · simp only [Bool.false_eq_true, if_false, if_true]
            exact multiImageExport_withMts _ _ _ _ _ _ _ _
          · rfl
          · simp only [Bool.false_eq_true, if_false, if_true]
            exact multiImageExport_withMts b env m _ saveImage ref config
              (multiImagePush (env.PlatformWithDefaultToString sts.Platform) saveImage ref
                config s)

theorem saveImagesLoop_withMts (b : Builder) (env : Env) (x m : Option MultiTarget)
    (opt : BuildOpt) (multi : List String) (sts : SingleTarget) (isFinal : Bool)
    (images : List SaveImage) : ∀ s,
    saveImagesLoop b { env with Earthfile2LLB := x } opt multi sts.withoutRunPush isFinal
        images (s.withMts m) =
      (saveImagesLoop b env opt multi sts isFinal images s).map fun s2 => s2.withMts m := by
  induction images with
  | nil => intro s; rfl
  | cons saveImage rest ih =>
    intro s
    simp only [saveImagesLoop, saveImageStep_withMts]
    cases saveImageStep b env opt multi sts isFinal saveImage s with
    | none => rfl
    | some s1 => exact ih s1

theorem saveLocalStep_withMts (b : Builder) (env : Env) (x m : Option MultiTarget)
    (sts : SingleTarget) (saveLocal : SaveLocal) (s : BfState) :
    saveLocalStep b { env with Earthfile2LLB := x } sts.withoutRunPush saveLocal
        (s.withMts m) =
      (saveLocalStep b env sts saveLocal s).map fun s2 => s2.withMts m := by
  simp only [saveLocalStep, Builder.artifactStateToRef, SingleTarget.withoutRunPush,
    BfState.withMts]
  split
  · rfl
  · split <;> rfl

theorem saveLocalsLoop_withMts (b : Builder) (env : Env) (x m : Option MultiTarget)
    (sts : SingleTarget) (locals : List SaveLocal) : ∀ s,
    saveLocalsLoop b { env with Earthfile2LLB := x } sts.withoutRunPush locals (s.withMts m) =
      (saveLocalsLoop b env sts locals s).map fun s2 => s2.withMts m := by
  induction locals with
  | nil => intro s; rfl
  | cons saveLocal rest ih =>
    intro s
    simp only [saveLocalsLoop, saveLocalStep_withMts]
    cases saveLocalStep b env sts saveLocal s with
    | none => rfl
    | some s1 => exact ih s1

theorem ephemeralStep_withoutRunPush (b : Builder) (env : Env) (x m : Option MultiTarget)
    (sts : SingleTarget) (s : BfState) (hb : b.builtMain = false) :
    ephemeralStep b { env with Earthfile2LLB := x } sts.withoutRunPush (s.withMts m) =
      (ephemeralStep b env sts s).map fun s2 => s2.withMts m := by
  simp only [ephemeralStep, hb, Builder.targetPhaseInteractiveSession, Builder.stateToRef,
    SingleTarget.withoutRunPush, BfState.withMts, Bool.false_eq_true, if_false]
  split
  · split <;> rfl
  · rfl

theorem targetStep_withoutRunPush (b : Builder) (env : Env) (x m : Option MultiTarget)
    (opt : BuildOpt) (multi : List String) (sts : SingleTarget) (isFinal : Bool) (s : BfState)
    (hb : b.builtMain = false) :
    targetStep b { env with Earthfile2LLB := x } opt multi sts.withoutRunPush isFinal
        (s.withMts m) =
      (targetStep b env opt multi sts isFinal s).map fun s2 => s2.withMts m := by
  have himg : b.targetPhaseImages sts.withoutRunPush = b.targetPhaseImages sts := by
    simp [Builder.targetPhaseImages, hb, SingleTarget.withoutRunPush]
  have hart : b.targetPhaseArtifacts sts.withoutRunPush = b.targetPhaseArtifacts sts := by
    simp [Builder.targetPhaseArtifacts, hb, SingleTarget.withoutRunPush]
  simp only [targetStep, depStep_withoutRunPush _ _ _ _ _ _ hb, himg, hart]
  cases depStep b env sts s with
  | none => rfl
  | some s1 =>
    simp only [Option.map_some', saveImagesLoop_withMts]
    cases saveImagesLoop b env opt multi sts isFinal (b.targetPhaseImages sts) s1 with
    | none => rfl
    | some s2 =>
      simp only [Option.map_some']
      by_cases hp : performSaveLocals opt = true
      · simp only [hp, if_true, saveLocalsLoop_withMts]
        cases saveLocalsLoop b env sts (b.targetPhaseArtifacts sts) s2 with
        | none => rfl
        | some s3 => exact ephemeralStep_withoutRunPush _ _ _ _ _ _ hb
      · simp only [hp, Bool.false_eq_true, if_false]
        exact ephemeralStep_withoutRunPush _ _ _ _ _ _ hb

theorem targetsLoop_withoutRunPush (b : Builder) (env : Env) (x m : Option MultiTarget)
    (opt : BuildOpt) (multi : List String) (hb : b.builtMain = false)
    (targets : List (SingleTarget × Bool)) : ∀ s,
    targetsLoop b { env with Earthfile2LLB := x } opt multi
        (targets.map fun t => (t.1.withoutRunPush, t.2)) (s.withMts m) =
      (targetsLoop b env opt multi targets s).map fun s2 => s2.withMts m := by
  induction targets with
  | nil => intro s; rfl
  | cons t rest ih =>
    intro s
    obtain ⟨sts, isFinal⟩ := t
    simp only [List.map_cons, targetsLoop, targetStep_withoutRunPush _ _ _ _ _ _ _ _ _ hb]
    cases targetStep b env opt multi sts isFinal s with
    | none => rfl
    | some s1 => exact ih s1

theorem AllTagged_withoutRunPush (mts : MultiTarget) :
    mts.withoutRunPush.AllTagged = mts.AllTagged.map fun t => (t.1.withoutRunPush, t.2) := by
  simp [MultiTarget.AllTagged, MultiTarget.withoutRunPush, Function.comp_def]

theorem All_withoutRunPush (mts : MultiTarget) :
    mts.withoutRunPush.All = mts.All.map SingleTarget.withoutRunPush := by
  simp [MultiTarget.All, MultiTarget.withoutRunPush]

theorem isMultiPlatform_withoutRunPush (b : Builder) (hb : b.builtMain = false)
    (all : List SingleTarget) :
    isMultiPlatform b (all.map SingleTarget.withoutRunPush) = isMultiPlatform b all := by
  induction all with
  | nil => rfl
  | cons sts rest ih =>
    unfold isMultiPlatform at ih ⊢
    simp only [List.map_cons, List.filter_cons]
    have hplat : sts.withoutRunPush.Platform = sts.Platform := rfl
    have himg : b.targetPhaseImages sts.withoutRunPush = b.targetPhaseImages sts := by
      simp [Builder.targetPhaseImages, hb, SingleTarget.withoutRunPush]
    rw [hplat]
    split
    · simp only [List.flatMap_cons, himg, ih]
    · exact ih

/-- Before `builtMain` is set, the request that `bf` constructs is the same for a graph
and for the graph without its deferred push phases. -/
theorem bf_withoutRunPush (b : Builder) (env : Env) (opt : BuildOpt) (c : Closure)
    (hb : b.builtMain = false) :
    bf b env.withoutRunPush opt c =
      (bf b env opt c).map fun p =>
        (p.1, { p.2 with mts := p.2.mts.map MultiTarget.withoutRunPush }) := by
  unfold Env.withoutRunPush
  simp only [bf, bfGraph, hb, Bool.not_false, if_true]
  cases hm : env.Earthfile2LLB with
  | none => rfl
  | some mts =>
    simp only [Option.map_some']
    have hhead : bfHead b { env with Earthfile2LLB := some mts.withoutRunPush } opt
        mts.withoutRunPush = bfHead b env opt mts := rfl
    rw [hhead]
    cases bfHead b env opt mts with
    | none => rfl
    | some res =>
      simp only [AllTagged_withoutRunPush, All_withoutRunPush,
        isMultiPlatform_withoutRunPush b hb]
      have := targetsLoop_withoutRunPush b env (some mts.withoutRunPush)
        (some mts.withoutRunPush) opt (isMultiPlatform b mts.All) hb mts.AllTagged
        { res := res, c := { c with mts := some mts } }
      simp only [BfState.withMts] at this
      rw [this]
      cases hs : targetsLoop b env opt (isMultiPlatform b mts.All) mts.AllTagged
          { res := res, c := { c with mts := some mts } } with
      | none => rfl
      | some s =>
        obtain ⟨_, _, hf⟩ := targetsLoop_follows b env opt (isMultiPlatform b mts.All)
          mts.AllTagged
        have hmts : s.c.mts = some mts := (hf _ _ hs).2.2.2.2
        simp [hmts]

theorem bf_ignores_mts (b : Builder) (env : Env) (opt : BuildOpt) (c : Closure)
    (m : Option MultiTarget) (hb : b.builtMain = false) :
    bf b env opt { c with mts := m } = bf b env opt c := by
  simp only [bf, bfGraph, hb, Bool.not_false, if_true]

theorem invokeAll_withoutRunPush (b : Builder) (env : Env) (opt : BuildOpt)
    (hb : b.builtMain = false) (n : Nat) : ∀ (c : Closure) (m : Option MultiTarget),
    invokeAll (bf b env.withoutRunPush opt) n { c with mts := m } =
      (invokeAll (bf b env opt) n c).map fun p =>
        (p.1, { p.2 with mts := p.2.mts.map MultiTarget.withoutRunPush }) := by
  induction n with
  | zero =>
    intro c m
    simp only [invokeAll, bf_ignores_mts _ _ _ _ _ hb, bf_withoutRunPush _ _ _ _ hb]
    cases bf b env opt c with
    | none => rfl
    | some p => rfl
  | succ n ih =>
    intro c m
    simp only [invokeAll, bf_ignores_mts _ _ _ _ _ hb, bf_withoutRunPush _ _ _ _ hb]
    cases bf b env opt c with
    | none => rfl
    | some p =>
      obtain ⟨r, c1⟩ := p
      simp only [Option.map_some']
      rw [ih c1 (c1.mts.map MultiTarget.withoutRunPush)]
      cases invokeAll (bf b env opt) n c1 with
      | none => rfl
      | some q => rfl

/-! ### The output part without push -/

theorem outputImages_trace (env : Env) (opt : BuildOpt) (sts : SingleTarget)
    (images : List SaveImage) : ∀ o, (outputImages env opt sts images o).trace = o.trace := by
  induction images with
  | nil => intro o; rfl
  | cons saveImage rest ih =>
    intro o
    simp only [outputImages]
    split
    · exact ih o
    · rw [ih]
      rfl

theorem outputSaveLocals_trace (env env2 : Env)
    (ht : env2.tempEarthlyOutDir = env.tempEarthlyOutDir)
    (hs : env2.saveArtifactLocally = env.saveArtifactLocally) (sts sts2 : SingleTarget)
    (hT : sts2.Target = sts.Target) (hI : sts2.ID = sts.ID) (locals : List SaveLocal) :
    ∀ o o2 : OutputState, o2.trace = o.trace →
    (outputSaveLocals env2 sts2 locals o2).map OutputState.trace =
      (outputSaveLocals env sts locals o).map OutputState.trace := by
  induction locals with
  | nil =>
    intro o o2 h
    simp only [outputSaveLocals, Option.map_some', h]
  | cons saveLocal rest ih =>
    intro o o2 h
    simp only [OutputState.trace, Prod.mk.injEq] at h
    obtain ⟨hsv, hd⟩ := h
    simp only [outputSaveLocals, ht, hs, hT, hI]
    cases env.tempEarthlyOutDir with
    | none => rfl
    | some outDir =>
      simp only [callSaveArtifactLocally, hsv, hd, hs]
      cases env.saveArtifactLocally o.saves _ with
      | none => rfl
      | some lines =>
        simp only []
        apply ih
        simp [OutputState.trace, hsv, hd]

theorem reportSkippedRunPush_trace (rp : RunPush) (o : OutputState) :
    (reportSkippedRunPush rp o).trace = o.trace := rfl

theorem outputTarget_trace (env env2 : Env)
    (ht : env2.tempEarthlyOutDir = env.tempEarthlyOutDir)
    (hs : env2.saveArtifactLocally = env.saveArtifactLocally) (opt : BuildOpt)
    (hpush : opt.Push = false) (sts : SingleTarget) (o o2 : OutputState)
    (h : o2.trace = o.trace) :
    (outputTarget env2 opt sts.withoutRunPush o2).map OutputState.trace =
      (outputTarget env opt sts o).map OutputState.trace := by
  have himg : (outputImages env2 opt sts.withoutRunPush
      sts.withoutRunPush.SaveImages o2).trace = (outputImages env opt sts sts.SaveImages o).trace := by
    rw [outputImages_trace, outputImages_trace, h]
  have hloc := outputSaveLocals_trace env env2 ht hs sts sts.withoutRunPush rfl rfl
    sts.SaveLocals _ _ himg
  simp only [outputTarget, hpush]
  have e1 : sts.withoutRunPush.SaveLocals = sts.SaveLocals := rfl
  have e2 : sts.withoutRunPush.RunPush.HasState = false := rfl
  rw [e1, e2]
  revert hloc
  cases outputSaveLocals env2 sts.withoutRunPush sts.SaveLocals
      (outputImages env2 opt sts.withoutRunPush sts.withoutRunPush.SaveImages o2) with
  | none =>
    cases outputSaveLocals env sts sts.SaveLocals (outputImages env opt sts sts.SaveImages o) with
    | none => intro _; rfl
    | some o1 => intro hloc; simp at hloc
  | some o3 =>
    cases outputSaveLocals env sts sts.SaveLocals (outputImages env opt sts sts.SaveImages o) with
    | none => intro hloc; simp at hloc
    | some o1 =>
      intro hloc
      simp only [Option.map_some', Option.some.injEq] at hloc
      simp only [Bool.false_eq_true, if_false, Option.map_some', Option.some.injEq]
      split
      · simp only [Option.map_some', Option.some.injEq, reportSkippedRunPush_trace]
        exact hloc
      · simp only [Option.map_some', Option.some.injEq]
        exact hloc

theorem outputTargets_trace (env env2 : Env)
    (ht : env2.tempEarthlyOutDir = env.tempEarthlyOutDir)
    (hs : env2.saveArtifactLocally = env.saveArtifactLocally) (opt : BuildOpt)
    (hpush : opt.Push = false) (targets : List SingleTarget) :
    ∀ o o2 : OutputState, o2.trace = o.trace →
    (outputTargets env2 opt (targets.map SingleTarget.withoutRunPush) o2).map
        OutputState.trace =
      (outputTargets env opt targets o).map OutputState.trace := by
  induction targets with
  | nil =>
    intro o o2 h
    simp only [List.map_nil, outputTargets, Option.map_some', h]
  | cons sts rest ih =>
    intro o o2 h
    have hstep := outputTarget_trace env env2 ht hs opt hpush sts o o2 h
    simp only [List.map_cons, outputTargets]
    revert hstep
    cases outputTarget env2 opt sts.withoutRunPush o2 with
    | none =>
      cases outputTarget env opt sts o with
      | none => intro _; rfl
      | some o1 => intro hstep; simp at hstep
    | some o3 =>
      cases outputTarget env opt sts o with
      | none => intro hstep; simp at hstep
      | some o1 =>
        intro hstep
        simp only [Option.map_some', Option.some.injEq] at hstep
        exact ih o1 o3 hstep

theorem outputFinalImages_trace (env : Env) (opt : BuildOpt) (final : SingleTarget)
    (images : List SaveImage) :
    ∀ o, (outputFinalImages env opt final images o).trace = o.trace := by
  induction images with
  | nil => intro o; rfl
  | cons saveImage rest ih =>
    intro o
    simp only [outputFinalImages]
    split
    · exact ih o
    · rw [ih]
      rfl

/-- Without push, the output part makes the same calls of `saveArtifactLocally` for a
graph and for the graph without its deferred push phases. -/
theorem outputPhase_trace (env env2 : Env)
    (ht : env2.tempEarthlyOutDir = env.tempEarthlyOutDir)
    (hs : env2.saveArtifactLocally = env.saveArtifactLocally) (opt : BuildOpt)
    (hpush : opt.Push = false) (mts : MultiTarget) :
    (outputPhase env2 opt mts.withoutRunPush).map OutputState.trace =
      (outputPhase env opt mts).map OutputState.trace := by
  simp only [outputPhase]
  split
  · rfl
  · cases opt.OnlyArtifact with
    | some onlyArtifact =>
      simp only [ht, callSaveArtifactLocally, hs]
      rfl
    | none =>
      simp only []
      split
      · simp only [Option.map_some', outputFinalImages_trace]
      · rw [All_withoutRunPush]
        exact outputTargets_trace env env2 ht hs opt hpush mts.All _ _ rfl

theorem pushPhase_without_push (b : Builder) (env : Env) (opt : BuildOpt) (mts : MultiTarget)
    (c : Closure) (hpush : opt.Push = false) : pushPhase b env opt mts c = some ([], c) := by
  simp [pushPhase, hpush]

/-- C5: when push is not requested, the requests that `convertAndBuild` issues on a
fresh builder are requests of the build phase only, and they are the requests issued
for the same graph with every deferred push phase (`RunPush` state, images, local
outputs, interactive session) removed: nothing of a deferred push phase is turned into
an entry of a request. -/
theorem deferred_push_phase_unused_without_push (b : Builder) (env : Env) (opt : BuildOpt)
    (hfresh : b.builtMain = false) (hpush : opt.Push = false) :
    (convertAndBuild b env.withoutRunPush opt).map (fun log => log.requests) =
        (convertAndBuild b env opt).map (fun log => log.requests) ∧
      ∀ log, convertAndBuild b env opt = some log → ∀ pr ∈ log.requests, pr.1 = PhaseBuild := by
  constructor
  · have hinv := invokeAll_withoutRunPush b env opt hfresh env.buildRetries {} none
    have e0 : ({ ({} : Closure) with mts := none } : Closure) = {} := rfl
    rw [e0] at hinv
    have e1 : env.withoutRunPush.buildRetries = env.buildRetries := rfl
    have e2 : env.withoutRunPush.solveOk = env.solveOk := rfl
    have e3 : env.withoutRunPush.loadDockerManifestOk = env.loadDockerManifestOk := rfl
    simp only [convertAndBuild, buildMainMulti, e1, e2, e3, hinv,
      pushPhase_without_push _ _ _ _ _ hpush]
    cases invokeAll (bf b env opt) env.buildRetries {} with
    | none => rfl
    | some p =>
      obtain ⟨rs, c1⟩ := p
      simp only [Option.map_some']
      cases env.solveOk PhaseBuild with
      | false => rfl
      | true =>
        simp only [if_true]
        cases c1.mts with
        | none => rfl
        | some mts =>
          simp only [Option.map_some']
          have hout := outputPhase_trace env env.withoutRunPush rfl rfl opt hpush mts
          revert hout
          cases outputPhase env.withoutRunPush opt mts.withoutRunPush with
          | none =>
            cases outputPhase env opt mts with
            | none => intro _; rfl
            | some o => intro hout; simp at hout
          | some o2 =>
            cases outputPhase env opt mts with
            | none => intro hout; simp at hout
            | some o =>
              intro _
              simp only []
              split <;> rfl
  · intro log h pr hpr
    obtain ⟨buildRs, c1, pushReqs, o, _, _, hp, _, hreq, _⟩ := convertAndBuild_inv h
    rw [pushPhase_without_push _ _ _ _ _ hpush] at hp
    simp only [Option.some.injEq, Prod.mk.injEq] at hp
    rw [hreq, ← hp.1, List.append_nil] at hpr
    obtain ⟨res, _, rfl⟩ := List.mem_map.1 hpr
    rfl

/-- Witness of C5: the build without push of `pushLocalGraph`, whose dependency has a
deferred push phase with a local output; the only request is the one of the build
phase, with the local output of the final target alone. -/
theorem deferred_push_phase_unused_without_push_witness :
    (convertAndBuild {} (demoEnv (some pushLocalGraph)) {}).map
        (fun log => log.requests.map fun r => (r.1, r.2.Refs)) =
      some [(PhaseBuild, [("main", "ref:final"), ("dir-0", "ref:final-a0")])] ∧
    (convertAndBuild {} (demoEnv (some pushLocalGraph)).withoutRunPush {}).map
        (fun log => log.requests) =
      (convertAndBuild {} (demoEnv (some pushLocalGraph)) {}).map (fun log => log.requests) :=
  ⟨by decide,
    (deferred_push_phase_unused_without_push {} (demoEnv (some pushLocalGraph)) {} rfl rfl).1⟩

/-- C6: `convertAndBuild` constructs a request for the push phase only if push is
requested and at least one target has `RunPush.HasState`; in particular, when push is
requested and no target has deferred push state, no request of the push phase is
constructed; in both cases the push part returns without calling the solver. -/
theorem push_phase_requires_push_and_state (b : Builder) (env : Env) (opt : BuildOpt)
    (log : BuildLog) (h : convertAndBuild b env opt = some log) :
    ((∃ r, (PhasePush, r) ∈ log.requests) →
        opt.Push = true ∧ ∃ sts ∈ log.mts.All, sts.RunPush.HasState = true) ∧
      (opt.Push = true → (∀ sts ∈ log.mts.All, sts.RunPush.HasState = false) →
        ∀ r, (PhasePush, r) ∉ log.requests) ∧
      (∀ (b1 : Builder) (mts : MultiTarget) (c : Closure),
        (opt.Push = false ∨ ∀ sts ∈ mts.All, sts.RunPush.HasState = false) →
          pushPhase b1 env opt mts c = some ([], c)) := by
  obtain ⟨buildRs, c1, pushReqs, o, _, _, hp, _, hreq, _⟩ := convertAndBuild_inv h
  have hne : PhaseBuild ≠ PhasePush := by decide
  have key : (∃ r, (PhasePush, r) ∈ log.requests) →
      opt.Push = true ∧ ∃ sts ∈ log.mts.All, sts.RunPush.HasState = true := by
    rintro ⟨r, hr⟩
    rw [hreq] at hr
    rcases List.mem_append.1 hr with hr | hr
    · obtain ⟨res, _, he⟩ := List.mem_map.1 hr
      simp only [Prod.mk.injEq] at he
      exact absurd he.1 hne
    · rcases pushPhase_inv hp with ⟨rfl, _⟩ | ⟨h1, _, _, h4, _⟩
      · simp at hr
      · exact ⟨h1, h4⟩
  refine ⟨key, ?_, ?_⟩
  · intro _ hnone r hr
    obtain ⟨_, sts, hsts, hstate⟩ := key ⟨r, hr⟩
    rw [hnone sts hsts] at hstate
    exact absurd hstate (by decide)
  · intro b1 mts c hcase
    rcases hcase with hpush | hnone
    · exact pushPhase_without_push _ _ _ _ _ hpush
    · have hany : (mts.All.any fun sts => sts.RunPush.HasState) = false := by
        rw [List.any_eq_false]
        intro sts hsts
        simp [hnone sts hsts]
      simp only [pushPhase, hany, Bool.false_eq_true, if_false, ite_self]

/-- Witness of C6: with push requested, `pushLocalGraph` (one target with deferred push
state) gets a request of the push phase, and `oneLocalGraph` (none) gets none. -/
theorem push_phase_requires_push_and_state_witness :
    (∃ log, convertAndBuild {} (demoEnv (some pushLocalGraph)) { Push := true } = some log ∧
      log.requests.map Prod.fst = [PhaseBuild, PhasePush] ∧
      ((∃ r, (PhasePush, r) ∈ log.requests) →
        ({ Push := true } : BuildOpt).Push = true ∧
          ∃ sts ∈ log.mts.All, sts.RunPush.HasState = true)) ∧
    (∃ log, convertAndBuild {} (demoEnv (some oneLocalGraph)) { Push := true } = some log ∧
      log.requests.map Prod.fst = [PhaseBuild]) :=
  ⟨⟨_, rfl, by decide,
      (push_phase_requires_push_and_state {} (demoEnv (some pushLocalGraph)) { Push := true }
        _ rfl).1⟩,
    ⟨_, rfl, by decide⟩⟩

/-! ### The output part in full output mode without push -/

theorem reportSkippedRunPush_pushConsole (rp : RunPush) (o : OutputState) :
    (reportSkippedRunPush rp o).pushConsole = o.pushConsole ++ notExecutedLines rp := by
  simp only [reportSkippedRunPush, notExecutedLines]
  split <;> simp [List.append_assoc]

theorem outputImages_grows (env : Env) (opt : BuildOpt) (sts : SingleTarget)
    (images : List SaveImage) : ∀ o,
    (∀ line ∈ o.pushConsole, line ∈ (outputImages env opt sts images o).pushConsole) ∧
      (outputImages env opt sts images o).saves = o.saves := by
  induction images with
  | nil => intro o; exact ⟨fun _ h => h, rfl⟩
  | cons saveImage rest ih =>
    intro o
    simp only [outputImages]
    split
    · exact ih o
    · refine ⟨?_, (ih _).2⟩
      intro line hline
      apply (ih _).1
      simp only
      split <;> split <;> simp [hline]

theorem outputSaveLocals_saves (env : Env) (sts : SingleTarget) (locals : List SaveLocal) :
    ∀ o o2, outputSaveLocals env sts locals o = some o2 →
      o2.pushConsole = o.pushConsole ∧
      o2.saves.map (fun call => (call.artifact, call.destPath)) =
        o.saves.map (fun call => (call.artifact, call.destPath)) ++
          locals.map (materialised sts) := by
  induction locals with
  | nil =>
    intro o o2 h
    simp only [outputSaveLocals, Option.some.injEq] at h
    subst h
    simp
  | cons saveLocal rest ih =>
    intro o o2 h
    simp only [outputSaveLocals] at h
    split at h
    · exact absurd h (by simp)
    · split at h
      · exact absurd h (by simp)
      · rename_i outDir _ o1 ho1
        simp only [callSaveArtifactLocally] at ho1
        split at ho1
        · exact absurd ho1 (by simp)
        · simp only [Option.some.injEq] at ho1
          subst ho1
          obtain ⟨h1, h2⟩ := ih _ _ h
          refine ⟨h1, ?_⟩
          rw [h2]
          simp [materialised]

theorem outputTarget_without_push (env : Env) (opt : BuildOpt) (hpush : opt.Push = false)
    (sts : SingleTarget) (o o2 : OutputState) (h : outputTarget env opt sts o = some o2) :
    (∀ line ∈ o.pushConsole, line ∈ o2.pushConsole) ∧
      (sts.RunPush.HasState = true →
        ∀ line ∈ notExecutedLines sts.RunPush, line ∈ o2.pushConsole) ∧
      o2.saves.map (fun call => (call.artifact, call.destPath)) =
        o.saves.map (fun call => (call.artifact, call.destPath)) ++
          sts.SaveLocals.map (materialised sts) := by
  simp only [outputTarget, hpush] at h
  split at h
  · exact absurd h (by simp)
  · rename_i o1 ho1
    obtain ⟨hp1, hs1⟩ := outputSaveLocals_saves env sts _ _ _ ho1
    obtain ⟨hg, hsv⟩ := outputImages_grows env opt sts sts.SaveImages o
    rw [hsv] at hs1
    split at h
    · rename_i hstate
      simp only [Bool.false_eq_true, if_false, Option.some.injEq] at h
      subst h
      refine ⟨?_, ?_, ?_⟩
      · intro line hline
        rw [reportSkippedRunPush_pushConsole, hp1]
        exact List.mem_append_left _ (hg line hline)
      · intro _ line hline
        rw [reportSkippedRunPush_pushConsole]
        exact List.mem_append_right _ hline
      · exact hs1
    · rename_i hstate
      simp only [Option.some.injEq] at h
      subst h
      refine ⟨?_, ?_, hs1⟩
      · intro line hline
        rw [hp1]
        exact hg line hline
      · intro hs
        exact absurd hs hstate

theorem outputTargets_without_push (env : Env) (opt : BuildOpt) (hpush : opt.Push = false)
    (targets : List SingleTarget) : ∀ o o2, outputTargets env opt targets o = some o2 →
    (∀ line ∈ o.pushConsole, line ∈ o2.pushConsole) ∧
      (∀ sts ∈ targets, sts.RunPush.HasState = true →
        ∀ line ∈ notExecutedLines sts.RunPush, line ∈ o2.pushConsole) ∧
      o2.saves.map (fun call => (call.artifact, call.destPath)) =
        o.saves.map (fun call => (call.artifact, call.destPath)) ++
          targets.flatMap fun sts => sts.SaveLocals.map (materialised sts) := by
  induction targets with
  | nil =>
    intro o o2 h
    simp only [outputTargets, Option.some.injEq] at h
    subst h
    simp
  | cons sts rest ih =>
    intro o o2 h
    simp only [outputTargets] at h
    split at h
    · exact absurd h (by simp)
    · rename_i o1 ho1
      obtain ⟨a1, a2, a3⟩ := outputTarget_without_push env opt hpush sts o o1 ho1
      obtain ⟨b1, b2, b3⟩ := ih o1 o2 h
      refine ⟨fun line hline => b1 line (a1 line hline), ?_, ?_⟩
      · intro t ht hstate line hline
        rcases List.mem_cons.1 ht with rfl | ht
        · exact b1 line (a2 hstate line hline)
        · exact b2 t ht hstate line hline
      · rw [b3, a3, List.flatMap_cons, List.append_assoc]

/-- C7: when push is not requested, a successful run of `convertAndBuild` materialises
none of the local outputs of a deferred push phase, in any output mode: its calls of
`saveArtifactLocally` are none if the output is suppressed, the one for the single
artifact in single-artifact mode, none in final-image-only mode, and those for the
local outputs `SaveLocals` of the targets in full mode. In full mode it reports, for
every target with deferred push state, every command string, every image and an
initialised interactive session of the deferred push phase with a "Did not ..." line on
the push console. -/
theorem skipped_push_phase_outputs_and_report (b : Builder) (env : Env)
    (opt : BuildOpt) (log : BuildLog) (hpush : opt.Push = false)
    (h : convertAndBuild b env opt = some log) (sts : SingleTarget)
    (hsts : sts ∈ log.mts.All) (hstate : sts.RunPush.HasState = true) :
    log.saves.map (fun call => (call.artifact, call.destPath)) =
      (if opt.NoOutput then []
        else match opt.OnlyArtifact with
          | some onlyArtifact => [(onlyArtifact, opt.OnlyArtifactDestPath)]
          | none =>
            if opt.OnlyFinalTargetImages then []
            else log.mts.All.flatMap fun t => t.SaveLocals.map (materialised t)) ∧
    (opt.NoOutput = false → opt.OnlyArtifact = none → opt.OnlyFinalTargetImages = false →
      (∀ commandStr ∈ sts.RunPush.CommandStrs,
        "Did not execute push command " ++ commandStr ++ "\n" ∈ log.pushConsole) ∧
      (∀ saveImage ∈ sts.RunPush.SaveImages,
        "Did not push image " ++ saveImage.DockerTag ++
          " as evaluating the image would have caused a RUN --push to execute" ∈
            log.pushConsole) ∧
      (sts.RunPush.InteractiveSession.Initialized = true →
        "Did not start an " ++ sts.RunPush.InteractiveSession.Kind.text ++
          " interactive session with command " ++
            sts.RunPush.InteractiveSession.CommandStr ++ "\n" ∈ log.pushConsole)) := by
  obtain ⟨buildRs, c1, pushReqs, o, _, _, _, ho, _, hpc, _, hsv⟩ := convertAndBuild_inv h
  constructor
  · rw [hsv]
    simp only [outputPhase] at ho
    split at ho
    · rename_i hno
      simp only [Option.some.injEq] at ho
      subst ho
      simp [hno]
    · rename_i hno
      simp only [hno, if_false]
      cases hart : opt.OnlyArtifact with
      | some onlyArtifact =>
        simp only [hart] at ho
        split at ho
        · exact absurd ho (by simp)
        · simp only [callSaveArtifactLocally] at ho
          split at ho
          · exact absurd ho (by simp)
          · simp only [Option.some.injEq] at ho
            subst ho
            rfl
      | none =>
        simp only [hart] at ho
        split at ho
        · rename_i hfin
          simp only [Option.some.injEq] at ho
          subst ho
          have ht := outputFinalImages_trace env opt log.mts.Final log.mts.Final.SaveImages {}
          have hs : (outputFinalImages env opt log.mts.Final log.mts.Final.SaveImages {}).saves =
              [] := congrArg Prod.fst ht
          simp [hs, hfin]
        · rename_i hfin
          obtain ⟨_, _, hsaves⟩ := outputTargets_without_push env opt hpush _ _ _ ho
          simp only [hfin, if_false]
          simpa using hsaves
  · intro hout hart hfinal
    simp only [outputPhase, hout, hart, hfinal, Bool.false_eq_true, if_false] at ho
    obtain ⟨_, hlines, _⟩ := outputTargets_without_push env opt hpush _ _ _ ho
    have hl := hlines sts hsts hstate
    rw [hpc]
    refine ⟨?_, ?_, ?_⟩
    · intro commandStr hc
      apply hl
      simp only [notExecutedLines, List.mem_append, List.mem_map]
      exact Or.inl (Or.inl ⟨commandStr, hc, rfl⟩)
    · intro saveImage hi
      apply hl
      simp only [notExecutedLines, List.mem_append, List.mem_map]
      exact Or.inl (Or.inr ⟨saveImage, hi, rfl⟩)
    · intro hinit
      apply hl
      simp [notExecutedLines, hinit]

/-- Witness of C7: the build without push of `pushLocalGraph`, in full mode and with the
output suppressed. The local output `p.txt` of the deferred push phase is materialised
in neither. -/
theorem skipped_push_phase_outputs_and_report_witness :
    (∃ log, convertAndBuild {} (demoEnv (some pushLocalGraph)) {} = some log ∧
      log.pushConsole = ["Did not execute push command upload\n"] ∧
      log.saves.map (fun call => (call.artifact.Artifact, call.destPath)) = [("m", "m.txt")] ∧
      (∀ commandStr ∈ ["upload"],
        "Did not execute push command " ++ commandStr ++ "\n" ∈ log.pushConsole)) ∧
    (∃ log, convertAndBuild {} (demoEnv (some pushLocalGraph)) { NoOutput := true } = some log ∧
      log.saves.map (fun call => (call.artifact, call.destPath)) = []) :=
  ⟨⟨_, rfl, by decide, by decide,
    ((skipped_push_phase_outputs_and_report {} (demoEnv (some pushLocalGraph)) {} _ rfl
      rfl (pushLocalGraph.Before.head (by decide)) (by decide) rfl).2 rfl rfl rfl).1⟩,
   ⟨_, rfl,
    (skipped_push_phase_outputs_and_report {} (demoEnv (some pushLocalGraph))
      { NoOutput := true } _ rfl rfl (pushLocalGraph.Before.head (by decide)) (by decide)
      rfl).1⟩⟩

/-- C7, as stated, fails: with the output suppressed and push not requested, the
command of the deferred push phase of `pushLocalGraph` is not reported at all. -/
theorem skipped_push_phase_silent_when_output_suppressed :
    ∃ log, convertAndBuild {} (demoEnv (some pushLocalGraph)) { NoOutput := true } = some log ∧
      (∃ sts ∈ log.mts.All, sts.RunPush.HasState = true ∧
        sts.RunPush.CommandStrs = ["upload"]) ∧
      log.pushConsole = [] :=
  ⟨_, rfl, by decide, by decide⟩

/-! ### Direct image entries and the manifest path -/

theorem Metadata_AddMeta (res : Result) (k v : String) :
    (res.AddMeta k v).Metadata = res.Metadata ++ [(k, v)] := rfl

theorem Metadata_AddRef (res : Result) (k : String) (ref : Reference) :
    (res.AddRef k ref).Metadata = res.Metadata := rfl

theorem Metadata_AddMetaIf (res : Result) (c : Bool) (k v : String) :
    (res.AddMetaIf c k v).Metadata = res.Metadata ++ if c then [(k, v)] else [] := by
  cases c <;> simp [Result.AddMetaIf, Metadata_AddMeta]

theorem mem_isMultiPlatform (b : Builder) (all : List SingleTarget) (tag : String) :
    tag ∈ isMultiPlatform b all ↔
      ∃ sts ∈ all, sts.Platform.isSome = true ∧
        ∃ saveImage ∈ b.targetPhaseImages sts,
          saveImage.DockerTag = tag ∧ tag ≠ "" ∧ saveImage.DoSave = true := by
  simp only [isMultiPlatform, List.mem_flatMap, List.mem_filter, List.mem_map,
    Bool.and_eq_true, bne_iff_ne, ne_eq]
  constructor
  · rintro ⟨sts, ⟨hsts, hp⟩, img, ⟨himg, hne, hsave⟩, rfl⟩
    exact ⟨sts, hsts, hp, img, himg, rfl, hne, hsave⟩
  · rintro ⟨sts, hsts, hp, img, himg, rfl, hne, hsave⟩
    exact ⟨sts, ⟨hsts, hp⟩, img, ⟨himg, hne, hsave⟩, rfl⟩

theorem suffix_ne {p x y : String} (h : x.data ≠ y.data) : p ++ x ≠ p ++ y := by
  intro e
  have := congrArg String.data e
  simp only [String.data_append, List.append_cancel_left_eq] at this
  exact h this

theorem str_append_left_cancel (p x y : String) : p ++ x = p ++ y ↔ x = y := by
  constructor
  · intro e
    have := congrArg String.data e
    simp only [String.data_append, List.append_cancel_left_eq] at this
    exact String.ext this
  · rintro rfl
    rfl

theorem singleImage_entry (b : Builder) (env : Env) (doPush doExport : Bool)
    (saveImage : SaveImage) (ref : Reference) (config : String) (s : BfState) :
    (singleImage b env doPush doExport saveImage ref config s).res.keys =
        s.res.keys ++ ["image-" ++ toString s.c.imageIndex] ∧
      ("ref/" ++ ("image-" ++ toString s.c.imageIndex) ++ "/image.name", saveImage.DockerTag) ∈
        (singleImage b env doPush doExport saveImage ref config s).res.Metadata ∧
      (∀ v, ("ref/" ++ ("image-" ++ toString s.c.imageIndex) ++ "/image.name", v) ∈
          (singleImage b env doPush doExport saveImage ref config s).res.Metadata →
        v = saveImage.DockerTag ∨
          ("ref/" ++ ("image-" ++ toString s.c.imageIndex) ++ "/image.name", v) ∈
            s.res.Metadata) ∧
      (∀ v, ("ref/" ++ ("image-" ++ toString s.c.imageIndex) ++ "/platform", v) ∈
          (singleImage b env doPush doExport saveImage ref config s).res.Metadata →
        ("ref/" ++ ("image-" ++ toString s.c.imageIndex) ++ "/platform", v) ∈ s.res.Metadata) ∧
      (singleImage b env doPush doExport saveImage ref config s).c.manifestLists =
        s.c.manifestLists := by
  refine ⟨?_, ?_, ?_, ?_, rfl⟩
  · simp [singleImage, Result.keys, Refs_AddRef, Refs_AddMeta, Refs_AddMetaIf, Refs_ite]
  · cases doPush <;> cases doExport <;> cases saveImage.InsecurePush <;>
      by_cases hl : b.opt.LocalRegistryAddr = "" <;>
      simp [singleImage, Metadata_AddMeta, Metadata_AddRef, Metadata_AddMetaIf, hl]
  · intro v
    cases doPush <;> cases doExport <;> cases saveImage.InsecurePush <;>
      by_cases hl : b.opt.LocalRegistryAddr = "" <;>
      simp [singleImage, Metadata_AddMeta, Metadata_AddRef, Metadata_AddMetaIf, hl,
        str_append_left_cancel, String.append_assoc, ExporterImageConfigKey] <;>
      tauto
  · intro v
    cases doPush <;> cases doExport <;> cases saveImage.InsecurePush <;>
      by_cases hl : b.opt.LocalRegistryAddr = "" <;>
      simp [singleImage, Metadata_AddMeta, Metadata_AddRef, Metadata_AddMetaIf, hl,
        str_append_left_cancel, String.append_assoc, ExporterImageConfigKey]

theorem multiImagePush_entry (platformStr : String) (saveImage : SaveImage)
    (ref : Reference) (config : String) (s : BfState) :
    ("ref/" ++ ("image-" ++ toString s.c.imageIndex) ++ "/image.name", saveImage.DockerTag) ∈
        (multiImagePush platformStr saveImage ref config s).res.Metadata ∧
      ("ref/" ++ ("image-" ++ toString s.c.imageIndex) ++ "/platform", platformStr) ∈
        (multiImagePush platformStr saveImage ref config s).res.Metadata ∧
      (multiImagePush platformStr saveImage ref config s).c.manifestLists =
        s.c.manifestLists := by
  refine ⟨?_, ?_, rfl⟩ <;>
    simp [multiImagePush, Metadata_AddMeta, Metadata_AddRef, Metadata_AddMetaIf]

theorem multiImageExport_entry (b : Builder) (env : Env) (platform : Platform)
    (saveImage : SaveImage) (ref : Reference) (config : String) (s s2 : BfState)
    (h : multiImageExport b env platform saveImage ref config s = some s2) :
    (∀ e ∈ s.res.Metadata, e ∈ s2.res.Metadata) ∧
      ∃ name, env.platformSpecificImageName saveImage.DockerTag platform = some name ∧
        ("ref/" ++ ("image-" ++ toString (s2.c.imageIndex - 1)) ++ "/image.name", name) ∈
          s2.res.Metadata ∧
        s2.c.manifestLists = s.c.manifestLists ++
          [(saveImage.DockerTag, { imageName := name, platform := platform })] := by
  unfold multiImageExport at h
  simp only at h
  split at h
  · exact absurd h (by simp)
  · rename_i name hname
    split at h
    · exact absurd h (by simp)
    · simp only [Option.some.injEq] at h
      subst h
      refine ⟨?_, name, hname, ?_, rfl⟩
      · intro e he
        by_cases hl : b.opt.LocalRegistryAddr = "" <;>
          simp [Metadata_AddMeta, Metadata_AddRef, hl, he]
      · by_cases hl : b.opt.LocalRegistryAddr = "" <;>
          simp [Metadata_AddMeta, Metadata_AddRef, hl]

/-- C10: an image is emitted on the manifest path exactly when its tag is saved, in the
current phase, by at least one target that has an explicit platform, be it a single
one; on that path a pushed image gets an entry with the declared tag and platform
metadata, and an exported image gets an entry named with the platform-qualified name
and is appended to the manifest list of its tag. An image whose tag is saved only by
targets without a platform is emitted as one direct entry whose `image.name` is the
declared tag, without platform metadata and without a manifest-list registration. -/
theorem image_path_selected_by_platform (b : Builder) (env : Env) (opt : BuildOpt)
    (all : List SingleTarget) (sts : SingleTarget) (isFinal : Bool) (saveImage : SaveImage)
    (s s2 : BfState)
    (h : saveImageStep b env opt (isMultiPlatform b all) sts isFinal saveImage s = some s2)
    (hrun : (shouldPush opt sts saveImage = true ∨ shouldExport opt isFinal saveImage = true ∨
        useCacheHint b saveImage = true) ∧
      (shouldPush opt sts saveImage = true ∨ saveImage.HasPushDependencies = false)) :
    ((∃ t ∈ all, t.Platform.isSome = true ∧ ∃ other ∈ b.targetPhaseImages t,
          other.DockerTag = saveImage.DockerTag ∧ saveImage.DockerTag ≠ "" ∧
            other.DoSave = true) →
        (shouldPush opt sts saveImage = true →
          ("ref/" ++ ("image-" ++ toString s.c.imageIndex) ++ "/image.name",
              saveImage.DockerTag) ∈ s2.res.Metadata ∧
            ("ref/" ++ ("image-" ++ toString s.c.imageIndex) ++ "/platform",
              env.PlatformWithDefaultToString sts.Platform) ∈ s2.res.Metadata) ∧
        (shouldExport opt isFinal saveImage = true →
          ∃ name, env.platformSpecificImageName saveImage.DockerTag
              (env.PlatformWithDefault sts.Platform) = some name ∧
            ("ref/" ++ ("image-" ++ toString (s2.c.imageIndex - 1)) ++ "/image.name", name) ∈
              s2.res.Metadata ∧
            s2.c.manifestLists = s.c.manifestLists ++
              [(saveImage.DockerTag,
                { imageName := name, platform := env.PlatformWithDefault sts.Platform })])) ∧
      ((¬ ∃ t ∈ all, t.Platform.isSome = true ∧ ∃ other ∈ b.targetPhaseImages t,
          other.DockerTag = saveImage.DockerTag ∧ saveImage.DockerTag ≠ "" ∧
            other.DoSave = true) →
        s2.res.keys = s.res.keys ++ ["image-" ++ toString s.c.imageIndex] ∧
          ("ref/" ++ ("image-" ++ toString s.c.imageIndex) ++ "/image.name",
            saveImage.DockerTag) ∈ s2.res.Metadata ∧
          (∀ v, ("ref/" ++ ("image-" ++ toString s.c.imageIndex) ++ "/image.name", v) ∈
              s2.res.Metadata →
            v = saveImage.DockerTag ∨
              ("ref/" ++ ("image-" ++ toString s.c.imageIndex) ++ "/image.name", v) ∈
                s.res.Metadata) ∧
          (∀ v, ("ref/" ++ ("image-" ++ toString s.c.imageIndex) ++ "/platform", v) ∈
              s2.res.Metadata →
            ("ref/" ++ ("image-" ++ toString s.c.imageIndex) ++ "/platform", v) ∈
              s.res.Metadata) ∧
          s2.c.manifestLists = s.c.manifestLists) := by
  have hskip : ((!shouldPush opt sts saveImage && !shouldExport opt isFinal saveImage &&
      !useCacheHint b saveImage) ||
      (!shouldPush opt sts saveImage && saveImage.HasPushDependencies)) = false := by
    obtain ⟨h1, h2⟩ := hrun
    cases hp : shouldPush opt sts saveImage <;> cases he : shouldExport opt isFinal saveImage <;>
      cases hh : useCacheHint b saveImage <;> cases hd : saveImage.HasPushDependencies <;>
      simp_all
  simp only [saveImageStep, hskip, Bool.false_eq_true, if_false] at h
  split at h
  · exact absurd h (by simp)
  · rename_i ref href
    split at h
    · exact absurd h (by simp)
    · rename_i config hconfig
      constructor
      · intro hP
        have hmem : (isMultiPlatform b all).contains saveImage.DockerTag = true := by
          simp only [List.contains, List.elem_eq_mem, decide_eq_true_eq]
          exact (mem_isMultiPlatform b all _).2 hP
        simp only [hmem, Bool.not_true, Bool.false_eq_true, if_false] at h
        constructor
        · intro hp
          simp only [hp, if_true] at h
          obtain ⟨m1, m2, _⟩ := multiImagePush_entry
            (env.PlatformWithDefaultToString sts.Platform) saveImage ref config s
          split at h
          · obtain ⟨hsub, _⟩ := multiImageExport_entry _ _ _ _ _ _ _ _ h
            exact ⟨hsub _ m1, hsub _ m2⟩
          · simp only [Option.some.injEq] at h
            subst h
            exact ⟨m1, m2⟩
        · intro he
          simp only [he, if_true] at h
          obtain ⟨_, name, hname, hmeta, hlists⟩ := multiImageExport_entry _ _ _ _ _ _ _ _ h
          refine ⟨name, hname, hmeta, ?_⟩
          rw [hlists]
          split
          · rfl
          · rfl
      · intro hP
        have hmem : (isMultiPlatform b all).contains saveImage.DockerTag = false := by
          simp only [List.contains, List.elem_eq_mem, decide_eq_false_iff_not]
          exact fun hm => hP ((mem_isMultiPlatform b all _).1 hm)
        simp only [hmem, Bool.not_false, if_true, Option.some.injEq] at h
        subst h
        exact singleImage_entry _ _ _ _ _ _ _ _

/-- Witness of C10: the image of `noPlatformGraph`, exported on the direct path. -/
theorem image_path_selected_by_platform_witness :
    ∃ s2, saveImageStep {} (demoEnv none) {} (isMultiPlatform {} noPlatformGraph.All)
        noPlatformGraph.Final true { State := { id := "img" }, DockerTag := "app:latest" } {} =
        some s2 ∧
      s2.res.keys = ["image-0"] ∧
      ("ref/image-0/image.name", "app:latest") ∈ s2.res.Metadata ∧
      s2.c.manifestLists = [] :=
  ⟨_, rfl, by decide, by decide,
    ((image_path_selected_by_platform {} (demoEnv none) {} noPlatformGraph.All
      noPlatformGraph.Final true { State := { id := "img" }, DockerTag := "app:latest" } {} _
      rfl (by decide)).2 (by decide)).2.2.2.2⟩

/-- C10, as stated, fails: the tag of `onePlatformGraph` is declared with exactly one
platform, and its image is exported under the platform-qualified name and registered
for the manifest-list merge instead of being a direct entry named with the tag. -/
theorem single_platform_tag_takes_manifest_path :
    ∃ log, convertAndBuild {} (demoEnv (some onePlatformGraph)) {} = some log ∧
      log.requests.map (fun r => (r.2.keys, r.2.Metadata.take 2)) =
        [(["main", "image-0"],
          [("ref/image-0/export-image", "true"),
           ("ref/image-0/image.name", "app:latest_linux_arm64")])] ∧
      log.manifestMerges =
        [("app:latest",
          [{ imageName := "app:latest_linux_arm64",
             platform := { OS := "linux", Architecture := "arm64" } }])] :=
  ⟨_, rfl, by decide, by decide⟩

/-! ### Factories of local states -/

theorem foldl_append_singleton {α : Type} (xs : List α) : ∀ acc : List α,
    xs.foldl (fun newOpts o => newOpts ++ [o]) acc = acc ++ xs := by
  induction xs with
  | nil => intro acc; simp
  | cons x xs ih => intro acc; simp [ih]

theorem LocalFactory.Copy_eq (f : LocalFactory) :
    f.Copy = { name := f.name, sharedKeyHint := "", opts := f.opts } := by
  simp [LocalFactory.Copy, foldl_append_singleton]

theorem withIncludeAndHint_eq (f : LocalFactory) (patterns : List String) (key : String) :
    (f.WithInclude patterns).WithSharedKeyHint key =
      { name := f.name, sharedKeyHint := key,
        opts := f.opts ++ [LocalOption.IncludePatterns patterns] ++
          [LocalOption.SharedKeyHint key] } := by
  simp [LocalFactory.WithInclude, LocalFactory.WithSharedKeyHint, LocalFactory.Copy_eq]

theorem Construct_hit (f : LocalFactory) (cache : StateCache) (st : PState)
    (h : cache.get f.sharedKeyHint = some st) : f.Construct cache = (st, cache) := by
  simp [LocalFactory.Construct, h]

theorem Construct_miss (f : LocalFactory) (cache : StateCache)
    (h : cache.get f.sharedKeyHint = none) :
    f.Construct cache =
      (PState.Local f.name f.opts, cache.set f.sharedKeyHint (PState.Local f.name f.opts)) := by
  simp [LocalFactory.Construct, h]

theorem StateCache.get_set (cache : StateCache) (key key2 : String) (st : PState) :
    (cache.set key st).get key2 = if key2 = key then some st else cache.get key2 := by
  simp only [StateCache.get, StateCache.set, List.lookup]
  by_cases h : key2 = key
  · subst h
    simp
  · have : (key2 == key) = false := by simpa using h
    simp [this, h]

/-- After its construction a factory finds its state in the cache. -/
theorem Construct_stores (f : LocalFactory) (cache : StateCache) :
    (f.Construct cache).2.get f.sharedKeyHint = some (f.Construct cache).1 := by
  cases h : cache.get f.sharedKeyHint with
  | some st => rw [Construct_hit f cache st h]; exact h
  | none => rw [Construct_miss f cache h]; simp [StateCache.get_set]

/-- The cache never loses or replaces an entry. -/
theorem Construct_keeps (f : LocalFactory) (cache : StateCache) (key : String) (st : PState)
    (h : cache.get key = some st) : (f.Construct cache).2.get key = some st := by
  cases hf : cache.get f.sharedKeyHint with
  | some st2 => rw [Construct_hit f cache st2 hf]; exact h
  | none =>
    rw [Construct_miss f cache hf]
    simp only [StateCache.get_set]
    split
    · rename_i heq
      rw [heq, hf] at h
      exact absurd h (by simp)
    · exact h

theorem constructAll_keeps (fs : List LocalFactory) : ∀ (cache : StateCache) (key : String)
    (st : PState), cache.get key = some st → (constructAll fs cache).get key = some st := by
  induction fs with
  | nil => intro cache key st h; exact h
  | cons f fs ih =>
    intro cache key st h
    simp only [constructAll, List.foldl_cons]
    exact ih _ key st (Construct_keeps f cache key st h)

/-- The construction of a factory leaves the entries under other hints as they are. -/
theorem Construct_other (f : LocalFactory) (cache : StateCache) (key : String)
    (h : key ≠ f.sharedKeyHint) : (f.Construct cache).2.get key = cache.get key := by
  cases hf : cache.get f.sharedKeyHint with
  | some st2 => rw [Construct_hit f cache st2 hf]
  | none =>
    rw [Construct_miss f cache hf]
    simp [StateCache.get_set, h]

theorem hashedBytes_congr (os os2 : HashOs) (name : String) (incl : List String)
    (hname : os.GetInodeBestEffort name = os2.GetInodeBestEffort name)
    (hincl : ∀ path ∈ incl, os.GetInodeBestEffort path = os2.GetInodeBestEffort path) :
    hashedBytes os name incl = hashedBytes os2 name incl := by
  unfold hashedBytes
  have h0 : addToHash os [] name = addToHash os2 [] name := by
    simp [addToHash, hname]
  rw [h0]
  generalize addToHash os2 [] name = acc
  induction incl generalizing acc with
  | nil => rfl
  | cons path rest ih =>
    simp only [List.foldl_cons]
    have h1 : addToHash os acc path = addToHash os2 acc path := by
      simp [addToHash, hincl path (List.mem_cons_self _ _)]
    rw [h1]
    exact ih (fun p hp => hincl p (List.mem_cons_of_mem _ hp)) _

/-- C18: two local factories with the same name whose sources give the same list of
include patterns (the same filters in the same order), hashed with the same inode for
the name and for every pattern, get the same shared key hint from
`addIncludePathAndSharedKeyHint`, and `Construct` returns for the second the state it
returned for the first, whatever factories are constructed in between. -/
theorem same_include_list_shares_state (os os2 : HashOs) (f1 f2 : LocalFactory)
    (src1 src2 : List String) (hname : f1.name = f2.name)
    (hincl : createIncludePatterns src1 = createIncludePatterns src2)
    (hsha : os.Sha1Hex = os2.Sha1Hex)
    (hinode : ∀ path ∈ f1.name :: createIncludePatterns src1,
      os.GetInodeBestEffort path = os2.GetInodeBestEffort path) :
    ∃ g1 g2, addIncludePathAndSharedKeyHint os (Factory.Local f1) src1 = Factory.Local g1 ∧
      addIncludePathAndSharedKeyHint os2 (Factory.Local f2) src2 = Factory.Local g2 ∧
      g1.sharedKeyHint = g2.sharedKeyHint ∧
      ∀ (cache : StateCache) (between : List LocalFactory),
        (g2.Construct (constructAll between (g1.Construct cache).2)).1 =
          (g1.Construct cache).1 := by
  refine ⟨_, _, rfl, rfl, ?_, ?_⟩
  · simp only [withIncludeAndHint_eq, getSharedKeyHintFromInclude, LocalFactory.GetName]
    rw [hsha, ← hincl, ← hname]
    congr 1
    exact hashedBytes_congr os os2 _ _ (hinode _ (List.mem_cons_self _ _))
      (fun p hp => hinode p (List.mem_cons_of_mem _ hp))
  · intro cache between
    have hk : ((f2.WithInclude (createIncludePatterns src2)).WithSharedKeyHint
        (getSharedKeyHintFromInclude os2 f2.GetName (createIncludePatterns src2))).sharedKeyHint =
        ((f1.WithInclude (createIncludePatterns src1)).WithSharedKeyHint
        (getSharedKeyHintFromInclude os f1.GetName (createIncludePatterns src1))).sharedKeyHint := by
      simp only [withIncludeAndHint_eq, getSharedKeyHintFromInclude, LocalFactory.GetName]
      rw [hsha, ← hincl, ← hname]
      congr 1
      exact (hashedBytes_congr os os2 _ _ (hinode _ (List.mem_cons_self _ _))
        (fun p hp => hinode p (List.mem_cons_of_mem _ hp))).symm
    have hst := constructAll_keeps between _ _ _ (Construct_stores
      ((f1.WithInclude (createIncludePatterns src1)).WithSharedKeyHint
        (getSharedKeyHintFromInclude os f1.GetName (createIncludePatterns src1))) cache)
    rw [← hk] at hst
    rw [Construct_hit _ _ _ hst]

/-- Witness of C18: two factories for `ctx`, one including `src/.` and one `src/*`. -/
theorem same_include_list_shares_state_witness :
    createIncludePatterns ["src/."] = createIncludePatterns ["src/*"] ∧
      ∃ g1 g2,
        addIncludePathAndSharedKeyHint plainHashOs (Factory.Local (ctxFactory "s1")) ["src/."] =
          Factory.Local g1 ∧
        addIncludePathAndSharedKeyHint plainHashOs (Factory.Local (ctxFactory "s2")) ["src/*"] =
          Factory.Local g2 ∧
        g1.sharedKeyHint = g2.sharedKeyHint ∧
        ∀ (cache : StateCache) (between : List LocalFactory),
          (g2.Construct (constructAll between (g1.Construct cache).2)).1 =
            (g1.Construct cache).1 :=
  ⟨by decide,
    same_include_list_shares_state plainHashOs plainHashOs (ctxFactory "s1") (ctxFactory "s2")
      ["src/."] ["src/*"] rfl (by decide) rfl (fun _ _ => rfl)⟩

/-- C18, as stated, fails: the include lists `a, b` and `b, a` are the same set, and
the two factories get different shared key hints and different states. -/
theorem same_include_set_in_other_order_separate :
    ∃ g1 g2,
      addIncludePathAndSharedKeyHint plainHashOs (Factory.Local (ctxFactory "s")) ["a", "b"] =
        Factory.Local g1 ∧
      addIncludePathAndSharedKeyHint plainHashOs (Factory.Local (ctxFactory "s")) ["b", "a"] =
        Factory.Local g2 ∧
      hashedBytes plainHashOs "ctx" ["a", "b"] ≠ hashedBytes plainHashOs "ctx" ["b", "a"] ∧
      g1.sharedKeyHint ≠ g2.sharedKeyHint ∧
      (g2.Construct (g1.Construct []).2).1 ≠ (g1.Construct []).1 :=
  ⟨_, _, rfl, rfl, by decide, by decide, by decide⟩

theorem Construct_fst_congr (f : LocalFactory) (cache cache2 : StateCache)
    (h : cache2.get f.sharedKeyHint = cache.get f.sharedKeyHint) :
    (f.Construct cache2).1 = (f.Construct cache).1 := by
  simp only [LocalFactory.Construct, h]
  cases cache.get f.sharedKeyHint <;> rfl

/-! ### The bytes written to the hash -/

/-- The UTF-8 bytes of a code point determine the code point and where they end. -/
theorem utf8Encode_append_inj {a b : Nat} {xs ys : List Nat}
    (h : utf8Encode a ++ xs = utf8Encode b ++ ys) : a = b ∧ xs = ys := by
  unfold utf8Encode at h
  split_ifs at h <;>
    simp only [List.cons_append, List.nil_append, List.cons.injEq] at h <;>
    (first
      | (exfalso; omega)
      | exact ⟨by omega, by simp only [h]⟩)

theorem stringBytes_comparable : ∀ (p q : List Char) (xs ys : List Nat),
    (p.flatMap fun c => utf8Encode c.toNat) ++ xs =
      (q.flatMap fun c => utf8Encode c.toNat) ++ ys →
    p <+: q ∨ q <+: p := by
  intro p
  induction p with
  | nil => intro q _ _ _; exact Or.inl (List.nil_prefix)
  | cons a p ih =>
    intro q xs ys h
    cases q with
    | nil => exact Or.inr (List.nil_prefix)
    | cons b q =>
      simp only [List.flatMap_cons, List.append_assoc] at h
      obtain ⟨hab, hrest⟩ := utf8Encode_append_inj h
      have hc : a = b := Char.ext (UInt32.ext (by simpa [Char.toNat] using hab))
      subst hc
      rcases ih q xs ys hrest with hp | hq
      · exact Or.inl ((List.prefix_cons_inj a).2 hp)
      · exact Or.inr ((List.prefix_cons_inj a).2 hq)

theorem putUint64LE_length (v : Nat) : (putUint64LE v).length = 8 := by
  simp [putUint64LE]

/-- The bytes written to the hash are those of the name and of the paths, one after the
other, each followed by its inode. -/
theorem hashedBytes_eq_flatMap (os : HashOs) (name : String) (incl : List String) :
    hashedBytes os name incl = (name :: incl).flatMap (addToHash os []) := by
  have hfold : ∀ (paths : List String) (acc : List Nat),
      paths.foldl (addToHash os) acc = acc ++ paths.flatMap (addToHash os []) := by
    intro paths
    induction paths with
    | nil => intro acc; simp
    | cons path rest ih =>
      intro acc
      rw [List.foldl_cons, ih, List.flatMap_cons]
      simp [addToHash]
  rw [hashedBytes, hfold, List.flatMap_cons]

/-- Sequences of paths that diverge apart are written to the hash as different bytes,
whatever the inodes are. -/
theorem divergeApart_bytes (os : HashOs) : ∀ (paths1 paths2 : List String),
    divergeApart paths1 paths2 = true →
    paths1.flatMap (addToHash os []) ≠ paths2.flatMap (addToHash os []) := by
  intro paths1
  induction paths1 with
  | nil =>
    intro paths2 h heq
    cases paths2 with
    | nil => simp [divergeApart] at h
    | cons q qs =>
      have hlen := congrArg List.length heq
      simp only [List.flatMap_cons, List.flatMap_nil, addToHash, List.length_append,
        List.length_nil, putUint64LE_length] at hlen
      omega
  | cons p ps ih =>
    intro paths2 h heq
    cases paths2 with
    | nil =>
      have hlen := congrArg List.length heq
      simp only [List.flatMap_cons, List.flatMap_nil, addToHash, List.length_append,
        List.length_nil, putUint64LE_length] at hlen
      omega
    | cons q qs =>
      rw [divergeApart] at h
      split_ifs at h with hpq
      · subst hpq
        simp only [List.flatMap_cons, List.append_cancel_left_eq] at heq
        exact ih qs h heq
      · simp only [Bool.and_eq_true, Bool.not_eq_true', ← Bool.not_eq_true,
          List.isPrefixOf_iff_prefix] at h
        simp only [List.flatMap_cons, addToHash, List.nil_append, List.append_assoc,
          stringBytes] at heq
        rcases stringBytes_comparable _ _ _ _ heq with hp | hq
        · exact h.1 hp
        · exact h.2 hq

/-- Factories whose shared key hints differ do not share a cached state. -/
theorem Construct_separate (f1 f2 : LocalFactory) (h : f1.sharedKeyHint ≠ f2.sharedKeyHint)
    (cache : StateCache) :
    (f2.Construct (f1.Construct cache).2).1 = (f2.Construct cache).1 ∧
      (f1.Construct (f2.Construct cache).2).1 = (f1.Construct cache).1 :=
  ⟨Construct_fst_congr f2 _ _ (Construct_other f1 cache _ (fun e => h e.symm)),
    Construct_fst_congr f1 _ _ (Construct_other f2 cache _ h)⟩

/-- C19: taking the hash as collision-free on the two byte strings written for two
requests, the shared key hints differ whenever the sequences of the name and the include
paths of the two requests diverge apart: at the first position at which they differ,
neither entry is a prefix of the other, or one of the sequences has ended. This holds
whatever the inodes are. Factories with these hints do not share: the state that
`Construct` returns for one is the state it would return had the other not been
constructed. -/
theorem diverging_include_lists_separate (os : HashOs) (name1 name2 : String)
    (incl1 incl2 : List String)
    (hfree : os.Sha1Hex (hashedBytes os name1 incl1) = os.Sha1Hex (hashedBytes os name2 incl2) →
      hashedBytes os name1 incl1 = hashedBytes os name2 incl2)
    (hdiff : divergeApart (name1 :: incl1) (name2 :: incl2) = true) :
    getSharedKeyHintFromInclude os name1 incl1 ≠ getSharedKeyHintFromInclude os name2 incl2 ∧
      ∀ f1 f2 : LocalFactory,
        f1.sharedKeyHint = getSharedKeyHintFromInclude os name1 incl1 →
        f2.sharedKeyHint = getSharedKeyHintFromInclude os name2 incl2 →
        ∀ cache : StateCache,
          (f2.Construct (f1.Construct cache).2).1 = (f2.Construct cache).1 ∧
            (f1.Construct (f2.Construct cache).2).1 = (f1.Construct cache).1 := by
  have hbytes : hashedBytes os name1 incl1 ≠ hashedBytes os name2 incl2 := by
    rw [hashedBytes_eq_flatMap, hashedBytes_eq_flatMap]
    exact divergeApart_bytes os _ _ hdiff
  have hne : getSharedKeyHintFromInclude os name1 incl1 ≠
      getSharedKeyHintFromInclude os name2 incl2 := fun h => hbytes (hfree h)
  refine ⟨hne, ?_⟩
  intro f1 f2 h1 h2 cache
  exact Construct_separate f1 f2 (by rw [h1, h2]; exact hne) cache

/-- Witness of C19: for the name `ctx`, the include lists `src/a.go, go.mod` and
`src/b.go` diverge apart at the first path, and so do the lists `a, b` and `a`, of
which the second ends first. -/
theorem diverging_include_lists_separate_witness :
    (divergeApart ["ctx", "src/a.go", "go.mod"] ["ctx", "src/b.go"] = true ∧
      getSharedKeyHintFromInclude plainHashOs "ctx" ["src/a.go", "go.mod"] ≠
        getSharedKeyHintFromInclude plainHashOs "ctx" ["src/b.go"] ∧
      ∀ f1 f2 : LocalFactory,
        f1.sharedKeyHint = getSharedKeyHintFromInclude plainHashOs "ctx" ["src/a.go", "go.mod"] →
        f2.sharedKeyHint = getSharedKeyHintFromInclude plainHashOs "ctx" ["src/b.go"] →
        ∀ cache : StateCache,
          (f2.Construct (f1.Construct cache).2).1 = (f2.Construct cache).1 ∧
            (f1.Construct (f2.Construct cache).2).1 = (f1.Construct cache).1) ∧
    (divergeApart ["ctx", "a", "b"] ["ctx", "a"] = true ∧
      getSharedKeyHintFromInclude textInodeHashOs "ctx" ["a", "b"] ≠
        getSharedKeyHintFromInclude textInodeHashOs "ctx" ["a"]) :=
  ⟨⟨by decide,
      diverging_include_lists_separate plainHashOs "ctx" "ctx" ["src/a.go", "go.mod"]
        ["src/b.go"] (by decide) (by decide)⟩,
    by decide,
    (diverging_include_lists_separate textInodeHashOs "ctx" "ctx" ["a", "b"] ["a"]
      (by decide) (by decide)).1⟩

/-- C19, as stated, fails: the include sets `a, b` and `a00000000b` differ, yet the same
bytes are written to the hash for both when the inode of `a` reads `00000000` and `b` and
`a00000000b` have the same inode; the hints are then equal for every hash function, and
the second factory gets the state of the first. -/
theorem different_include_sets_same_hashed_bytes :
    hashedBytes textInodeHashOs "ctx" ["a", "b"] =
        hashedBytes textInodeHashOs "ctx" ["a00000000b"] ∧
      (∀ sha1Hex : List Nat → String,
        getSharedKeyHintFromInclude { textInodeHashOs with Sha1Hex := sha1Hex } "ctx" ["a", "b"] =
          getSharedKeyHintFromInclude { textInodeHashOs with Sha1Hex := sha1Hex } "ctx"
            ["a00000000b"]) ∧
      ∃ g1 g2,
        addIncludePathAndSharedKeyHint textInodeHashOs (Factory.Local (ctxFactory "s"))
          ["a", "b"] = Factory.Local g1 ∧
        addIncludePathAndSharedKeyHint textInodeHashOs (Factory.Local (ctxFactory "s"))
          ["a00000000b"] = Factory.Local g2 ∧
        (g2.Construct (g1.Construct []).2).1 = (g1.Construct []).1 :=
  ⟨by decide, fun sha1Hex => by
      have e1 := hashedBytes_congr { textInodeHashOs with Sha1Hex := sha1Hex } textInodeHashOs
        "ctx" ["a", "b"] rfl (fun _ _ => rfl)
      have e2 := hashedBytes_congr { textInodeHashOs with Sha1Hex := sha1Hex } textInodeHashOs
        "ctx" ["a00000000b"] rfl (fun _ _ => rfl)
      simp only [getSharedKeyHintFromInclude, e1, e2]
      exact congrArg sha1Hex (by decide),
    _, _, rfl, rfl, by decide⟩

/-- The entry of the cache under a hint after the constructions of `fs`: the entry that
was there before or, if there was none, the state created by the first factory of `fs`
with that hint. -/
theorem constructAll_get (fs : List LocalFactory) : ∀ (cache : StateCache) (key : String),
    (constructAll fs cache).get key =
      match cache.get key with
      | some st => some st
      | none => (firstWithHint fs key).map fun g => PState.Local g.name g.opts := by
  induction fs with
  | nil =>
    intro cache key
    simp only [constructAll, List.foldl_nil, firstWithHint, List.find?_nil, Option.map_none']
    cases cache.get key <;> rfl
  | cons f fs ih =>
    intro cache key
    have hstep : constructAll (f :: fs) cache = constructAll fs (f.Construct cache).2 := rfl
    rw [hstep, ih]
    cases hk : cache.get key with
    | some st =>
      simp only [Construct_keeps f cache key st hk]
    | none =>
      by_cases hf : f.sharedKeyHint = key
      · subst hf
        have hget : (f.Construct cache).2.get f.sharedKeyHint =
            some (PState.Local f.name f.opts) := by
          rw [Construct_stores, Construct_miss f cache hk]
        simp [hget, firstWithHint, List.find?_cons]
      · have hget : (f.Construct cache).2.get key = none := by
          rw [Construct_other f cache key (fun h => hf h.symm), hk]
        have hne : (f.sharedKeyHint == key) = false := by simpa using hf
        simp [hget, firstWithHint, List.find?_cons, hne]

/-- C20: after the constructions of the factories `fs` in a process, `Construct` of a
factory `f` returns the state created with the name and the options of the first
factory of `fs` that has the shared key hint of `f`, and leaves the cache as it is; if
`fs` has no factory with that hint, it returns a local state created with the own name
of `f` (the name `GetName` reports) and its own options, and stores it under the
hint. -/
theorem Construct_returns_state_of_first_factory (fs : List LocalFactory) (f : LocalFactory) :
    (∀ g, firstWithHint fs f.sharedKeyHint = some g →
      f.Construct (constructAll fs []) =
        (PState.Local g.GetName g.opts, constructAll fs [])) ∧
    (firstWithHint fs f.sharedKeyHint = none →
      f.Construct (constructAll fs []) =
        (PState.Local f.GetName f.opts,
          (constructAll fs []).set f.sharedKeyHint (PState.Local f.GetName f.opts))) := by
  have hget := constructAll_get fs [] f.sharedKeyHint
  have hnil : StateCache.get [] f.sharedKeyHint = none := rfl
  rw [hnil] at hget
  simp only at hget
  constructor
  · intro g hg
    rw [hg] at hget
    exact Construct_hit f _ _ hget
  · intro hnone
    rw [hnone] at hget
    exact Construct_miss f _ hget

/-- Witness of C20: after the factory `ctx` with the hint `k` and the option `s1`, the
factory `ctx` with the same hint and the option `s2` is given the state created with
`s1`; a factory with another hint is given its own state. -/
theorem Construct_returns_state_of_first_factory_witness :
    ({ name := "ctx", sharedKeyHint := "k", opts := [LocalOption.Other "s2"] } :
        LocalFactory).Construct
      (constructAll [{ name := "ctx", sharedKeyHint := "k", opts := [LocalOption.Other "s1"] }]
        []) =
      (PState.Local "ctx" [LocalOption.Other "s1"],
        [("k", PState.Local "ctx" [LocalOption.Other "s1"])]) ∧
    ({ name := "lib", sharedKeyHint := "m", opts := [LocalOption.Other "s2"] } :
        LocalFactory).Construct
      (constructAll [{ name := "ctx", sharedKeyHint := "k", opts := [LocalOption.Other "s1"] }]
        []) =
      (PState.Local "lib" [LocalOption.Other "s2"],
        [("m", PState.Local "lib" [LocalOption.Other "s2"]),
         ("k", PState.Local "ctx" [LocalOption.Other "s1"])]) :=
  ⟨(Construct_returns_state_of_first_factory
      [{ name := "ctx", sharedKeyHint := "k", opts := [LocalOption.Other "s1"] }]
      { name := "ctx", sharedKeyHint := "k", opts := [LocalOption.Other "s2"] }).1 _ rfl,
    (Construct_returns_state_of_first_factory
      [{ name := "ctx", sharedKeyHint := "k", opts := [LocalOption.Other "s1"] }]
      { name := "lib", sharedKeyHint := "m", opts := [LocalOption.Other "s2"] }).2 rfl⟩

/-- C20, as stated, fails: two factories for `ctx` with the same include list get the
same shared key hint, and the second, constructed after the first, is given the state
created with the options of the first. -/
theorem Construct_returns_state_of_other_factory :
    ∃ g1 g2,
      addIncludePathAndSharedKeyHint plainHashOs (Factory.Local (ctxFactory "s1")) ["src"] =
        Factory.Local g1 ∧
      addIncludePathAndSharedKeyHint plainHashOs (Factory.Local (ctxFactory "s2")) ["src"] =
        Factory.Local g2 ∧
      g2.opts ≠ g1.opts ∧
      (g2.Construct (g1.Construct []).2).1 = PState.Local g1.GetName g1.opts ∧
      (g2.Construct (g1.Construct []).2).1 ≠ PState.Local g2.GetName g2.opts :=
  ⟨_, _, rfl, rfl, by decide, by decide, by decide⟩

/-! ### The solve cache of `solveImage` -/

theorem SolveCache.Get_Set (cache : SolveCache) (key key2 : String) (tc : TarContext) :
    (cache.Set key tc).Get key2 = if key2 = key then some tc else cache.Get key2 := by
  simp only [SolveCache.Get, SolveCache.Set, List.lookup]
  by_cases h : key2 = key
  · subst h
    simp
  · have : (key2 == key) = false := by simpa using h
    simp [this, h]

/-- A call of `solveImage` never removes or replaces an entry of the solve cache. -/
theorem solveImage_keeps (os : SolveOs) (st : SolveState) (mts : MultiTarget)
    (opName dockerTag : String) (key : String) (tc : TarContext)
    (h : st.SolveCache.Get key = some tc) :
    (solveImage os st mts opName dockerTag).2.SolveCache.Get key = some tc := by
  unfold solveImage
  cases hk : os.KeyFromHashAndTag mts.Final dockerTag with
  | none => exact h
  | some solveID =>
    simp only []
    cases hg : st.SolveCache.Get solveID with
    | some tarContext => exact h
    | none =>
      simp only []
      cases os.TempDir st.cleanups with
      | none => exact h
      | some outDir =>
        simp only []
        split
        · cases os.GetID (outDir ++ "/" ++ "image.tar") with
          | none => exact h
          | some dockerImageID =>
            simp only [SolveCache.Get_Set]
            split
            · rename_i heq
              rw [heq, hg] at h
              exact absurd h (by simp)
            · exact h
        · exact h

theorem solveImages_keeps (os : SolveOs) (calls : List (MultiTarget × String × String)) :
    ∀ (st : SolveState) (key : String) (tc : TarContext), st.SolveCache.Get key = some tc →
      (solveImages os calls st).SolveCache.Get key = some tc := by
  induction calls with
  | nil => intro st key tc h; exact h
  | cons call rest ih =>
    intro st key tc h
    simp only [solveImages, List.foldl_cons]
    exact ih _ key tc (solveImage_keeps os st _ _ _ key tc h)

theorem solveImage_hit (os : SolveOs) (st : SolveState) (mts : MultiTarget)
    (opName dockerTag solveID : String) (tc : TarContext)
    (hk : os.KeyFromHashAndTag mts.Final dockerTag = some solveID)
    (h : st.SolveCache.Get solveID = some tc) :
    solveImage os st mts opName dockerTag = (none, { st with tarLoads := st.tarLoads ++ [tc] }) := by
  simp [solveImage, hk, h]

/-- C17: when `solveImage` has succeeded for a target and a tag, its key is in the solve
cache with a handle; if the key was not cached before, that call ran `DockerBuilderFun`
once. Every later call of `solveImage` whose key is the same, however many other calls
are made in between, succeeds, appends that handle to `tarLoads` and changes nothing
else: `DockerBuilderFun` is not invoked again. -/
theorem solveImage_reuses_cached_handle (os : SolveOs) (st st1 : SolveState)
    (mts : MultiTarget) (opName dockerTag : String)
    (h : solveImage os st mts opName dockerTag = (none, st1)) :
    ∃ solveID handle, os.KeyFromHashAndTag mts.Final dockerTag = some solveID ∧
      st1.SolveCache.Get solveID = some handle ∧
      (st.SolveCache.Get solveID = none →
        ∃ outFile, st1.builds = st.builds ++ [(dockerTag, outFile)]) ∧
      ∀ (between : List (MultiTarget × String × String)) (mts2 : MultiTarget)
        (opName2 dockerTag2 : String),
        os.KeyFromHashAndTag mts2.Final dockerTag2 = some solveID →
          solveImage os (solveImages os between st1) mts2 opName2 dockerTag2 =
            (none, { solveImages os between st1 with
              tarLoads := (solveImages os between st1).tarLoads ++ [handle] }) := by
  unfold solveImage at h
  cases hk : os.KeyFromHashAndTag mts.Final dockerTag with
  | none => simp [hk] at h
  | some solveID =>
    simp only [hk] at h
    cases hg : st.SolveCache.Get solveID with
    | some tarContext =>
      simp only [hg, Prod.mk.injEq, true_and] at h
      subst h
      refine ⟨solveID, tarContext, rfl, hg, fun hn => by simp [hg] at hn, ?_⟩
      intro between mts2 opName2 dockerTag2 hk2
      exact solveImage_hit os _ mts2 opName2 dockerTag2 solveID tarContext hk2
        (solveImages_keeps os between _ solveID tarContext hg)
    | none =>
      simp only [hg] at h
      cases ht : os.TempDir st.cleanups with
      | none => simp [ht] at h
      | some outDir =>
        simp only [ht] at h
        split at h
        · cases hi : os.GetID (outDir ++ "/" ++ "image.tar") with
          | none => simp [hi] at h
          | some dockerImageID =>
            simp only [hi, Prod.mk.injEq, true_and] at h
            subst h
            refine ⟨solveID,
              { name := solveID, sessionID := os.Sha256Hex (dockerTag ++ "-" ++ dockerImageID),
                platform := os.DefaultPlatform,
                customName := "[internal] docker tar context " ++ opName ++ " " ++
                  os.Sha256Hex (dockerTag ++ "-" ++ dockerImageID) },
              rfl, by simp [SolveCache.Get_Set], fun _ => ⟨_, rfl⟩, ?_⟩
            intro between mts2 opName2 dockerTag2 hk2
            exact solveImage_hit os _ mts2 opName2 dockerTag2 solveID _ hk2
              (solveImages_keeps os between _ solveID _ (by simp [SolveCache.Get_Set]))
        · simp at h

/-- Witness of C17: two calls for the same target and tag on an empty cache; the first
runs `DockerBuilderFun`, the second appends the cached handle. -/
theorem solveImage_reuses_cached_handle_witness :
    ∃ p, solveImage demoSolveOs {} plainGraph "+img" "app:latest" = (none, p) ∧
      p.builds = [("app:latest", "/tmp/earthly-docker-load0/image.tar")] ∧
      (solveImage demoSolveOs p plainGraph "+img" "app:latest").2.builds = p.builds ∧
      (solveImage demoSolveOs p plainGraph "+img" "app:latest").2.tarLoads =
        p.tarLoads ++ p.tarLoads ∧
      ∃ solveID handle, demoSolveOs.KeyFromHashAndTag plainGraph.Final "app:latest" =
          some solveID ∧ p.SolveCache.Get solveID = some handle :=
  ⟨_, rfl, by decide, by decide, by decide,
    (solveImage_reuses_cached_handle demoSolveOs {} _ plainGraph "+img" "app:latest" rfl).imp
      fun _ hx => hx.imp fun _ hy => ⟨hy.1, hy.2.1⟩⟩

/-! ### Local output -/

theorem writes_append (a b : List FsCall) : writes (a ++ b) = writes a ++ writes b := by
  simp [writes, List.filterMap_append]

theorem attempt_eq_some {os : Os} {call : FsCall} {done done1 : List FsCall}
    (h : os.attempt call done = some done1) : done1 = done ++ [call] := by
  unfold Os.attempt at h
  split at h
  · exact (Option.some.inj h).symm
  · exact absurd h (by simp)

/-- One match of a destination that ends in `/`: either it is written to the resolved
destination, or an error other than the wildcard error is returned and nothing is
written. -/
theorem saveMatch_into_directory (os : Os) (call : SaveCall) (opt : BuildOpt)
    (isWildcard : Bool) (src : String) (s : SaveProgress)
    (hslash : HasSuffix call.destPath "/" = true) :
    ((saveMatch os call opt isWildcard src s).1 = none ∧
      writes (saveMatch os call opt isWildcard src s).2.done =
        writes s.done ++ [(src, saveDestination os call.artifact call.destPath src)]) ∨
    ((saveMatch os call opt isWildcard src s).1 ≠ none ∧
      (saveMatch os call opt isWildcard src s).1 ≠ some SaveError.wildcardNoSlash ∧
      writes (saveMatch os call opt isWildcard src s).2.done = writes s.done) := by
  unfold saveMatch
  simp only [hslash, Bool.not_true, Bool.and_false, Bool.false_eq_true, if_false]
  split
  · right; simp
  · rename_i srcIsDir hsrc
    split
    · right; simp
    · split
      · rename_i err herr
        right
        refine ⟨by simp, ?_, rfl⟩
        split at herr
        · split at herr
          · split at herr
            · cases herr; simp
            · cases herr
          · split at herr
            · cases herr; simp
            · cases herr
        · cases herr
      · rename_i done1 hdone1
        have h1 : writes done1 = writes s.done := by
          split at hdone1
          · split at hdone1
            · split at hdone1
              · cases hdone1
              · rename_i d hd
                cases hdone1
                rw [attempt_eq_some hd, writes_append]; simp [writes]
            · split at hdone1
              · cases hdone1
              · rename_i d hd
                cases hdone1
                rw [attempt_eq_some hd, writes_append]; simp [writes]
          · cases hdone1; rfl
        split
        · right; exact ⟨by simp, by simp, h1⟩
        · rename_i done2 hdone2
          have h2 : writes done2 = writes s.done := by
            rw [attempt_eq_some hdone2, writes_append, h1]; simp [writes]
          split
          · right; exact ⟨by simp, by simp, h2⟩
          · rename_i done3 hdone3
            left
            refine ⟨rfl, ?_⟩
            split at hdone3
            · rename_i d hd
              cases hdone3
              rw [attempt_eq_some hd, writes_append, h2]; simp [writes]
            · rw [attempt_eq_some hdone3, writes_append, h2]; simp [writes]

/-- The loop over the matches for a destination that ends in `/`: the first `k` matches
are written, each to its resolved destination, all of them if no error is returned, and
the wildcard error is not returned. -/
theorem saveMatches_into_directory (os : Os) (call : SaveCall) (opt : BuildOpt)
    (isWildcard : Bool) (hslash : HasSuffix call.destPath "/" = true) :
    ∀ (found : List String) (s : SaveProgress),
      (saveMatches os call opt isWildcard found s).1 ≠ some SaveError.wildcardNoSlash ∧
      ∃ k, k ≤ found.length ∧
        ((saveMatches os call opt isWildcard found s).1 = none → k = found.length) ∧
        writes (saveMatches os call opt isWildcard found s).2.done =
          writes s.done ++ (found.take k).map fun src =>
            (src, saveDestination os call.artifact call.destPath src) := by
  intro found
  induction found with
  | nil =>
    intro s
    exact ⟨by simp [saveMatches], 0, Nat.le_refl _, fun _ => rfl, by simp [saveMatches]⟩
  | cons src rest ih =>
    intro s
    rcases saveMatch_into_directory os call opt isWildcard src s hslash with
      ⟨h1, h2⟩ | ⟨h1, h2, h3⟩
    · have hstep : saveMatches os call opt isWildcard (src :: rest) s =
          saveMatches os call opt isWildcard rest (saveMatch os call opt isWildcard src s).2 := by
        rw [saveMatches]
        split
        · rename_i err s1 heq
          rw [heq] at h1
          exact absurd h1 (by simp)
        · rename_i s1 heq
          rw [heq]
      obtain ⟨hne, k, hk, hall, hw⟩ := ih (saveMatch os call opt isWildcard src s).2
      rw [hstep]
      refine ⟨hne, k + 1, by simpa using hk, fun hn => by simp [hall hn], ?_⟩
      rw [hw, h2]
      simp
    · have hstep : saveMatches os call opt isWildcard (src :: rest) s =
          saveMatch os call opt isWildcard src s := by
        rw [saveMatches]
        split
        · rename_i err s1 heq
          rw [heq]
        · rename_i s1 heq
          rw [heq] at h1
          exact absurd rfl h1
      rw [hstep]
      exact ⟨h2, 0, Nat.zero_le _, fun hn => absurd hn h1, by simp [h3]⟩

/-- For a destination that ends in `/`, the links and copies that `saveArtifactLocally`
makes are the first `k` matches of the pattern, each to its resolved destination, all
of them if no error is returned, and the wildcard error is not returned. -/
theorem saveArtifactLocally_into_directory_writes (os : Os) (done : List FsCall) (call : SaveCall)
    (opt : BuildOpt) (hslash : HasSuffix call.destPath "/" = true) :
    (saveArtifactLocally os done call opt).1 ≠ some SaveError.wildcardNoSlash ∧
    ∃ k, k ≤ ((os.Glob done (os.FilepathJoin call.indexOutDir
          (os.FilepathFromSlash call.artifact.Artifact))).getD []).length ∧
      ((saveArtifactLocally os done call opt).1 = none →
        k = ((os.Glob done (os.FilepathJoin call.indexOutDir
          (os.FilepathFromSlash call.artifact.Artifact))).getD []).length) ∧
      writes (saveArtifactLocally os done call opt).2.done =
        writes done ++
          (((os.Glob done (os.FilepathJoin call.indexOutDir
              (os.FilepathFromSlash call.artifact.Artifact))).getD []).take k).map fun src =>
            (src, os.PathJoin
              (if call.artifact.Target.IsLocalExternal && !os.FilepathIsAbs call.destPath then
                os.PathJoin call.artifact.Target.LocalPath call.destPath
              else call.destPath)
              (os.PathBase src)) := by
  have hdest : ∀ src, saveDestination os call.artifact call.destPath src =
      os.PathJoin
        (if call.artifact.Target.IsLocalExternal && !os.FilepathIsAbs call.destPath then
          os.PathJoin call.artifact.Target.LocalPath call.destPath
        else call.destPath)
        (os.PathBase src) := by
    intro src
    simp only [saveDestination, hslash, if_true]
  unfold saveArtifactLocally
  simp only
  split
  · rename_i hglob
    simp only [hglob, Option.getD_none, List.length_nil]
    exact ⟨by simp, 0, Nat.le_refl _, fun _ => rfl, by simp⟩
  · rename_i found hglob
    simp only [hglob, Option.getD_some]
    split
    · rename_i hnone
      have hlen : found.length = 0 := by
        simp only [Bool.and_eq_true, decide_eq_true_eq] at hnone
        omega
      split
      · exact ⟨by simp, 0, Nat.zero_le _, fun _ => hlen.symm, by simp⟩
      · exact ⟨by simp, 0, Nat.zero_le _, fun hn => absurd hn (by simp), by simp⟩
    · obtain ⟨hne, k, hk, hall, hw⟩ := saveMatches_into_directory os call opt
        (ContainsAny (os.FilepathJoin call.indexOutDir
          (os.FilepathFromSlash call.artifact.Artifact)) "*?[") hslash found { done := done }
      refine ⟨hne, k, hk, hall, ?_⟩
      rw [hw]
      simp only [hdest]

theorem attempt_eq_none {os : Os} {call : FsCall} {done : List FsCall}
    (h : os.attempt call done = none) : os.Succeeds done call = false := by
  unfold Os.attempt at h
  split at h
  · exact absurd h (by simp)
  · rename_i hs
    simpa using hs

/-- An error of the body of the loop for a destination that ends in `/` reports a step
that failed after the calls that succeeded. -/
theorem saveMatch_failure (os : Os) (call : SaveCall) (opt : BuildOpt) (isWildcard : Bool)
    (src : String) (s : SaveProgress) (hslash : HasSuffix call.destPath "/" = true)
    (err : SaveError) (h : (saveMatch os call opt isWildcard src s).1 = some err) :
    StepFailed os call src (saveMatch os call opt isWildcard src s).2.done err := by
  unfold saveMatch at h ⊢
  simp only [hslash, Bool.not_true, Bool.and_false, Bool.false_eq_true, if_false] at h ⊢
  split
  · rename_i hsrc
    simp only [hsrc, Option.some.injEq] at h
    subst h
    exact ⟨rfl, hsrc⟩
  · rename_i srcIsDir hsrc
    simp only [hsrc] at h
    split
    · rename_i hkind
      simp only [hkind, if_true, Option.some.injEq] at h
      subst h
      simp only [Bool.and_eq_true, Bool.not_eq_true'] at hkind
      obtain ⟨hdir, hdest⟩ := hkind
      subst hdir
      refine ⟨hsrc, ?_⟩
      cases hd : os.Stat s.done (saveDestination os call.artifact call.destPath src) with
      | none => simp [hd] at hdest
      | some destIsDir =>
        simp only [hd] at hdest
        rw [hdest]
    · rename_i hkind
      simp only [hkind, Bool.false_eq_true, if_false] at h
      split
      · rename_i e herr
        simp only [herr, Bool.false_eq_true, if_false, Option.some.injEq] at h
        subst h
        split at herr
        · split at herr
          · split at herr
            · rename_i hrm
              cases herr
              exact ⟨rfl, attempt_eq_none hrm⟩
            · cases herr
          · split at herr
            · rename_i hrm
              cases herr
              exact ⟨rfl, attempt_eq_none hrm⟩
            · cases herr
        · cases herr
      · rename_i done1 hdone1
        simp only [hdone1, Bool.false_eq_true, if_false] at h
        split
        · rename_i hmk
          simp only [hmk, Option.some.injEq] at h
          subst h
          exact ⟨rfl, attempt_eq_none hmk⟩
        · rename_i done2 hdone2
          simp only [hdone2] at h
          split
          · rename_i hw
            simp only [hw, Option.some.injEq] at h
            subst h
            split at hw
            · cases hw
            · rename_i hlink
              exact ⟨rfl, attempt_eq_none hlink, attempt_eq_none hw⟩
          · rename_i done3 hdone3
            rw [hdone3] at h
            exact absurd h (by simp)

theorem saveMatches_failure (os : Os) (call : SaveCall) (opt : BuildOpt) (isWildcard : Bool)
    (hslash : HasSuffix call.destPath "/" = true) (err : SaveError) :
    ∀ (found : List String) (s : SaveProgress),
      (saveMatches os call opt isWildcard found s).1 = some err →
      ∃ src ∈ found,
        StepFailed os call src (saveMatches os call opt isWildcard found s).2.done err := by
  intro found
  induction found with
  | nil =>
    intro s h
    simp [saveMatches] at h
  | cons src rest ih =>
    intro s h
    rw [saveMatches] at h ⊢
    split at h
    · rename_i e s1 heq
      simp only [Option.some.injEq] at h
      subst h
      have hf := saveMatch_failure os call opt isWildcard src s hslash e (by rw [heq])
      rw [heq] at hf
      simp only [heq]
      exact ⟨src, List.mem_cons_self _ _, hf⟩
    · rename_i s1 heq
      obtain ⟨x, hx, hfx⟩ := ih s1 h
      exact ⟨x, List.mem_cons_of_mem _ hx, hfx⟩

/-- An error of `saveArtifactLocally` for a destination that ends in `/` reports a
malformed pattern, a pattern without a match, or a step for one of the matches that
failed after the calls that succeeded. -/
theorem saveArtifactLocally_failure (os : Os) (done : List FsCall) (call : SaveCall)
    (opt : BuildOpt) (hslash : HasSuffix call.destPath "/" = true) (err : SaveError)
    (h : (saveArtifactLocally os done call opt).1 = some err) :
    (err = SaveError.glob ∧
      os.Glob done (os.FilepathJoin call.indexOutDir
        (os.FilepathFromSlash call.artifact.Artifact)) = none) ∨
    (err = SaveError.doesNotExist call.artifact ∧
      os.Glob done (os.FilepathJoin call.indexOutDir
        (os.FilepathFromSlash call.artifact.Artifact)) = some [] ∧
      call.artifact.Target.IsRemote = false ∧ call.ifExists = false) ∨
    ∃ src ∈ (os.Glob done (os.FilepathJoin call.indexOutDir
        (os.FilepathFromSlash call.artifact.Artifact))).getD [],
      StepFailed os call src (saveArtifactLocally os done call opt).2.done err := by
  unfold saveArtifactLocally at h ⊢
  simp only at h ⊢
  split
  · rename_i hglob
    simp only [hglob, Option.some.injEq] at h
    exact Or.inl ⟨h.symm, hglob⟩
  · rename_i found hglob
    simp only [hglob] at h
    split
    · rename_i hnone
      simp only [hnone, if_true] at h
      simp only [Bool.and_eq_true, Bool.not_eq_true', decide_eq_true_eq] at hnone
      split at h
      · exact absurd h (by simp)
      · rename_i hif
        simp only [Option.some.injEq] at h
        refine Or.inr (Or.inl ⟨h.symm, ?_, hnone.1, by simpa using hif⟩)
        have : found = [] := List.length_eq_zero.1 (by omega)
        rw [this] at hglob
        exact hglob
    · rename_i hsome
      simp only [hsome, if_false] at h
      refine Or.inr (Or.inr ?_)
      rw [hglob]
      exact saveMatches_failure os call opt _ hslash err found _ h

/-- C14: for a destination that ends in `/`, `saveArtifactLocally` writes the matches of
the pattern in order, each to the destination directory joined with the base name of
the match, where the destination directory is the destination itself or, for a target
that is local and external and a destination that is not absolute, the destination
joined to the local path of the target. Nothing else is written; all matches are
written if no error is returned, and the error for a wildcard without a destination
directory is never returned. An error is returned only if the pattern is malformed or
has no match, or if a step for one of the matches fails after the calls that succeeded:
the source cannot be examined, a directory meets an existing plain file, or the removal
of the existing destination, the creation of its directory, or both the link and the
copy fail. -/
theorem saveArtifactLocally_into_directory (os : Os) (done : List FsCall) (call : SaveCall)
    (opt : BuildOpt) (hslash : HasSuffix call.destPath "/" = true) :
    ((saveArtifactLocally os done call opt).1 ≠ some SaveError.wildcardNoSlash ∧
    ∃ k, k ≤ ((os.Glob done (os.FilepathJoin call.indexOutDir
          (os.FilepathFromSlash call.artifact.Artifact))).getD []).length ∧
      ((saveArtifactLocally os done call opt).1 = none →
        k = ((os.Glob done (os.FilepathJoin call.indexOutDir
          (os.FilepathFromSlash call.artifact.Artifact))).getD []).length) ∧
      writes (saveArtifactLocally os done call opt).2.done =
        writes done ++
          (((os.Glob done (os.FilepathJoin call.indexOutDir
              (os.FilepathFromSlash call.artifact.Artifact))).getD []).take k).map fun src =>
            (src, os.PathJoin
              (if call.artifact.Target.IsLocalExternal && !os.FilepathIsAbs call.destPath then
                os.PathJoin call.artifact.Target.LocalPath call.destPath
              else call.destPath)
              (os.PathBase src))) ∧
    ∀ err, (saveArtifactLocally os done call opt).1 = some err →
      (err = SaveError.glob ∧
        os.Glob done (os.FilepathJoin call.indexOutDir
          (os.FilepathFromSlash call.artifact.Artifact)) = none) ∨
      (err = SaveError.doesNotExist call.artifact ∧
        os.Glob done (os.FilepathJoin call.indexOutDir
          (os.FilepathFromSlash call.artifact.Artifact)) = some [] ∧
        call.artifact.Target.IsRemote = false ∧ call.ifExists = false) ∨
      ∃ src ∈ (os.Glob done (os.FilepathJoin call.indexOutDir
          (os.FilepathFromSlash call.artifact.Artifact))).getD [],
        StepFailed os call src (saveArtifactLocally os done call opt).2.done err :=
  ⟨saveArtifactLocally_into_directory_writes os done call opt hslash,
    fun err h => saveArtifactLocally_failure os done call opt hslash err h⟩

/-- Witness of C14. The files `a.bin` and `b.bin` matched by `out/*.bin` are linked to
`dest/a.bin` and `dest/b.bin`. A directory, which cannot be linked, is copied. When
`dest/a.bin` exists as a directory with an entry, its removal fails and that error is
returned; the theorem names the failed call. -/
theorem saveArtifactLocally_into_directory_witness :
    (saveArtifactLocally twoBinsOs [] (saveBins { Name := "+build" } "dest/") {} =
      (none, { done := [FsCall.MkdirAll "dest", FsCall.Link "index-0/out/a.bin" "dest/a.bin",
        FsCall.MkdirAll "dest", FsCall.Link "index-0/out/b.bin" "dest/b.bin"] }) ∧
      writes (saveArtifactLocally twoBinsOs [] (saveBins { Name := "+build" } "dest/")
          {}).2.done =
        [("index-0/out/a.bin", "dest/a.bin"), ("index-0/out/b.bin", "dest/b.bin")]) ∧
    saveArtifactLocally (oneDirOs []) [] (saveOne "site" "www/") {} =
      (none, { done := [FsCall.MkdirAll "www", FsCall.Copy "index-0/out/site" "www/site"] }) ∧
    (saveArtifactLocally
        (smallOs [("index-0/out/a.bin", false), ("dest/a.bin", true), ("dest/a.bin/x", false)]
          [("index-0/out/*.bin", ["index-0/out/a.bin"])])
        [] (saveBins { Name := "+build" } "dest/") {} =
      (some (SaveError.rm "dest/a.bin"), { done := [] }) ∧
      ∃ src ∈ ["index-0/out/a.bin"],
        StepFailed
          (smallOs [("index-0/out/a.bin", false), ("dest/a.bin", true),
            ("dest/a.bin/x", false)] [("index-0/out/*.bin", ["index-0/out/a.bin"])])
          (saveBins { Name := "+build" } "dest/") src [] (SaveError.rm "dest/a.bin")) :=
  ⟨⟨by decide, by decide⟩, by decide, by decide,
    ((saveArtifactLocally_into_directory
      (smallOs [("index-0/out/a.bin", false), ("dest/a.bin", true), ("dest/a.bin/x", false)]
        [("index-0/out/*.bin", ["index-0/out/a.bin"])])
      [] (saveBins { Name := "+build" } "dest/") {} (by decide)).2
      (SaveError.rm "dest/a.bin") (by decide)).resolve_left
        (fun h => absurd h.1 (by decide)) |>.resolve_left (fun h => absurd h.1 (by decide))⟩

/-- C14, as stated, fails: for a target that is local and external, the matches of
`out/*.bin` saved to the relative destination `dest/` are written below the local path
of the target, to `../lib/dest/a.bin` and `../lib/dest/b.bin`, and not to `dest/a.bin`
and `dest/b.bin`. -/
theorem external_target_writes_below_its_local_path :
    (saveArtifactLocally twoBinsOs []
        (saveBins { Name := "../lib+build", IsLocalExternal := true, LocalPath := "../lib" }
          "dest/") {}).1 = none ∧
    writes (saveArtifactLocally twoBinsOs []
        (saveBins { Name := "../lib+build", IsLocalExternal := true, LocalPath := "../lib" }
          "dest/") {}).2.done =
      [("index-0/out/a.bin", "../lib/dest/a.bin"), ("index-0/out/b.bin", "../lib/dest/b.bin")] := by
  decide

/-- C15: when the pattern has no match, `saveArtifactLocally` makes no file-system
call and prints nothing; it returns no error if `ifExists` is set or the target of the
artifact is remote, and the error that the artifact does not exist otherwise. -/
theorem saveArtifactLocally_without_match (os : Os) (done : List FsCall) (call : SaveCall)
    (opt : BuildOpt)
    (hglob : os.Glob done (os.FilepathJoin call.indexOutDir
      (os.FilepathFromSlash call.artifact.Artifact)) = some []) :
    saveArtifactLocally os done call opt =
      (if call.ifExists || call.artifact.Target.IsRemote then none
        else some (SaveError.doesNotExist call.artifact),
       { done := done, console := [] }) := by
  unfold saveArtifactLocally
  simp only [hglob, List.length_nil, Nat.le_refl, decide_True, Bool.and_true]
  cases hr : call.artifact.Target.IsRemote <;> cases he : call.ifExists <;>
    simp [saveMatches]

/-- Witness of C15: an artifact of a local target without a match, saved with and
without `ifExists`. -/
theorem saveArtifactLocally_without_match_witness :
    saveArtifactLocally (smallOs [] []) [] (saveOne "app" "bin") {} =
      (some (SaveError.doesNotExist (saveOne "app" "bin").artifact), { done := [] }) ∧
    saveArtifactLocally (smallOs [] []) [] { (saveOne "app" "bin") with ifExists := true } {} =
      (none, { done := [] }) :=
  ⟨saveArtifactLocally_without_match (smallOs [] []) [] (saveOne "app" "bin") {} rfl,
    by decide⟩

/-- C15, as stated, fails: an artifact of a remote target without a match, saved
without `ifExists`, is skipped without an error. -/
theorem remote_artifact_without_match_is_skipped :
    saveArtifactLocally (smallOs [] []) []
      { artifact := { Target := { Name := "github.com/a/b+build", IsRemote := true },
                      Artifact := "out/app" },
        indexOutDir := "index-0", destPath := "bin", salt := "", ifExists := false } {} =
      (none, { done := [] }) := by
  decide

/-- A wildcard pattern and a destination that does not end in `/`: if the first match
can be examined and nothing exists at the destination, the wildcard error is returned
and no file-system call is made. -/
theorem saveArtifactLocally_wildcard_to_missing_path (os : Os) (done : List FsCall)
    (call : SaveCall) (opt : BuildOpt) (src : String) (rest : List String) (srcIsDir : Bool)
    (hglob : os.Glob done (os.FilepathJoin call.indexOutDir
      (os.FilepathFromSlash call.artifact.Artifact)) = some (src :: rest))
    (hwild : ContainsAny (os.FilepathJoin call.indexOutDir
      (os.FilepathFromSlash call.artifact.Artifact)) "*?[" = true)
    (hslash : HasSuffix call.destPath "/" = false)
    (hsrc : os.Stat done src = some srcIsDir)
    (hdest : os.Stat done (saveDestination os call.artifact call.destPath src) = none) :
    saveArtifactLocally os done call opt =
      (some SaveError.wildcardNoSlash, { done := done, console := [] }) := by
  unfold saveArtifactLocally
  simp only [hglob, hwild, List.length_cons]
  have : ¬ (rest.length + 1 ≤ 0) := by omega
  simp only [this, decide_False, Bool.and_false, Bool.false_eq_true, if_false]
  rw [saveMatches]
  unfold saveMatch
  simp only [hsrc, hdest, hslash, Option.isNone_none, Bool.not_false, Bool.and_self, if_true]

/-- C13, at the failing input: the pattern `out/*.bin` matches `a.bin` and `b.bin` and
is saved to `dest/x.bin`, which exists as a plain file. No error is returned; each match
in turn replaces the file, so that `dest/x.bin` ends up as a link to `b.bin`. -/
theorem wildcard_onto_existing_file_is_written :
    ContainsAny "index-0/out/*.bin" "*?[" = true ∧
    HasSuffix "dest/x.bin" "/" = false ∧
    (saveArtifactLocally twoBinsOntoFileOs [] (saveBins { Name := "+build" } "dest/x.bin") {}).1 =
      none ∧
    (saveArtifactLocally twoBinsOntoFileOs [] (saveBins { Name := "+build" } "dest/x.bin")
        {}).2.done =
      [FsCall.Remove "dest/x.bin", FsCall.MkdirAll "dest",
       FsCall.Link "index-0/out/a.bin" "dest/x.bin",
       FsCall.Remove "dest/x.bin", FsCall.MkdirAll "dest",
       FsCall.Link "index-0/out/b.bin" "dest/x.bin"] ∧
    saveArtifactLocally twoBinsOs [] (saveBins { Name := "+build" } "dest/x.bin") {} =
      (some SaveError.wildcardNoSlash, { done := [] }) :=
  ⟨by decide, by decide, by decide, by decide, by decide⟩

/-- A match that is a directory and a destination that exists as a plain file: the
error of the kind mismatch is returned and no file-system call is made. -/
theorem saveMatch_directory_onto_file (os : Os) (call : SaveCall) (opt : BuildOpt)
    (isWildcard : Bool) (src : String) (s : SaveProgress)
    (hsrc : os.Stat s.done src = some true)
    (hdest : os.Stat s.done (saveDestination os call.artifact call.destPath src) = some false) :
    saveMatch os call opt isWildcard src s = (some SaveError.dirOntoFile, s) := by
  unfold saveMatch
  simp [hsrc, hdest]

/-- A match that is a plain file and a destination that exists as a directory: no
kind is compared; the removal of the destination is attempted, and the error of the
kind mismatch is not returned. -/
theorem saveMatch_file_onto_directory (os : Os) (call : SaveCall) (opt : BuildOpt)
    (isWildcard : Bool) (src : String) (s : SaveProgress)
    (hsrc : os.Stat s.done src = some false)
    (hdest : os.Stat s.done (saveDestination os call.artifact call.destPath src) = some true) :
    (saveMatch os call opt isWildcard src s).1 ≠ some SaveError.dirOntoFile ∧
    (os.Succeeds s.done (FsCall.Remove (saveDestination os call.artifact call.destPath src)) =
        false →
      saveMatch os call opt isWildcard src s =
        (some (SaveError.rm (saveDestination os call.artifact call.destPath src)), s)) := by
  constructor
  · unfold saveMatch
    simp only [hsrc, hdest, Option.isNone_some, Bool.false_and, Bool.false_eq_true, if_false,
      Option.isSome_some, Bool.not_false, if_true]
    split
    · rename_i err herr
      split at herr
      · cases herr; simp
      · cases herr
    · split
      · simp
      · split
        · simp
        · simp
  · intro hfail
    unfold saveMatch
    simp [hsrc, hdest, Os.attempt, hfail]

/-- C16, at the failing input: the plain file `out/app` is saved to `bin`, which exists
as an empty directory. No error is returned: the directory is removed and the file is
linked in its place. With an entry in the directory, the removal fails and its error is
returned. A directory saved to a destination that exists as a plain file is rejected. -/
theorem file_onto_existing_directory_replaces_it :
    saveArtifactLocally (oneFileOs [("bin", true)]) [] (saveOne "app" "bin") {} =
      (none, { done := [FsCall.Remove "bin", FsCall.MkdirAll ".",
                        FsCall.Link "index-0/out/app" "bin"] }) ∧
    saveArtifactLocally (oneFileOs [("bin", true), ("bin/old", false)]) []
        (saveOne "app" "bin") {} =
      (some (SaveError.rm "bin"), { done := [] }) ∧
    saveArtifactLocally (oneDirOs [("www", false)]) [] (saveOne "site" "www") {} =
      (some SaveError.dirOntoFile, { done := [] }) :=
  ⟨by decide, by decide, by decide⟩

/-! ### What an iteration of `bf` keeps -/

theorem singleImage_grows (b : Builder) (env : Env) (doPush doExport : Bool)
    (saveImage : SaveImage) (ref : Reference) (config : String) (s : BfState) :
    (∀ k ∈ s.res.keys, k ∈ (singleImage b env doPush doExport saveImage ref config s).res.keys) ∧
    (∀ e ∈ s.res.Metadata,
      e ∈ (singleImage b env doPush doExport saveImage ref config s).res.Metadata) ∧
    (singleImage b env doPush doExport saveImage ref config s).c.destPathWhitelist =
      s.c.destPathWhitelist ∧
    (singleImage b env doPush doExport saveImage ref config s).c.mts = s.c.mts := by
  refine ⟨?_, ?_, rfl, rfl⟩
  · intro k hk
    simp only [Result.keys] at hk ⊢
    simp [singleImage, Refs_AddRef, Refs_AddMeta, Refs_AddMetaIf, Refs_ite, hk]
  · intro e he
    cases doPush <;> cases doExport <;> cases saveImage.InsecurePush <;>
      by_cases hl : b.opt.LocalRegistryAddr = "" <;>
      simp [singleImage, Metadata_AddMeta, Metadata_AddRef, Metadata_AddMetaIf, hl, he]

theorem multiImagePush_grows (platformStr : String) (saveImage : SaveImage)
    (ref : Reference) (config : String) (s : BfState) :
    (∀ k ∈ s.res.keys, k ∈ (multiImagePush platformStr saveImage ref config s).res.keys) ∧
    (∀ e ∈ s.res.Metadata, e ∈ (multiImagePush platformStr saveImage ref config s).res.Metadata) ∧
    (multiImagePush platformStr saveImage ref config s).c.destPathWhitelist =
      s.c.destPathWhitelist ∧
    (multiImagePush platformStr saveImage ref config s).c.mts = s.c.mts := by
  refine ⟨?_, ?_, rfl, rfl⟩
  · intro k hk
    simp only [Result.keys] at hk ⊢
    simp [multiImagePush, Refs_AddRef, Refs_AddMeta, Refs_AddMetaIf, hk]
  · intro e he
    simp [multiImagePush, Metadata_AddMeta, Metadata_AddRef, Metadata_AddMetaIf, he]

theorem multiImageExport_grows (b : Builder) (env : Env) (platform : Platform)
    (saveImage : SaveImage) (ref : Reference) (config : String) (s s1 : BfState)
    (h : multiImageExport b env platform saveImage ref config s = some s1) :
    (∀ k ∈ s.res.keys, k ∈ s1.res.keys) ∧ (∀ e ∈ s.res.Metadata, e ∈ s1.res.Metadata) ∧
    s1.c.destPathWhitelist = s.c.destPathWhitelist ∧ s1.c.mts = s.c.mts := by
  unfold multiImageExport at h
  simp only at h
  split at h
  · exact absurd h (by simp)
  · split at h
    · exact absurd h (by simp)
    · simp only [Option.some.injEq] at h
      subst h
      refine ⟨?_, ?_, rfl, rfl⟩
      · intro k hk
        simp only [Result.keys] at hk ⊢
        simp [Refs_AddRef, Refs_AddMeta, Refs_ite, hk]
      · intro e he
        by_cases hl : b.opt.LocalRegistryAddr = "" <;>
          simp [Metadata_AddMeta, Metadata_AddRef, hl, he]

theorem saveImageStep_grows (b : Builder) (env : Env) (opt : BuildOpt) (multi : List String)
    (sts : SingleTarget) (isFinal : Bool) (saveImage : SaveImage) (s s1 : BfState)
    (h : saveImageStep b env opt multi sts isFinal saveImage s = some s1) :
    (∀ k ∈ s.res.keys, k ∈ s1.res.keys) ∧ (∀ e ∈ s.res.Metadata, e ∈ s1.res.Metadata) ∧
    s1.c.destPathWhitelist = s.c.destPathWhitelist ∧ s1.c.mts = s.c.mts := by
  unfold saveImageStep at h
  simp only at h
  split at h
  · simp only [Option.some.injEq] at h
    subst h
    exact ⟨fun _ hk => hk, fun _ he => he, rfl, rfl⟩
  · split at h
    · exact absurd h (by simp)
    · rename_i ref href
      split at h
      · exact absurd h (by simp)
      · rename_i config hconfig
        split at h
        · simp only [Option.some.injEq] at h
          subst h
          exact singleImage_grows _ _ _ _ _ _ _ _
        · obtain ⟨a1, a2, a3, a4⟩ := multiImagePush_grows
            (env.PlatformWithDefaultToString sts.Platform) saveImage ref config s
          cases hpush : shouldPush opt sts saveImage <;>
            cases hexp : shouldExport opt isFinal saveImage <;>
            simp only [hpush, hexp, Bool.false_eq_true, if_false, if_true,
              Option.some.injEq] at h
          · subst h
            exact ⟨fun _ hk => hk, fun _ he => he, rfl, rfl⟩
          · exact multiImageExport_grows _ _ _ _ _ _ _ _ h
          · subst h
            exact ⟨a1, a2, a3, a4⟩
          · obtain ⟨b1, b2, b3, b4⟩ := multiImageExport_grows _ _ _ _ _ _ _ _ h
            exact ⟨fun k hk => b1 k (a1 k hk), fun e he => b2 e (a2 e he), b3.trans a3,
              b4.trans a4⟩

theorem depStep_grows (b : Builder) (env : Env) (sts : SingleTarget) (s s1 : BfState)
    (h : depStep b env sts s = some s1) :
    (∀ k ∈ s.res.keys, k ∈ s1.res.keys) ∧ s1.res.Metadata = s.res.Metadata ∧
    s1.c.destPathWhitelist = s.c.destPathWhitelist ∧ s1.c.mts = s.c.mts ∧
    s1.c.imageIndex = s.c.imageIndex ∧ s1.c.manifestLists = s.c.manifestLists := by
  unfold depStep at h
  split at h
  · split at h
    · exact absurd h (by simp)
    · simp only [Option.some.injEq] at h
      subst h
      refine ⟨?_, rfl, rfl, rfl, rfl, rfl⟩
      intro k hk
      simp only [Result.keys] at hk ⊢
      simp [Refs_AddRef, hk]
  · simp only [Option.some.injEq] at h
    subst h
    exact ⟨fun _ hk => hk, rfl, rfl, rfl, rfl, rfl⟩

theorem ephemeralStep_grows (b : Builder) (env : Env) (sts : SingleTarget) (s s1 : BfState)
    (h : ephemeralStep b env sts s = some s1) :
    (∀ k ∈ s.res.keys, k ∈ s1.res.keys) ∧ s1.res.Metadata = s.res.Metadata ∧ s1.c = s.c := by
  unfold ephemeralStep at h
  simp only at h
  split at h
  · split at h
    · exact absurd h (by simp)
    · simp only [Option.some.injEq] at h
      subst h
      refine ⟨?_, rfl, rfl⟩
      intro k hk
      simp only [Result.keys] at hk ⊢
      simp [Refs_AddRef, hk]
  · simp only [Option.some.injEq] at h
    subst h
    exact ⟨fun _ hk => hk, rfl, rfl⟩

theorem saveLocalStep_grows (b : Builder) (env : Env) (sts : SingleTarget)
    (saveLocal : SaveLocal) (s s1 : BfState) (h : saveLocalStep b env sts saveLocal s = some s1) :
    (∀ k ∈ s.res.keys, k ∈ s1.res.keys) ∧ (∀ e ∈ s.res.Metadata, e ∈ s1.res.Metadata) ∧
    s1.c.destPathWhitelist = s.c.destPathWhitelist ++ [saveLocal.DestPath] ∧
    RegistersDest s1.res saveLocal.DestPath ∧
    s1.c.mts = s.c.mts ∧ s1.c.imageIndex = s.c.imageIndex ∧
    s1.c.manifestLists = s.c.manifestLists ∧
    ∀ e ∈ s1.res.Metadata, e ∈ s.res.Metadata ∨
      ∃ x, e.1 = "ref/" ++ ("dir-" ++ toString s.c.dirIndex) ++ x := by
  unfold saveLocalStep at h
  split at h
  · exact absurd h (by simp)
  · split at h
    · exact absurd h (by simp)
    · simp only [Option.some.injEq] at h
      subst h
      refine ⟨?_, ?_, rfl, ⟨s.c.dirIndex, ?_, ?_⟩, rfl, rfl, rfl, ?_⟩
      · intro k hk
        simp only [Result.keys] at hk ⊢
        simp [Refs_AddRef, Refs_AddMeta, hk]
      · intro e he
        simp [Metadata_AddMeta, Metadata_AddRef, he]
      · simp [Result.keys, Refs_AddRef, Refs_AddMeta]
      · simp [Metadata_AddMeta, Metadata_AddRef]
      · intro e he
        simp only [Metadata_AddMeta, Metadata_AddRef, List.mem_append, List.mem_singleton] at he
        rcases he with ((((he | rfl) | rfl) | rfl) | rfl) | rfl
        · exact Or.inl he
        all_goals exact Or.inr ⟨_, rfl⟩

/-! ### Properties kept by the loops of `bf` -/

theorem saveImagesLoop_preserves (b : Builder) (env : Env) (opt : BuildOpt)
    (multi : List String) (sts : SingleTarget) (isFinal : Bool) (P : BfState → Prop)
    (himg : ∀ saveImage s s1, P s →
      saveImageStep b env opt multi sts isFinal saveImage s = some s1 → P s1) :
    ∀ (images : List SaveImage) (s s1 : BfState), P s →
      saveImagesLoop b env opt multi sts isFinal images s = some s1 → P s1 := by
  intro images
  induction images with
  | nil =>
    intro s s1 hs h
    simp only [saveImagesLoop, Option.some.injEq] at h
    exact h ▸ hs
  | cons saveImage rest ih =>
    intro s s1 hs h
    simp only [saveImagesLoop] at h
    split at h
    · exact absurd h (by simp)
    · rename_i s2 hstep
      exact ih s2 s1 (himg saveImage s s2 hs hstep) h

theorem saveLocalsLoop_preserves (b : Builder) (env : Env) (sts : SingleTarget)
    (P : BfState → Prop)
    (hloc : ∀ saveLocal s s1, P s → saveLocalStep b env sts saveLocal s = some s1 → P s1) :
    ∀ (locals : List SaveLocal) (s s1 : BfState), P s →
      saveLocalsLoop b env sts locals s = some s1 → P s1 := by
  intro locals
  induction locals with
  | nil =>
    intro s s1 hs h
    simp only [saveLocalsLoop, Option.some.injEq] at h
    exact h ▸ hs
  | cons saveLocal rest ih =>
    intro s s1 hs h
    simp only [saveLocalsLoop] at h
    split at h
    · exact absurd h (by simp)
    · rename_i s2 hstep
      exact ih s2 s1 (hloc saveLocal s s2 hs hstep) h

/-- A property of the state of `bf` that every step keeps holds after the loop over the
targets if it holds before. -/
theorem targetsLoop_preserves (b : Builder) (env : Env) (opt : BuildOpt)
    (multi : List String) (P : BfState → Prop)
    (hdep : ∀ sts s s1, P s → depStep b env sts s = some s1 → P s1)
    (himg : ∀ sts isFinal saveImage s s1, P s →
      saveImageStep b env opt multi sts isFinal saveImage s = some s1 → P s1)
    (hloc : ∀ sts saveLocal s s1, P s → saveLocalStep b env sts saveLocal s = some s1 → P s1)
    (heph : ∀ sts s s1, P s → ephemeralStep b env sts s = some s1 → P s1) :
    ∀ (targets : List (SingleTarget × Bool)) (s s1 : BfState), P s →
      targetsLoop b env opt multi targets s = some s1 → P s1 := by
  intro targets
  induction targets with
  | nil =>
    intro s s1 hs h
    simp only [targetsLoop, Option.some.injEq] at h
    exact h ▸ hs
  | cons t rest ih =>
    obtain ⟨sts, isFinal⟩ := t
    intro s s1 hs h
    simp only [targetsLoop] at h
    split at h
    · exact absurd h (by simp)
    · rename_i s2 hstep
      refine ih s2 s1 ?_ h
      simp only [targetStep] at hstep
      split at hstep
      · exact absurd hstep (by simp)
      · rename_i sa ha
        split at hstep
        · exact absurd hstep (by simp)
        · rename_i sb hb
          split at hstep
          · exact absurd hstep (by simp)
          · rename_i sc hc
            have hPa := hdep sts s sa hs ha
            have hPb := saveImagesLoop_preserves b env opt multi sts isFinal P
              (himg sts isFinal) _ sa sb hPa hb
            have hPc : P sc := by
              split at hc
              · exact saveLocalsLoop_preserves b env sts P (hloc sts) _ sb sc hPb hc
              · simp only [Option.some.injEq] at hc
                exact hc ▸ hPb
            exact heph sts sc s2 hPc hstep

/-- A property of the state of `bf` that every step keeps and that holds once `main` and
`final-artifact` are registered holds for the request and the captured variables that
`bf` returns. -/
theorem bf_preserves (b : Builder) (env : Env) (opt : BuildOpt) (c c2 : Closure) (r : Result)
    (P : BfState → Prop) (h : bf b env opt c = some (r, c2))
    (hhead : ∀ mts res, bfGraph b env c = some mts → bfHead b env opt mts = some res →
      P { res := res, c := { c with mts := some mts } })
    (hdep : ∀ sts s s1, P s → depStep b env sts s = some s1 → P s1)
    (himg : ∀ mts sts isFinal saveImage s s1, bfGraph b env c = some mts → P s →
      saveImageStep b env opt (isMultiPlatform b mts.All) sts isFinal saveImage s = some s1 →
      P s1)
    (hloc : ∀ sts saveLocal s s1, P s → saveLocalStep b env sts saveLocal s = some s1 → P s1)
    (heph : ∀ sts s s1, P s → ephemeralStep b env sts s = some s1 → P s1) :
    P { res := r, c := c2 } := by
  unfold bf at h
  split at h
  · exact absurd h (by simp)
  · rename_i mts hg
    simp only at h
    split at h
    · exact absurd h (by simp)
    · rename_i res hres
      split at h
      · exact absurd h (by simp)
      · rename_i s hs
        simp only [Option.some.injEq, Prod.mk.injEq] at h
        obtain ⟨rfl, rfl⟩ := h
        exact targetsLoop_preserves b env opt _ P hdep (himg mts · · · · · hg) hloc heph _ _ _
          (hhead mts res hg hres) hs

/-! ### The whitelist of destinations -/

theorem RegistersDest.mono {res res1 : Result} {d : String}
    (hk : ∀ k ∈ res.keys, k ∈ res1.keys) (hm : ∀ e ∈ res.Metadata, e ∈ res1.Metadata)
    (h : RegistersDest res d) : RegistersDest res1 d := by
  obtain ⟨n, h1, h2⟩ := h
  exact ⟨n, hk _ h1, hm _ h2⟩

theorem bf_whitelist (b : Builder) (env : Env) (opt : BuildOpt) (c c2 : Closure) (r : Result)
    (h : bf b env opt c = some (r, c2)) :
    ∀ d ∈ c2.destPathWhitelist, d ∈ c.destPathWhitelist ∨ RegistersDest r d := by
  refine bf_preserves b env opt c c2 r
    (fun s => ∀ d ∈ s.c.destPathWhitelist, d ∈ c.destPathWhitelist ∨ RegistersDest s.res d)
    h ?_ ?_ ?_ ?_ ?_
  · intro mts res _ _ d hd
    exact Or.inl hd
  · intro sts s s1 hP hstep d hd
    obtain ⟨h1, h2, h3, _⟩ := depStep_grows b env sts s s1 hstep
    rw [h3] at hd
    exact (hP d hd).imp id (RegistersDest.mono h1 (fun e he => h2 ▸ he))
  · intro mts sts isFinal saveImage s s1 _ hP hstep d hd
    obtain ⟨h1, h2, h3, _⟩ := saveImageStep_grows b env opt _ sts isFinal saveImage s s1 hstep
    rw [h3] at hd
    exact (hP d hd).imp id (RegistersDest.mono h1 h2)
  · intro sts saveLocal s s1 hP hstep d hd
    obtain ⟨h1, h2, h3, h4, _⟩ := saveLocalStep_grows b env sts saveLocal s s1 hstep
    rw [h3] at hd
    rcases List.mem_append.1 hd with hd | hd
    · exact (hP d hd).imp id (RegistersDest.mono h1 h2)
    · simp only [List.mem_singleton] at hd
      subst hd
      exact Or.inr h4
  · intro sts s s1 hP hstep d hd
    obtain ⟨h1, h2, h3⟩ := ephemeralStep_grows b env sts s s1 hstep
    rw [h3] at hd
    exact (hP d hd).imp id (RegistersDest.mono h1 (fun e he => h2 ▸ he))

theorem invokeAll_whitelist (b : Builder) (env : Env) (opt : BuildOpt) (n : Nat) :
    ∀ (c c2 : Closure) (rs : List Result), invokeAll (bf b env opt) n c = some (rs, c2) →
      ∀ d ∈ c2.destPathWhitelist, d ∈ c.destPathWhitelist ∨ ∃ r ∈ rs, RegistersDest r d := by
  induction n with
  | zero =>
    intro c c2 rs h d hd
    simp only [invokeAll] at h
    split at h
    · exact absurd h (by simp)
    · rename_i res c1 hres
      simp only [Option.some.injEq, Prod.mk.injEq] at h
      obtain ⟨rfl, rfl⟩ := h
      exact (bf_whitelist b env opt c c1 res hres d hd).imp id
        fun hr => ⟨res, List.mem_singleton.2 rfl, hr⟩
  | succ n ih =>
    intro c c2 rs h d hd
    simp only [invokeAll] at h
    split at h
    · exact absurd h (by simp)
    · rename_i res c1 hres
      split at h
      · exact absurd h (by simp)
      · rename_i rest c3 hrest
        simp only [Option.some.injEq, Prod.mk.injEq] at h
        obtain ⟨rfl, rfl⟩ := h
        rcases ih c1 c3 rest hrest d hd with h1 | ⟨r, hr, hreg⟩
        · exact (bf_whitelist b env opt c c1 res hres d h1).imp id
            fun hr => ⟨res, List.mem_cons_self _ _, hr⟩
        · exact Or.inr ⟨r, List.mem_cons_of_mem _ hr, hreg⟩

theorem convertAndBuild_whitelist (b : Builder) (env : Env) (opt : BuildOpt) (log : BuildLog)
    (h : convertAndBuild b env opt = some log) :
    ∀ d ∈ log.closure.destPathWhitelist, ∃ req ∈ log.requests, RegistersDest req.2 d := by
  intro d hd
  obtain ⟨buildRs, c1, pushReqs, o, hinv, _, hpush, _, hreq, _⟩ := convertAndBuild_inv h
  have hbuild : d ∈ c1.destPathWhitelist →
      ∃ req ∈ log.requests, RegistersDest req.2 d := by
    intro hd1
    rcases invokeAll_whitelist b env opt _ _ _ _ hinv d hd1 with h0 | ⟨r, hr, hreg⟩
    · exact absurd h0 (by simp)
    · refine ⟨(PhaseBuild, r), ?_, hreg⟩
      rw [hreq]
      exact List.mem_append_left _ (List.mem_map.2 ⟨r, hr, rfl⟩)
  rcases pushPhase_inv hpush with ⟨_, hc⟩ | ⟨_, _, _, _, rs, hrs, hreqs⟩
  · exact hbuild (hc ▸ hd)
  · rcases invokeAll_whitelist _ env opt _ _ _ _ hrs d hd with h0 | ⟨r, hr, hreg⟩
    · exact hbuild h0
    · refine ⟨(PhasePush, r), ?_, hreg⟩
      rw [hreq, hreqs]
      exact List.mem_append_right _ (List.mem_map.2 ⟨r, hr, rfl⟩)

/-- C12: for a destination that is not in the whitelist, `onArtifact` returns the error
that the destination is not in the whitelist and leaves the builder and the file system
as they are: the temporary output directory is not set up and no directory `index-N`
is made. A destination is in the whitelist after an invocation of `bf` only if it was
there before or the request registers a `dir-N` reference that carries it as
`dest-path`; after a run of `convertAndBuild`, only if one of the requests of the run
registers such a reference. -/
theorem onArtifact_rejects_unlisted_destination :
    (∀ (b : Builder) (os : Os) (c : Closure) (done : List FsCall) (index : Nat)
        (destPath : String), destPath ∉ c.destPathWhitelist →
      onArtifact b os c done index destPath =
        (Except.error (OutDirError.notInWhitelist destPath), b, done)) ∧
    (∀ (b : Builder) (env : Env) (opt : BuildOpt) (c c2 : Closure) (r : Result),
      bf b env opt c = some (r, c2) →
      ∀ d ∈ c2.destPathWhitelist, d ∈ c.destPathWhitelist ∨ RegistersDest r d) ∧
    (∀ (b : Builder) (env : Env) (opt : BuildOpt) (log : BuildLog),
      convertAndBuild b env opt = some log →
      ∀ d ∈ log.closure.destPathWhitelist, ∃ req ∈ log.requests, RegistersDest req.2 d) := by
  refine ⟨?_, bf_whitelist, convertAndBuild_whitelist⟩
  intro b os c done index destPath hnot
  have hc : c.destPathWhitelist.contains destPath = false := by
    simp only [List.contains, List.elem_eq_mem, decide_eq_false_iff_not]
    exact hnot
  simp only [onArtifact, hc, Bool.not_false, if_true]

/-- Witness of C12: after the run on `pushLocalGraph` the whitelist holds `m.txt` only.
For `x.txt` the callback fails and does nothing; for `m.txt` a request of the run
registers `dir-0` with that destination, and the callback sets up the temporary output
directory and makes `index-0` in it. -/
theorem onArtifact_rejects_unlisted_destination_witness :
    ∃ log, convertAndBuild {} (demoEnv (some pushLocalGraph)) {} = some log ∧
      log.closure.destPathWhitelist = ["m.txt"] ∧
      onArtifact {} (smallOs [] []) log.closure [] 0 "x.txt" =
        (Except.error (OutDirError.notInWhitelist "x.txt"), {}, []) ∧
      (∃ req ∈ log.requests, RegistersDest req.2 "m.txt") ∧
      onArtifact {} (smallOs [] []) log.closure [] 0 "m.txt" =
        (Except.ok ".tmp-earthly-out/tmp1/index-0",
          { outDirOnce := true, outDir := ".tmp-earthly-out/tmp1" },
          [FsCall.MkdirAll ".tmp-earthly-out", FsCall.TempDir ".tmp-earthly-out/tmp1",
           FsCall.MkdirAll ".tmp-earthly-out/tmp1/index-0"]) :=
  ⟨_, rfl, by decide,
    onArtifact_rejects_unlisted_destination.1 {} (smallOs [] []) _ [] 0 "x.txt" (by decide),
    onArtifact_rejects_unlisted_destination.2.2 {} (demoEnv (some pushLocalGraph)) {} _ rfl
      "m.txt" (by decide),
    rfl⟩

/-! ### Metadata keys of image entries -/

theorem toDigitsCore_no_slash (fuel : Nat) : ∀ (n : Nat) (ds : List Char),
    (∀ c ∈ ds, c ≠ '/') → ∀ c ∈ Nat.toDigitsCore 10 fuel n ds, c ≠ '/' := by
  induction fuel with
  | zero =>
    intro n ds h c hc
    simp only [Nat.toDigitsCore] at hc
    exact h c hc
  | succ fuel ih =>
    intro n ds h c hc
    have hd : Nat.digitChar (n % 10) ≠ '/' := by
      have : n % 10 < 10 := Nat.mod_lt n (by omega)
      interval_cases (n % 10) <;> decide
    have hds : ∀ c ∈ Nat.digitChar (n % 10) :: ds, c ≠ '/' := by
      intro c hc
      rcases List.mem_cons.1 hc with rfl | hc
      · exact hd
      · exact h c hc
    simp only [Nat.toDigitsCore] at hc
    split_ifs at hc
    · exact hds c hc
    · exact ih _ _ hds c hc

/-- The decimal text of a number holds no slash. -/
theorem toString_nat_no_slash (n : Nat) : '/' ∉ (toString n).data := by
  intro h
  have h1 : '/' ∈ Nat.toDigits 10 n := by
    simpa [toString, Nat.repr] using h
  exact toDigitsCore_no_slash _ _ _ (by simp) _ h1 rfl

theorem append_slash_inj : ∀ (xs ys a b : List Char), '/' ∉ xs → '/' ∉ ys →
    xs ++ '/' :: a = ys ++ '/' :: b → xs = ys ∧ a = b := by
  intro xs
  induction xs with
  | nil =>
    intro ys a b _ hy h
    cases ys with
    | nil => simpa using h
    | cons y ys =>
      simp only [List.nil_append, List.cons_append, List.cons.injEq] at h
      exact absurd (h.1 ▸ List.mem_cons_self _ _) hy
  | cons x xs ih =>
    intro ys a b hx hy h
    cases ys with
    | nil =>
      simp only [List.nil_append, List.cons_append, List.cons.injEq] at h
      exact absurd (h.1 ▸ List.mem_cons_self _ _) hx
    | cons y ys =>
      simp only [List.cons_append, List.cons.injEq] at h
      obtain ⟨h1, h2⟩ := ih ys a b (fun hm => hx (List.mem_cons_of_mem _ hm))
        (fun hm => hy (List.mem_cons_of_mem _ hm)) h.2
      exact ⟨by rw [h.1, h1], h2⟩

/-- The metadata key of an `image-N` entry determines the number and the field. -/
theorem imageMeta_inj {n m : Nat} {x y : String} (hx : x.data.head? = some '/')
    (hy : y.data.head? = some '/')
    (h : "ref/" ++ ("image-" ++ toString n) ++ x = "ref/" ++ ("image-" ++ toString m) ++ y) :
    n = m ∧ x = y := by
  have h1 := congrArg String.data h
  simp only [String.data_append, List.append_assoc, List.append_cancel_left_eq] at h1
  obtain ⟨xs, hxs⟩ : ∃ xs, x.data = '/' :: xs := by
    cases hd : x.data with
    | nil => simp [hd] at hx
    | cons c cs =>
      simp only [hd, List.head?_cons, Option.some.injEq] at hx
      exact ⟨cs, by rw [hx]⟩
  obtain ⟨ys, hys⟩ : ∃ ys, y.data = '/' :: ys := by
    cases hd : y.data with
    | nil => simp [hd] at hy
    | cons c cs =>
      simp only [hd, List.head?_cons, Option.some.injEq] at hy
      exact ⟨cs, by rw [hy]⟩
  rw [hxs, hys] at h1
  obtain ⟨h2, h3⟩ := append_slash_inj _ _ _ _ (toString_nat_no_slash n)
    (toString_nat_no_slash m) h1
  exact ⟨toString_nat_inj (String.ext h2), String.ext (by rw [hxs, hys, h3])⟩

/-! ### The calls of the manifest-list merge -/

theorem eraseDups_loop (as : List String) : ∀ bs : List String, bs.Nodup →
    (List.eraseDups.loop as bs).Nodup ∧
      ∀ x, x ∈ List.eraseDups.loop as bs ↔ x ∈ as ∨ x ∈ bs := by
  induction as with
  | nil =>
    intro bs hbs
    simp only [List.eraseDups.loop]
    exact ⟨List.nodup_reverse.2 hbs, fun x => by simp⟩
  | cons a as ih =>
    intro bs hbs
    simp only [List.eraseDups.loop]
    cases hmem : bs.elem a with
    | true =>
      have ha : a ∈ bs := by simpa [List.elem_eq_mem] using hmem
      obtain ⟨h1, h2⟩ := ih bs hbs
      refine ⟨h1, fun x => ?_⟩
      rw [h2 x]
      constructor
      · rintro (h | h)
        · exact Or.inl (List.mem_cons_of_mem _ h)
        · exact Or.inr h
      · rintro (h | h)
        · rcases List.mem_cons.1 h with rfl | h
          · exact Or.inr ha
          · exact Or.inl h
        · exact Or.inr h
    | false =>
      have ha : a ∉ bs := by simpa [List.elem_eq_mem] using hmem
      obtain ⟨h1, h2⟩ := ih (a :: bs) (List.nodup_cons.2 ⟨ha, hbs⟩)
      refine ⟨h1, fun x => ?_⟩
      rw [h2 x]
      simp only [List.mem_cons]
      tauto

theorem count_eraseDups (as : List String) (x : String) :
    as.eraseDups.count x = if x ∈ as then 1 else 0 := by
  obtain ⟨h1, h2⟩ := eraseDups_loop as [] List.nodup_nil
  have hmem : x ∈ as.eraseDups ↔ x ∈ as := by
    simpa [List.eraseDups] using h2 x
  have hnd : as.eraseDups.Nodup := h1
  split_ifs with hx
  · exact List.count_eq_one_of_mem hnd (hmem.2 hx)
  · exact List.count_eq_zero_of_not_mem fun hm => hx (hmem.1 hm)

/-! ### No direct export under a multi-platform tag -/

theorem ImageBlock.empty (i : Nat) (P : String × String → Prop) (M : List (String × String)) :
    ImageBlock i P M M :=
  ⟨[], by simp, by simp⟩

theorem ImageBlock.addMeta {i : Nat} {P : String × String → Prop} {M : List (String × String)}
    {res : Result} {x v : String} (h : ImageBlock i P M res.Metadata)
    (hx : x.data.head? = some '/') (hP : P ("ref/" ++ ("image-" ++ toString i) ++ x, v)) :
    ImageBlock i P M (res.AddMeta ("ref/" ++ ("image-" ++ toString i) ++ x) v).Metadata := by
  obtain ⟨added, h1, h2⟩ := h
  refine ⟨added ++ [("ref/" ++ ("image-" ++ toString i) ++ x, v)], ?_, ?_⟩
  · rw [Metadata_AddMeta, h1, List.append_assoc]
  · intro e he
    rcases List.mem_append.1 he with he | he
    · exact h2 e he
    · simp only [List.mem_singleton] at he
      subst he
      exact ⟨⟨x, hx, rfl⟩, hP⟩

theorem ImageBlock.addConfig {i : Nat} {P : String × String → Prop}
    {M : List (String × String)} {res : Result} {v : String}
    (h : ImageBlock i P M res.Metadata)
    (hP : P ("ref/" ++ ("image-" ++ toString i) ++ "/" ++ ExporterImageConfigKey, v)) :
    ImageBlock i P M
      (res.AddMeta ("ref/" ++ ("image-" ++ toString i) ++ "/" ++ ExporterImageConfigKey)
        v).Metadata := by
  obtain ⟨added, h1, h2⟩ := h
  refine ⟨added ++ [("ref/" ++ ("image-" ++ toString i) ++ "/" ++ ExporterImageConfigKey, v)],
    ?_, ?_⟩
  · rw [Metadata_AddMeta, h1, List.append_assoc]
  · intro e he
    rcases List.mem_append.1 he with he | he
    · exact h2 e he
    · simp only [List.mem_singleton] at he
      subst he
      exact ⟨⟨"/" ++ ExporterImageConfigKey, rfl, String.append_assoc _ _ _⟩, hP⟩

theorem ImageBlock.addRef {i : Nat} {P : String × String → Prop} {M : List (String × String)}
    {res : Result} {k : String} {ref : Reference} (h : ImageBlock i P M res.Metadata) :
    ImageBlock i P M (res.AddRef k ref).Metadata := h

theorem config_key_ne (p x : String) (h : ("/" ++ ExporterImageConfigKey).data ≠ x.data) :
    p ++ "/" ++ ExporterImageConfigKey ≠ p ++ x := by
  rw [String.append_assoc]
  exact suffix_ne h

theorem ImageBlock.addMetaIf {i : Nat} {P : String × String → Prop}
    {M : List (String × String)} {res : Result} {c : Bool} {x v : String}
    (h : ImageBlock i P M res.Metadata) (hx : x.data.head? = some '/')
    (hP : P ("ref/" ++ ("image-" ++ toString i) ++ x, v)) :
    ImageBlock i P M
      (res.AddMetaIf c ("ref/" ++ ("image-" ++ toString i) ++ x) v).Metadata := by
  cases c
  · exact h
  · exact ImageBlock.addMeta h hx hP

/-- The fields that `singleImage` adds for an image with another tag than `tag`. -/
theorem singleImage_block (b : Builder) (env : Env) (doPush doExport : Bool)
    (saveImage : SaveImage) (ref : Reference) (config : String) (s : BfState) (tag : String)
    (hne : saveImage.DockerTag ≠ tag) :
    ImageBlock s.c.imageIndex
      (fun e => e ≠ ("ref/" ++ ("image-" ++ toString s.c.imageIndex) ++ "/image.name", tag))
      s.res.Metadata (singleImage b env doPush doExport saveImage ref config s).res.Metadata := by
  unfold singleImage
  simp only
  refine ImageBlock.addRef ?_
  refine ImageBlock.addMeta ?_ rfl
    (fun h => absurd (Prod.mk.inj h).1 (suffix_ne (by decide)))
  refine ImageBlock.addConfig ?_
    (fun h => absurd (Prod.mk.inj h).1 (config_key_ne _ _ (by decide)))
  have hname : ImageBlock s.c.imageIndex
      (fun e => e ≠ ("ref/" ++ ("image-" ++ toString s.c.imageIndex) ++ "/image.name", tag))
      s.res.Metadata
      ((if doExport = true then
          if (b.opt.LocalRegistryAddr != "") = true then
            s.res.AddMeta
              ("ref/" ++ ("image-" ++ toString s.c.imageIndex) ++ "/export-image-local-registry")
              ("sess-" ++ env.SessionID ++ "/sp:img" ++ toString (s.c.imageIndex + 1))
          else
            s.res.AddMeta ("ref/" ++ ("image-" ++ toString s.c.imageIndex) ++ "/export-image")
              "true"
        else s.res).AddMeta
          ("ref/" ++ ("image-" ++ toString s.c.imageIndex) ++ "/image.name")
          saveImage.DockerTag).Metadata := by
    refine ImageBlock.addMeta ?_ rfl (fun h => hne (Prod.mk.inj h).2)
    split
    · split
      · exact ImageBlock.addMeta (ImageBlock.empty _ _ _) rfl
          (fun h => absurd (Prod.mk.inj h).1 (suffix_ne (by decide)))
      · exact ImageBlock.addMeta (ImageBlock.empty _ _ _) rfl
          (fun h => absurd (Prod.mk.inj h).1 (suffix_ne (by decide)))
    · exact ImageBlock.empty _ _ _
  split
  · refine ImageBlock.addMetaIf ?_ rfl
      (fun h => absurd (Prod.mk.inj h).1 (suffix_ne (by decide)))
    exact ImageBlock.addMeta hname rfl
      (fun h => absurd (Prod.mk.inj h).1 (suffix_ne (by decide)))
  · exact hname

/-- The fields that `multiImagePush` adds: none of them marks the entry as exported. -/
theorem multiImagePush_block (platformStr : String) (saveImage : SaveImage)
    (ref : Reference) (config : String) (s : BfState) :
    ImageBlock s.c.imageIndex
      (fun e => ∀ v,
        e ≠ ("ref/" ++ ("image-" ++ toString s.c.imageIndex) ++ "/export-image", v) ∧
        e ≠ ("ref/" ++ ("image-" ++ toString s.c.imageIndex) ++ "/export-image-local-registry",
          v))
      s.res.Metadata (multiImagePush platformStr saveImage ref config s).res.Metadata := by
  unfold multiImagePush
  simp only
  refine ImageBlock.addRef ?_
  refine ImageBlock.addMeta ?_ rfl (fun v =>
    ⟨fun h => absurd (Prod.mk.inj h).1 (suffix_ne (by decide)),
     fun h => absurd (Prod.mk.inj h).1 (suffix_ne (by decide))⟩)
  refine ImageBlock.addConfig ?_ (fun v =>
    ⟨fun h => absurd (Prod.mk.inj h).1 (config_key_ne _ _ (by decide)),
     fun h => absurd (Prod.mk.inj h).1 (config_key_ne _ _ (by decide))⟩)
  refine ImageBlock.addMetaIf ?_ rfl (fun v =>
    ⟨fun h => absurd (Prod.mk.inj h).1 (suffix_ne (by decide)),
     fun h => absurd (Prod.mk.inj h).1 (suffix_ne (by decide))⟩)
  refine ImageBlock.addMeta ?_ rfl (fun v =>
    ⟨fun h => absurd (Prod.mk.inj h).1 (suffix_ne (by decide)),
     fun h => absurd (Prod.mk.inj h).1 (suffix_ne (by decide))⟩)
  refine ImageBlock.addMeta ?_ rfl (fun v =>
    ⟨fun h => absurd (Prod.mk.inj h).1 (suffix_ne (by decide)),
     fun h => absurd (Prod.mk.inj h).1 (suffix_ne (by decide))⟩)
  exact ImageBlock.addMeta (ImageBlock.empty _ _ _) rfl (fun v =>
    ⟨fun h => absurd (Prod.mk.inj h).1 (suffix_ne (by decide)),
     fun h => absurd (Prod.mk.inj h).1 (suffix_ne (by decide))⟩)

/-- The fields that `multiImageExport` adds: the entry is named with the
platform-specific name. -/
theorem multiImageExport_block (b : Builder) (env : Env) (platform : Platform)
    (saveImage : SaveImage) (ref : Reference) (config : String) (s s1 : BfState) (tag : String)
    (hname : ∀ t p, env.platformSpecificImageName t p ≠ some tag)
    (h : multiImageExport b env platform saveImage ref config s = some s1) :
    s1.c.imageIndex = s.c.imageIndex + 1 ∧
    ImageBlock s.c.imageIndex
      (fun e => e ≠ ("ref/" ++ ("image-" ++ toString s.c.imageIndex) ++ "/image.name", tag))
      s.res.Metadata s1.res.Metadata := by
  unfold multiImageExport at h
  simp only at h
  split at h
  · exact absurd h (by simp)
  · rename_i name hn
    split at h
    · exact absurd h (by simp)
    · simp only [Option.some.injEq] at h
      subst h
      refine ⟨rfl, ?_⟩
      have hne : name ≠ tag := fun e => hname _ _ (e ▸ hn)
      simp only
      refine ImageBlock.addRef ?_
      refine ImageBlock.addMeta ?_ rfl
        (fun h => absurd (Prod.mk.inj h).1 (suffix_ne (by decide)))
      refine ImageBlock.addConfig ?_
        (fun h => absurd (Prod.mk.inj h).1 (config_key_ne _ _ (by decide)))
      refine ImageBlock.addMeta ?_ rfl (fun h => hne (Prod.mk.inj h).2)
      split
      · exact ImageBlock.addMeta (ImageBlock.empty _ _ _) rfl
          (fun h => absurd (Prod.mk.inj h).1 (suffix_ne (by decide)))
      · exact ImageBlock.addMeta (ImageBlock.empty _ _ _) rfl
          (fun h => absurd (Prod.mk.inj h).1 (suffix_ne (by decide)))

/-- An iteration that adds the fields of the entry `image-i` for the current
`imageIndex` `i` and moves the index on keeps `NoExportAs`, if the fields do not name
the entry `tag` or do not mark it as exported. -/
theorem NoExportAs.image_step {tag : String} {s s1 : BfState}
    (hi : s1.c.imageIndex = s.c.imageIndex + 1)
    (hblock :
      ImageBlock s.c.imageIndex
        (fun e => e ≠ ("ref/" ++ ("image-" ++ toString s.c.imageIndex) ++ "/image.name", tag))
        s.res.Metadata s1.res.Metadata ∨
      ImageBlock s.c.imageIndex
        (fun e => ∀ v,
          e ≠ ("ref/" ++ ("image-" ++ toString s.c.imageIndex) ++ "/export-image", v) ∧
          e ≠ ("ref/" ++ ("image-" ++ toString s.c.imageIndex) ++
            "/export-image-local-registry", v))
        s.res.Metadata s1.res.Metadata)
    (h : NoExportAs tag s) : NoExportAs tag s1 := by
  obtain ⟨hfresh, hnoexp⟩ := h
  -- in either case the new fields belong to the entry `image-i`
  have hsplit : ∃ added, s1.res.Metadata = s.res.Metadata ++ added ∧
      (∀ e ∈ added, ∃ x : String, x.data.head? = some '/' ∧
        e.1 = "ref/" ++ ("image-" ++ toString s.c.imageIndex) ++ x) ∧
      (("ref/" ++ ("image-" ++ toString s.c.imageIndex) ++ "/image.name", tag) ∉ added ∨
        ∀ v, ("ref/" ++ ("image-" ++ toString s.c.imageIndex) ++ "/export-image", v) ∉ added ∧
          ("ref/" ++ ("image-" ++ toString s.c.imageIndex) ++ "/export-image-local-registry",
            v) ∉ added) := by
    rcases hblock with ⟨added, h1, h2⟩ | ⟨added, h1, h2⟩
    · exact ⟨added, h1, fun e he => (h2 e he).1, Or.inl fun hm => (h2 _ hm).2 rfl⟩
    · exact ⟨added, h1, fun e he => (h2 e he).1,
        Or.inr fun v => ⟨fun hm => ((h2 _ hm).2 v).1 rfl, fun hm => ((h2 _ hm).2 v).2 rfl⟩⟩
  obtain ⟨added, hM, hkeys, hno⟩ := hsplit
  -- a field of an entry `image-n` is old, with `n` below `i`, or new, with `n = i`
  have hcase : ∀ (n : Nat) (x w : String), x.data.head? = some '/' →
      ("ref/" ++ ("image-" ++ toString n) ++ x, w) ∈ s1.res.Metadata →
      (("ref/" ++ ("image-" ++ toString n) ++ x, w) ∈ s.res.Metadata ∧ n < s.c.imageIndex) ∨
      (("ref/" ++ ("image-" ++ toString n) ++ x, w) ∈ added ∧ n = s.c.imageIndex) := by
    intro n x w hx hm
    rw [hM] at hm
    rcases List.mem_append.1 hm with hm | hm
    · left
      refine ⟨hm, ?_⟩
      by_contra hlt
      exact hfresh _ hm n (by omega) x hx rfl
    · right
      obtain ⟨y, hy, hey⟩ := hkeys _ hm
      exact ⟨hm, (imageMeta_inj hx hy hey).1⟩
  constructor
  · intro e he n hn x hx heq
    rw [hM] at he
    rcases List.mem_append.1 he with he | he
    · exact hfresh e he n (by omega) x hx heq
    · obtain ⟨y, hy, hey⟩ := hkeys e he
      rw [hey] at heq
      have := (imageMeta_inj hy hx heq).1
      omega
  · rintro ⟨n, hname, v, hexp⟩
    rcases hcase n "/image.name" tag rfl hname with ⟨hn1, hlt⟩ | ⟨hn1, rfl⟩
    · rcases hexp with hexp | hexp
      · rcases hcase n "/export-image" v rfl hexp with ⟨he1, _⟩ | ⟨_, hn⟩
        · exact hnoexp ⟨n, hn1, v, Or.inl he1⟩
        · omega
      · rcases hcase n "/export-image-local-registry" v rfl hexp with ⟨he1, _⟩ | ⟨_, hn⟩
        · exact hnoexp ⟨n, hn1, v, Or.inr he1⟩
        · omega
    · rcases hexp with hexp | hexp
      · rcases hcase _ "/export-image" v rfl hexp with ⟨_, hlt⟩ | ⟨he1, _⟩
        · omega
        · rcases hno with hno | hno
          · exact hno hn1
          · exact (hno v).1 he1
      · rcases hcase _ "/export-image-local-registry" v rfl hexp with ⟨_, hlt⟩ | ⟨he1, _⟩
        · omega
        · rcases hno with hno | hno
          · exact hno hn1
          · exact (hno v).2 he1

theorem dir_key_ne_image_key (d n : Nat) (x y : String) :
    "ref/" ++ ("dir-" ++ toString d) ++ x ≠ "ref/" ++ ("image-" ++ toString n) ++ y := by
  intro h
  have := congrArg String.data h
  simp [String.data_append] at this

/-- An iteration that adds fields of an entry `dir-N` only, or none, and keeps
`imageIndex` keeps `NoExportAs`. -/
theorem NoExportAs.other_step {tag : String} {s s1 : BfState}
    (hi : s1.c.imageIndex = s.c.imageIndex)
    (hM : ∀ e ∈ s1.res.Metadata, e ∈ s.res.Metadata ∨
      ∃ (d : Nat) (x : String), e.1 = "ref/" ++ ("dir-" ++ toString d) ++ x)
    (h : NoExportAs tag s) : NoExportAs tag s1 := by
  obtain ⟨hfresh, hnoexp⟩ := h
  have hold : ∀ (n : Nat) (x w : String),
      ("ref/" ++ ("image-" ++ toString n) ++ x, w) ∈ s1.res.Metadata →
      ("ref/" ++ ("image-" ++ toString n) ++ x, w) ∈ s.res.Metadata := by
    intro n x w hm
    rcases hM _ hm with hm | ⟨d, y, hd⟩
    · exact hm
    · exact absurd hd.symm (dir_key_ne_image_key d n y x)
  constructor
  · intro e he n hn x hx heq
    rcases hM e he with he | ⟨d, y, hd⟩
    · exact hfresh e he n (by omega) x hx heq
    · rw [hd] at heq
      exact dir_key_ne_image_key d n y x heq
  · rintro ⟨n, hname, v, hexp⟩
    exact hnoexp ⟨n, hold _ _ _ hname, v, hexp.imp (hold _ _ _) (hold _ _ _)⟩

theorem saveImageStep_noExportAs (b : Builder) (env : Env) (opt : BuildOpt)
    (multi : List String) (sts : SingleTarget) (isFinal : Bool) (saveImage : SaveImage)
    (s s1 : BfState) (tag : String) (htag : tag ∈ multi)
    (hname : ∀ t p, env.platformSpecificImageName t p ≠ some tag)
    (hs : NoExportAs tag s)
    (h : saveImageStep b env opt multi sts isFinal saveImage s = some s1) :
    NoExportAs tag s1 := by
  unfold saveImageStep at h
  simp only at h
  split at h
  · simp only [Option.some.injEq] at h
    exact h ▸ hs
  · split at h
    · exact absurd h (by simp)
    · rename_i ref href
      split at h
      · exact absurd h (by simp)
      · rename_i config hconfig
        split at h
        · rename_i hnot
          simp only [Option.some.injEq] at h
          subst h
          have hne : saveImage.DockerTag ≠ tag := by
            intro e
            simp only [List.contains, List.elem_eq_mem, Bool.not_eq_true',
              decide_eq_false_iff_not] at hnot
            exact hnot (e ▸ htag)
          exact NoExportAs.image_step rfl
            (Or.inl (singleImage_block b env _ _ saveImage ref config s tag hne)) hs
        · have hpush : NoExportAs tag
              (multiImagePush (env.PlatformWithDefaultToString sts.Platform) saveImage ref
                config s) :=
            NoExportAs.image_step rfl
              (Or.inr (multiImagePush_block _ saveImage ref config s)) hs
          cases hp : shouldPush opt sts saveImage <;>
            cases hexp : shouldExport opt isFinal saveImage <;>
            simp only [hp, hexp, Bool.false_eq_true, if_false, if_true,
              Option.some.injEq] at h
          · exact h ▸ hs
          · obtain ⟨hi, hb⟩ := multiImageExport_block b env _ saveImage ref config s s1 tag
              hname h
            exact NoExportAs.image_step hi (Or.inl hb) hs
          · exact h ▸ hpush
          · obtain ⟨hi, hb⟩ := multiImageExport_block b env _ saveImage ref config _ s1 tag
              hname h
            exact NoExportAs.image_step hi (Or.inl hb) hpush

theorem bfHead_noExportAs (b : Builder) (env : Env) (opt : BuildOpt) (mts : MultiTarget)
    (res : Result) (c : Closure) (tag : String) (h : bfHead b env opt mts = some res) :
    NoExportAs tag { res := res, c := c } := by
  have hkeys : ∀ e ∈ res.Metadata, ∃ x, e.1 = "ref/" ++ "final-artifact" ++ x := by
    unfold bfHead at h
    simp only at h
    split at h
    · exact absurd h (by simp)
    · rename_i res0 hres0
      have h0 : res0.Metadata = [] := by
        split at hres0
        · cases hr : b.stateToRef env mts.Final.MainState mts.Final.Platform with
          | none => simp [hr] at hres0
          | some ref =>
            simp only [hr, Option.map_some', Option.some.injEq] at hres0
            subst hres0
            rfl
        · simp only [Option.some.injEq] at hres0
          subst hres0
          rfl
      split at h
      · split at h
        · exact absurd h (by simp)
        · simp only [Option.some.injEq] at h
          subst h
          intro e he
          simp only [Metadata_AddMeta, Metadata_AddRef, h0, List.nil_append, List.cons_append,
            List.mem_cons, List.mem_singleton, List.not_mem_nil, or_false] at he
          rcases he with rfl | rfl
          · exact ⟨_, rfl⟩
          · exact ⟨_, rfl⟩
      · simp only [Option.some.injEq] at h
        subst h
        intro e he
        simp [h0] at he
  have hne : ∀ (n : Nat) (x y : String),
      "ref/" ++ "final-artifact" ++ x ≠ "ref/" ++ ("image-" ++ toString n) ++ y := by
    intro n x y e
    have := congrArg String.data e
    simp [String.data_append] at this
  constructor
  · intro e he n _ x _ heq
    obtain ⟨y, hy⟩ := hkeys e he
    rw [hy] at heq
    exact hne n y x heq
  · rintro ⟨n, hn, _⟩
    obtain ⟨y, hy⟩ := hkeys _ hn
    exact hne n y _ hy.symm

/-- A request constructed by `bf` has no entry that is named with a tag of
`isMultiPlatform` and exported, if no platform-specific name is that tag. -/
theorem bf_noExportAs (b : Builder) (env : Env) (opt : BuildOpt) (c c2 : Closure) (r : Result)
    (mts : MultiTarget) (tag : String) (h : bf b env opt c = some (r, c2))
    (hg : bfGraph b env c = some mts) (htag : tag ∈ isMultiPlatform b mts.All)
    (hname : ∀ t p, env.platformSpecificImageName t p ≠ some tag) :
    ¬ ExportsAs r.Metadata tag := by
  refine (bf_preserves b env opt c c2 r (NoExportAs tag) h ?_ ?_ ?_ ?_ ?_).2
  · intro mts1 res _ hres
    exact bfHead_noExportAs b env opt mts1 res _ tag hres
  · intro sts s s1 hP hstep
    obtain ⟨_, h2, _, _, h5, _⟩ := depStep_grows b env sts s s1 hstep
    exact NoExportAs.other_step h5 (fun e he => Or.inl (h2 ▸ he)) hP
  · intro mts1 sts isFinal saveImage s s1 hg1 hP hstep
    have : mts1 = mts := Option.some.inj (hg1.symm.trans hg)
    subst this
    exact saveImageStep_noExportAs b env opt _ sts isFinal saveImage s s1 tag htag hname hP hstep
  · intro sts saveLocal s s1 hP hstep
    obtain ⟨_, _, _, _, _, h6, _, h8⟩ := saveLocalStep_grows b env sts saveLocal s s1 hstep
    exact NoExportAs.other_step h6
      (fun e he => (h8 e he).imp id fun ⟨x, hx⟩ => ⟨_, x, hx⟩) hP
  · intro sts s s1 hP hstep
    obtain ⟨_, h2, h3⟩ := ephemeralStep_grows b env sts s s1 hstep
    exact NoExportAs.other_step (by rw [h3]) (fun e he => Or.inl (h2 ▸ he)) hP

/-! ### The graph and the manifest lists over a run -/

theorem bf_mts (b : Builder) (env : Env) (opt : BuildOpt) (c c2 : Closure) (r : Result)
    (h : bf b env opt c = some (r, c2)) : c2.mts = bfGraph b env c := by
  refine bf_preserves b env opt c c2 r (fun s => s.c.mts = bfGraph b env c) h ?_ ?_ ?_ ?_ ?_
  · intro mts res hg _
    exact hg.symm
  · intro sts s s1 hP hstep
    obtain ⟨_, _, _, h4, _⟩ := depStep_grows b env sts s s1 hstep
    exact h4.trans hP
  · intro mts sts isFinal saveImage s s1 _ hP hstep
    obtain ⟨_, _, _, h4⟩ := saveImageStep_grows b env opt _ sts isFinal saveImage s s1 hstep
    exact h4.trans hP
  · intro sts saveLocal s s1 hP hstep
    obtain ⟨_, _, _, _, h5, _⟩ := saveLocalStep_grows b env sts saveLocal s s1 hstep
    exact h5.trans hP
  · intro sts s s1 hP hstep
    obtain ⟨_, _, h3⟩ := ephemeralStep_grows b env sts s s1 hstep
    exact (congrArg Closure.mts h3).trans hP

/-- A property of the captured variables that every invocation keeps holds for the
variables every invocation of a solve starts from and for those the solve leaves. -/
theorem invokeAll_inv (f : Closure → Option (Result × Closure)) (P : Closure → Prop)
    (hP : ∀ c r c2, P c → f c = some (r, c2) → P c2) (n : Nat) :
    ∀ (c c2 : Closure) (rs : List Result), invokeAll f n c = some (rs, c2) → P c →
      P c2 ∧ ∀ r ∈ rs, ∃ c0 c1, P c0 ∧ f c0 = some (r, c1) := by
  induction n with
  | zero =>
    intro c c2 rs h hc
    simp only [invokeAll] at h
    split at h
    · exact absurd h (by simp)
    · rename_i res c1 hres
      simp only [Option.some.injEq, Prod.mk.injEq] at h
      obtain ⟨rfl, rfl⟩ := h
      refine ⟨hP _ _ _ hc hres, fun r hr => ?_⟩
      simp only [List.mem_singleton] at hr
      subst hr
      exact ⟨c, _, hc, hres⟩
  | succ n ih =>
    intro c c2 rs h hc
    simp only [invokeAll] at h
    split at h
    · exact absurd h (by simp)
    · rename_i res c1 hres
      split at h
      · exact absurd h (by simp)
      · rename_i rest c3 hrest
        simp only [Option.some.injEq, Prod.mk.injEq] at h
        obtain ⟨rfl, rfl⟩ := h
        obtain ⟨h1, h2⟩ := ih c1 c3 rest hrest (hP _ _ _ hc hres)
        refine ⟨h1, fun r hr => ?_⟩
        rcases List.mem_cons.1 hr with rfl | hr
        · exact ⟨c, _, hc, hres⟩
        · exact h2 r hr

theorem invokeAll_last (f : Closure → Option (Result × Closure)) (n : Nat) :
    ∀ (c c2 : Closure) (rs : List Result), invokeAll f n c = some (rs, c2) →
      ∃ c0 r, f c0 = some (r, c2) := by
  induction n with
  | zero =>
    intro c c2 rs h
    simp only [invokeAll] at h
    split at h
    · exact absurd h (by simp)
    · rename_i res c1 hres
      simp only [Option.some.injEq, Prod.mk.injEq] at h
      obtain ⟨rfl, rfl⟩ := h
      exact ⟨c, _, hres⟩
  | succ n ih =>
    intro c c2 rs h
    simp only [invokeAll] at h
    split at h
    · exact absurd h (by simp)
    · rename_i res c1 hres
      split at h
      · exact absurd h (by simp)
      · rename_i rest c3 hrest
        simp only [Option.some.injEq, Prod.mk.injEq] at h
        obtain ⟨rfl, rfl⟩ := h
        exact ih c1 c3 rest hrest

theorem convertAndBuild_merges {b : Builder} {env : Env} {opt : BuildOpt} {log : BuildLog}
    (h : convertAndBuild b env opt = some log) :
    log.manifestMerges = manifestGroups log.closure.manifestLists := by
  simp only [convertAndBuild] at h
  split at h
  · exact absurd h (by simp)
  · split at h
    · exact absurd h (by simp)
    · split at h
      · exact absurd h (by simp)
      · split at h
        · exact absurd h (by simp)
        · split at h
          · simp only [Option.some.injEq] at h
            subst h
            rfl
          · exact absurd h (by simp)

theorem manifestGroups_fst (lists : List (String × manifest)) :
    (manifestGroups lists).map Prod.fst = (lists.map Prod.fst).eraseDups := by
  simp [manifestGroups, List.map_map, Function.comp_def]

theorem manifestGroups_children (lists : List (String × manifest)) (tag : String)
    (children : List manifest) (h : (tag, children) ∈ manifestGroups lists) :
    children = (lists.filter fun e => e.1 == tag).map Prod.snd := by
  simp only [manifestGroups, List.mem_map, Prod.mk.injEq] at h
  obtain ⟨parent, _, rfl, rfl⟩ := h
  rfl

/-! ### Registration of an exported image of a multi-platform tag -/

theorem saveImageStep_manifestLists (b : Builder) (env : Env) (opt : BuildOpt)
    (multi : List String) (sts : SingleTarget) (isFinal : Bool) (saveImage : SaveImage)
    (s s1 : BfState) (h : saveImageStep b env opt multi sts isFinal saveImage s = some s1) :
    ∀ e ∈ s.c.manifestLists, e ∈ s1.c.manifestLists := by
  unfold saveImageStep at h
  simp only at h
  split at h
  · simp only [Option.some.injEq] at h
    subst h
    exact fun _ he => he
  · split at h
    · exact absurd h (by simp)
    · rename_i ref href
      split at h
      · exact absurd h (by simp)
      · rename_i config hconfig
        split at h
        · simp only [Option.some.injEq] at h
          subst h
          exact fun _ he => he
        · cases hp : shouldPush opt sts saveImage <;>
            cases hexp : shouldExport opt isFinal saveImage <;>
            simp only [hp, hexp, Bool.false_eq_true, if_false, if_true,
              Option.some.injEq] at h
          · subst h
            exact fun _ he => he
          · obtain ⟨_, name, _, _, hl⟩ := multiImageExport_entry _ _ _ _ _ _ _ _ h
            intro e he
            rw [hl]
            exact List.mem_append_left _ he
          · subst h
            exact fun _ he => he
          · obtain ⟨_, name, _, _, hl⟩ := multiImageExport_entry _ _ _ _ _ _ _ _ h
            intro e he
            rw [hl]
            exact List.mem_append_left _ he

theorem saveImageStep_registers (b : Builder) (env : Env) (opt : BuildOpt)
    (multi : List String) (sts : SingleTarget) (isFinal : Bool) (saveImage : SaveImage)
    (s s1 : BfState) (hmulti : saveImage.DockerTag ∈ multi)
    (hexp : shouldExport opt isFinal saveImage = true)
    (hdep : saveImage.HasPushDependencies = false)
    (h : saveImageStep b env opt multi sts isFinal saveImage s = some s1) :
    saveImage.DockerTag ∈ s1.c.manifestLists.map Prod.fst := by
  have hc : multi.contains saveImage.DockerTag = true := by
    simp only [List.contains, List.elem_eq_mem, decide_eq_true_eq]
    exact hmulti
  unfold saveImageStep at h
  simp only [hexp, hdep, hc, Bool.not_true, Bool.and_false, Bool.false_and, Bool.or_self,
    Bool.false_eq_true, if_false, if_true] at h
  split at h
  · exact absurd h (by simp)
  · split at h
    · exact absurd h (by simp)
    · obtain ⟨_, name, _, _, hl⟩ := multiImageExport_entry _ _ _ _ _ _ _ _ h
      rw [hl]
      simp

theorem bf_step_manifestLists (b : Builder) (env : Env) (opt : BuildOpt) (tag : String) :
    (∀ sts s s1, tag ∈ s.c.manifestLists.map Prod.fst → depStep b env sts s = some s1 →
      tag ∈ s1.c.manifestLists.map Prod.fst) ∧
    (∀ multi sts isFinal saveImage s s1, tag ∈ s.c.manifestLists.map Prod.fst →
      saveImageStep b env opt multi sts isFinal saveImage s = some s1 →
      tag ∈ s1.c.manifestLists.map Prod.fst) ∧
    (∀ sts saveLocal s s1, tag ∈ s.c.manifestLists.map Prod.fst →
      saveLocalStep b env sts saveLocal s = some s1 → tag ∈ s1.c.manifestLists.map Prod.fst) ∧
    (∀ sts s s1, tag ∈ s.c.manifestLists.map Prod.fst → ephemeralStep b env sts s = some s1 →
      tag ∈ s1.c.manifestLists.map Prod.fst) := by
  refine ⟨?_, ?_, ?_, ?_⟩
  · intro sts s s1 hP hstep
    obtain ⟨_, _, _, _, _, h6⟩ := depStep_grows b env sts s s1 hstep
    rw [h6]
    exact hP
  · intro multi sts isFinal saveImage s s1 hP hstep
    obtain ⟨e, he, rfl⟩ := List.mem_map.1 hP
    exact List.mem_map.2
      ⟨e, saveImageStep_manifestLists b env opt multi sts isFinal saveImage s s1 hstep e he, rfl⟩
  · intro sts saveLocal s s1 hP hstep
    obtain ⟨_, _, _, _, _, _, h7, _⟩ := saveLocalStep_grows b env sts saveLocal s s1 hstep
    rw [h7]
    exact hP
  · intro sts s s1 hP hstep
    obtain ⟨_, _, h3⟩ := ephemeralStep_grows b env sts s s1 hstep
    rw [h3]
    exact hP

theorem saveImagesLoop_registers (b : Builder) (env : Env) (opt : BuildOpt)
    (multi : List String) (sts : SingleTarget) (isFinal : Bool) (saveImage : SaveImage)
    (hmulti : saveImage.DockerTag ∈ multi)
    (hexp : shouldExport opt isFinal saveImage = true)
    (hdep : saveImage.HasPushDependencies = false) :
    ∀ (images : List SaveImage) (s s1 : BfState), saveImage ∈ images →
      saveImagesLoop b env opt multi sts isFinal images s = some s1 →
      saveImage.DockerTag ∈ s1.c.manifestLists.map Prod.fst := by
  intro images
  induction images with
  | nil => intro s s1 hm; exact absurd hm (by simp)
  | cons img rest ih =>
    intro s s1 hm h
    simp only [saveImagesLoop] at h
    split at h
    · exact absurd h (by simp)
    · rename_i s2 hstep
      rcases List.mem_cons.1 hm with rfl | hm
      · exact saveImagesLoop_preserves b env opt multi sts isFinal _
          (fun img s s1 hP hs =>
            (bf_step_manifestLists b env opt saveImage.DockerTag).2.1 multi sts isFinal img
              s s1 hP hs)
          rest s2 s1
          (saveImageStep_registers b env opt multi sts isFinal saveImage s s2 hmulti hexp hdep
            hstep) h
      · exact ih s2 s1 hm h

theorem targetsLoop_registers (b : Builder) (env : Env) (opt : BuildOpt)
    (multi : List String) (sts : SingleTarget) (isFinal : Bool) (saveImage : SaveImage)
    (hmulti : saveImage.DockerTag ∈ multi)
    (himg : saveImage ∈ b.targetPhaseImages sts)
    (hexp : shouldExport opt isFinal saveImage = true)
    (hdep : saveImage.HasPushDependencies = false) :
    ∀ (targets : List (SingleTarget × Bool)) (s s1 : BfState), (sts, isFinal) ∈ targets →
      targetsLoop b env opt multi targets s = some s1 →
      saveImage.DockerTag ∈ s1.c.manifestLists.map Prod.fst := by
  obtain ⟨m1, m2, m3, m4⟩ := bf_step_manifestLists b env opt saveImage.DockerTag
  intro targets
  induction targets with
  | nil => intro s s1 hm; exact absurd hm (by simp)
  | cons t rest ih =>
    intro s s1 hm h
    simp only [targetsLoop] at h
    split at h
    · exact absurd h (by simp)
    · rename_i s2 hstep
      rcases List.mem_cons.1 hm with rfl | hm
      · refine targetsLoop_preserves b env opt multi _ m1 (m2 multi) m3 m4 rest s2 s1 ?_ h
        simp only [targetStep] at hstep
        split at hstep
        · exact absurd hstep (by simp)
        · rename_i sa ha
          split at hstep
          · exact absurd hstep (by simp)
          · rename_i sb hb
            split at hstep
            · exact absurd hstep (by simp)
            · rename_i sc hc
              have hQb := saveImagesLoop_registers b env opt multi sts isFinal saveImage hmulti
                hexp hdep _ sa sb himg hb
              have hQc : saveImage.DockerTag ∈ sc.c.manifestLists.map Prod.fst := by
                split at hc
                · exact saveLocalsLoop_preserves b env sts _ (m3 sts) _ sb sc hQb hc
                · simp only [Option.some.injEq] at hc
                  exact hc ▸ hQb
              exact m4 sts sc s2 hQc hstep
      · exact ih s2 s1 hm h

theorem mem_AllTagged (mts : MultiTarget) (sts : SingleTarget) (h : sts ∈ mts.All) :
    ∃ isFinal, (sts, isFinal) ∈ mts.AllTagged := by
  simp only [MultiTarget.All, List.mem_append, List.mem_cons] at h
  simp only [MultiTarget.AllTagged, List.mem_append, List.mem_cons, List.mem_map,
    Prod.mk.injEq]
  rcases h with h | rfl | h
  · exact ⟨false, Or.inl ⟨sts, h, rfl, rfl⟩⟩
  · exact ⟨true, Or.inr (Or.inl ⟨rfl, rfl⟩)⟩
  · exact ⟨false, Or.inr (Or.inr ⟨sts, h, rfl, rfl⟩)⟩

/-- An invocation of `bf` keeps the parents of the manifest lists. -/
theorem bf_manifestLists (b : Builder) (env : Env) (opt : BuildOpt) (c c2 : Closure)
    (r : Result) (tag : String) (h : bf b env opt c = some (r, c2))
    (hc : tag ∈ c.manifestLists.map Prod.fst) : tag ∈ c2.manifestLists.map Prod.fst := by
  obtain ⟨m1, m2, m3, m4⟩ := bf_step_manifestLists b env opt tag
  exact bf_preserves b env opt c c2 r (fun s => tag ∈ s.c.manifestLists.map Prod.fst) h
    (fun _ _ _ _ => hc) m1 (fun mts sts isFinal img s s1 _ => m2 _ sts isFinal img s s1) m3 m4

/-- In full output mode, an invocation of `bf` in the build phase registers a platform
variant for a tag of `isMultiPlatform` that a target saves without push
dependencies. -/
theorem bf_registers (b : Builder) (env : Env) (opt : BuildOpt) (c c2 : Closure) (r : Result)
    (mts : MultiTarget) (sts : SingleTarget) (saveImage : SaveImage)
    (h : bf b env opt c = some (r, c2)) (hg : bfGraph b env c = some mts)
    (hb : b.builtMain = false)
    (hmulti : saveImage.DockerTag ∈ isMultiPlatform b mts.All)
    (hsts : sts ∈ mts.All) (himg : saveImage ∈ sts.SaveImages)
    (hout : opt.NoOutput = false) (hart : opt.OnlyArtifact = none)
    (hfin : opt.OnlyFinalTargetImages = false)
    (hne : saveImage.DockerTag ≠ "") (hsave : saveImage.DoSave = true)
    (hdep : saveImage.HasPushDependencies = false) :
    saveImage.DockerTag ∈ c2.manifestLists.map Prod.fst := by
  obtain ⟨isFinal, htagged⟩ := mem_AllTagged mts sts hsts
  have hexp : shouldExport opt isFinal saveImage = true := by
    simp [shouldExport, hout, hart, hfin, hne, hsave]
  have himg2 : saveImage ∈ b.targetPhaseImages sts := by
    simp only [Builder.targetPhaseImages, hb, Bool.false_eq_true, if_false]
    exact himg
  unfold bf at h
  rw [hg] at h
  simp only at h
  split at h
  · exact absurd h (by simp)
  · split at h
    · exact absurd h (by simp)
    · rename_i s hs
      simp only [Option.some.injEq, Prod.mk.injEq] at h
      obtain ⟨_, rfl⟩ := h
      exact targetsLoop_registers b env opt _ sts isFinal saveImage hmulti himg2 hexp hdep _ _ _
        htagged hs

/-! ### A tag saved for two platforms -/

theorem demoEnv_name_ne (mts : Option MultiTarget) (t : String) (p : Platform) :
    (demoEnv mts).platformSpecificImageName t p ≠ some "app:latest" := by
  intro h
  simp only [demoEnv, Option.some.injEq] at h
  have h1 : '_' ∈ (t ++ "_" ++ p.OS ++ "_" ++ p.Architecture).data := by
    simp [String.data_append]
  rw [h] at h1
  exact absurd h1 (by decide)

/-- C11: in a run of `convertAndBuild` on a graph in which a tag is saved by two targets
with distinct platforms, and with platform-specific names that differ from the tag, no
request of the build phase has an `image-N` entry that is named with the tag itself and
exported (`export-image` or `export-image-local-registry`); the same holds for the
requests of the push phase if a target with a platform saves the tag in its deferred
push phase too. The manifest-list merge is called for the tag once if a platform
variant was registered for it and not at all otherwise, with the registered variants in
the order of registration. In full output mode a variant is registered, and so the
merge is called exactly once, if a target saves the tag without push dependencies. -/
theorem multi_platform_tag_merged_at_most_once (b : Builder) (env : Env) (opt : BuildOpt)
    (log : BuildLog) (mts : MultiTarget) (tag : String)
    (hrun : convertAndBuild b env opt = some log)
    (hgraph : env.Earthfile2LLB = some mts)
    (hsaved : SavedForTwoPlatforms mts tag)
    (hname : ∀ t p, env.platformSpecificImageName t p ≠ some tag) :
    (∀ req ∈ log.requests, req.1 = PhaseBuild → ¬ ExportsAs req.2.Metadata tag) ∧
    (tag ∈ isMultiPlatform { b with builtMain := true } mts.All →
      ∀ req ∈ log.requests, ¬ ExportsAs req.2.Metadata tag) ∧
    (log.manifestMerges.map Prod.fst).count tag =
      (if tag ∈ log.closure.manifestLists.map Prod.fst then 1 else 0) ∧
    (∀ children, (tag, children) ∈ log.manifestMerges →
      children = (log.closure.manifestLists.filter fun e => e.1 == tag).map Prod.snd) ∧
    (opt.NoOutput = false → opt.OnlyArtifact = none → opt.OnlyFinalTargetImages = false →
      (∃ sts ∈ mts.All, ∃ saveImage ∈ sts.SaveImages, saveImage.DockerTag = tag ∧
        saveImage.DoSave = true ∧ saveImage.HasPushDependencies = false) →
      (log.manifestMerges.map Prod.fst).count tag = 1) := by
  have hb : b.builtMain = false := convertAndBuild_fresh hrun
  obtain ⟨buildRs, c1, pushReqs, o, hinv, _, hpush, _, hreq, _⟩ := convertAndBuild_inv hrun
  obtain ⟨hne, sts1, hsts1, _, _, p1, _, hp1, _, _, ⟨img1, himg1, htag1, hsave1⟩, _⟩ := hsaved
  have hgB : ∀ c, bfGraph b env c = some mts := by
    intro c
    simp [bfGraph, hb, hgraph]
  have hgP : ∀ c, bfGraph { b with builtMain := true } env c = c.mts := by
    intro c
    simp [bfGraph]
  have htagB : tag ∈ isMultiPlatform b mts.All := by
    refine (mem_isMultiPlatform b mts.All tag).2 ⟨sts1, hsts1, by simp [hp1], img1, ?_, htag1,
      hne, hsave1⟩
    simp only [Builder.targetPhaseImages, hb, Bool.false_eq_true, if_false]
    exact himg1
  have hbuild : ∀ r ∈ buildRs, ¬ ExportsAs r.Metadata tag := by
    intro r hr
    obtain ⟨c0, c2, hbf⟩ := invokeAll_mem _ _ _ _ _ hinv r hr
    exact bf_noExportAs b env opt c0 c2 r mts tag hbf (hgB c0) htagB hname
  have hc1 : c1.mts = some mts := by
    obtain ⟨c0, r, hbf⟩ := invokeAll_last _ _ _ _ _ hinv
    rw [bf_mts b env opt c0 c1 r hbf, hgB]
  have hcount : (log.manifestMerges.map Prod.fst).count tag =
      (if tag ∈ log.closure.manifestLists.map Prod.fst then 1 else 0) := by
    rw [convertAndBuild_merges hrun, manifestGroups_fst, count_eraseDups]
  have hpushCases := pushPhase_inv hpush
  refine ⟨?_, ?_, hcount, ?_, ?_⟩
  · intro req hreqm hphase
    rw [hreq] at hreqm
    rcases List.mem_append.1 hreqm with hm | hm
    · obtain ⟨r, hr, rfl⟩ := List.mem_map.1 hm
      exact hbuild r hr
    · rcases hpushCases with ⟨hnil, _⟩ | ⟨_, _, _, _, rs, _, hrs⟩
      · rw [hnil] at hm
        exact absurd hm (by simp)
      · rw [hrs] at hm
        obtain ⟨r, _, rfl⟩ := List.mem_map.1 hm
        have hphases : PhasePush ≠ PhaseBuild := by decide
        exact absurd hphase hphases
  · intro htagP req hreqm
    rw [hreq] at hreqm
    rcases List.mem_append.1 hreqm with hm | hm
    · obtain ⟨r, hr, rfl⟩ := List.mem_map.1 hm
      exact hbuild r hr
    · rcases hpushCases with ⟨hnil, _⟩ | ⟨_, _, _, _, rs, hinvP, hrs⟩
      · rw [hnil] at hm
        exact absurd hm (by simp)
      · rw [hrs] at hm
        obtain ⟨r, hr, rfl⟩ := List.mem_map.1 hm
        obtain ⟨_, hall⟩ := invokeAll_inv (bf { b with builtMain := true } env opt)
          (fun c => c.mts = some mts)
          (fun c r c2 hc hbf => by
            show c2.mts = some mts
            rw [bf_mts _ env opt c c2 r hbf, hgP]
            exact hc)
          _ _ _ _ hinvP hc1
        obtain ⟨c0, c2, hc0, hbf⟩ := hall r hr
        exact bf_noExportAs _ env opt c0 c2 r mts tag hbf ((hgP c0).trans hc0) htagP hname
  · intro children hch
    rw [convertAndBuild_merges hrun] at hch
    exact manifestGroups_children _ _ _ hch
  · rintro hout hart hfin ⟨sts, hsts, img, himg, htag, hsave, hdep⟩
    subst htag
    have hreg1 : img.DockerTag ∈ c1.manifestLists.map Prod.fst := by
      obtain ⟨c0, r, hbf⟩ := invokeAll_last _ _ _ _ _ hinv
      exact bf_registers b env opt c0 c1 r mts sts img hbf (hgB c0) hb htagB hsts himg hout hart
        hfin hne hsave hdep
    have hreg : img.DockerTag ∈ log.closure.manifestLists.map Prod.fst := by
      rcases hpushCases with ⟨_, hc⟩ | ⟨_, _, _, _, rs, hinvP, _⟩
      · rw [hc]
        exact hreg1
      · exact (invokeAll_inv (bf { b with builtMain := true } env opt)
          (fun c => img.DockerTag ∈ c.manifestLists.map Prod.fst)
          (fun c r c2 hc hbf => bf_manifestLists _ env opt c c2 r _ hbf hc)
          _ _ _ _ hinvP hreg1).1
    rw [hcount, if_pos hreg]

/-- Witness of C11: the run on `twoPlatformGraph` in full output mode exports both
variants under their platform-specific names and merges them once, in the order of
registration. -/
theorem multi_platform_tag_merged_at_most_once_witness :
    ∃ log, convertAndBuild {} (demoEnv (some twoPlatformGraph)) {} = some log ∧
      (∀ req ∈ log.requests, req.1 = PhaseBuild → ¬ ExportsAs req.2.Metadata "app:latest") ∧
      (log.manifestMerges.map Prod.fst).count "app:latest" = 1 ∧
      log.manifestMerges =
        [("app:latest",
          [{ imageName := "app:latest_linux_arm64",
             platform := { OS := "linux", Architecture := "arm64" } },
           { imageName := "app:latest_linux_amd64",
             platform := { OS := "linux", Architecture := "amd64" } }])] ∧
      log.requests.map (fun r => (r.1, r.2.keys, r.2.Metadata.take 2)) =
        [(PhaseBuild, ["main", "image-0", "image-1"],
          [("ref/image-0/export-image", "true"),
           ("ref/image-0/image.name", "app:latest_linux_arm64")])] :=
  ⟨_, rfl,
    (multi_platform_tag_merged_at_most_once {} (demoEnv (some twoPlatformGraph)) {} _
      twoPlatformGraph "app:latest" rfl rfl
      ⟨by decide,
        { Target := { Name := "+arm" }, MainState := { id := "arm" },
          Platform := some { OS := "linux", Architecture := "arm64" },
          SaveImages := [{ State := { id := "img-arm" }, DockerTag := "app:latest",
                           Push := true }] },
        by decide, twoPlatformGraph.Final, by decide,
        { OS := "linux", Architecture := "arm64" }, { OS := "linux", Architecture := "amd64" },
        rfl, rfl, by decide,
        ⟨{ State := { id := "img-arm" }, DockerTag := "app:latest", Push := true }, by decide,
          rfl, rfl⟩,
        ⟨{ State := { id := "img-amd" }, DockerTag := "app:latest", Push := true }, by decide,
          rfl, rfl⟩⟩
      (demoEnv_name_ne _)).1,
    by decide, by decide, by decide⟩

/-- C11, as stated, fails. With output suppressed and push enabled, both variants of
`app:latest` of `twoPlatformGraph` are pushed and no manifest-list merge is called. On
`pushPhaseTagGraph`, where the final target has no platform and saves `app:latest` in
its deferred push phase, the request of the push phase has the entry `image-2` that is
named `app:latest` and exported. On `clashGraph`, where `app:latest_linux_amd64` is
saved for two platforms and is also the platform-specific name of `app:latest` for
`linux/amd64`, the request of the build phase has the entry `image-2` that is named
`app:latest_linux_amd64` and exported. -/
theorem multi_platform_tag_without_merge_or_exported_directly :
    (∃ log, convertAndBuild {} (demoEnv (some twoPlatformGraph))
        { NoOutput := true, Push := true } = some log ∧
      log.requests.map (fun r => (r.1, r.2.keys)) =
        [(PhaseBuild, ["main", "image-0", "image-1"])] ∧
      log.manifestMerges = []) ∧
    (∃ log, convertAndBuild {} (demoEnv (some pushPhaseTagGraph)) { Push := true } = some log ∧
      ∃ req, log.requests[1]? = some req ∧ req.1 = PhasePush ∧
        req.2.keys = ["dep-0", "image-2"] ∧
        ("ref/image-2/image.name", "app:latest") ∈ req.2.Metadata ∧
        ("ref/image-2/export-image", "true") ∈ req.2.Metadata ∧
        ExportsAs req.2.Metadata "app:latest") ∧
    (SavedForTwoPlatforms clashGraph "app:latest_linux_amd64" ∧
      (demoEnv (some clashGraph)).platformSpecificImageName "app:latest"
        { OS := "linux", Architecture := "amd64" } = some "app:latest_linux_amd64" ∧
      ∃ log, convertAndBuild {} (demoEnv (some clashGraph)) {} = some log ∧
        ∃ req, log.requests[0]? = some req ∧ req.1 = PhaseBuild ∧
          req.2.keys = ["main", "image-0", "image-1", "image-2"] ∧
          ("ref/image-2/image.name", "app:latest_linux_amd64") ∈ req.2.Metadata ∧
          ("ref/image-2/export-image", "true") ∈ req.2.Metadata ∧
          ExportsAs req.2.Metadata "app:latest_linux_amd64") :=
  ⟨⟨_, rfl, by decide, by decide⟩,
    ⟨_, rfl, _, rfl, rfl, by decide, by decide, by decide,
      ⟨2, by decide, "true", Or.inl (by decide)⟩⟩,
    ⟨by decide,
      { Target := { Name := "+arm" }, MainState := { id := "arm" },
        Platform := some { OS := "linux", Architecture := "arm64" },
        SaveImages := [{ State := { id := "img-arm" },
                         DockerTag := "app:latest_linux_amd64" }] },
      by decide,
      { Target := { Name := "+amd" }, MainState := { id := "amd" },
        Platform := some { OS := "linux", Architecture := "amd64" },
        SaveImages := [{ State := { id := "img-amd" },
                         DockerTag := "app:latest_linux_amd64" }] },
      by decide,
      { OS := "linux", Architecture := "arm64" }, { OS := "linux", Architecture := "amd64" },
      rfl, rfl, by decide,
      ⟨{ State := { id := "img-arm" }, DockerTag := "app:latest_linux_amd64" }, by decide,
        rfl, rfl⟩,
      ⟨{ State := { id := "img-amd" }, DockerTag := "app:latest_linux_amd64" }, by decide,
        rfl, rfl⟩⟩,
    by decide,
    ⟨_, rfl, _, rfl, rfl, by decide, by decide, by decide,
      ⟨2, by decide, "true", Or.inl (by decide)⟩⟩⟩

/-! ### The index metadata of the entries of a request -/

/-- The metadata key of a `dir-N` entry determines the number and the field. -/
theorem dirMeta_inj {n m : Nat} {x y : String} (hx : x.data.head? = some '/')
    (hy : y.data.head? = some '/')
    (h : "ref/" ++ ("dir-" ++ toString n) ++ x = "ref/" ++ ("dir-" ++ toString m) ++ y) :
    n = m ∧ x = y := by
  have h1 := congrArg String.data h
  simp only [String.data_append, List.append_assoc, List.append_cancel_left_eq] at h1
  obtain ⟨xs, hxs⟩ : ∃ xs, x.data = '/' :: xs := by
    cases hd : x.data with
    | nil => simp [hd] at hx
    | cons c cs =>
      simp only [hd, List.head?_cons, Option.some.injEq] at hx
      exact ⟨cs, by rw [hx]⟩
  obtain ⟨ys, hys⟩ : ∃ ys, y.data = '/' :: ys := by
    cases hd : y.data with
    | nil => simp [hd] at hy
    | cons c cs =>
      simp only [hd, List.head?_cons, Option.some.injEq] at hy
      exact ⟨cs, by rw [hy]⟩
  rw [hxs, hys] at h1
  obtain ⟨h2, h3⟩ := append_slash_inj _ _ _ _ (toString_nat_no_slash n)
    (toString_nat_no_slash m) h1
  exact ⟨toString_nat_inj (String.ext h2), String.ext (by rw [hxs, hys, h3])⟩

/-- An iteration that registers `image-i` with fields of that entry, among them
`image-index` with the value `i + 1` only, keeps `IndexMetadata`. -/
theorem IndexMetadata.image_entry_step {res res1 : Result} {i : Nat}
    (hk : res1.keys = res.keys ++ ["image-" ++ toString i])
    (hblock : ImageBlock i
      (fun e => e.1 = "ref/" ++ ("image-" ++ toString i) ++ "/image-index" →
        e.2 = toString (i + 1)) res.Metadata res1.Metadata)
    (hmem : ("ref/" ++ ("image-" ++ toString i) ++ "/image-index", toString (i + 1)) ∈
      res1.Metadata)
    (h : IndexMetadata res) : IndexMetadata res1 := by
  obtain ⟨e1, u1, e2, u2⟩ := h
  obtain ⟨added, hM, hadded⟩ := hblock
  have hold : ∀ e ∈ res.Metadata, e ∈ res1.Metadata := fun e he => by
    rw [hM]
    exact List.mem_append_left _ he
  refine ⟨?_, ?_, ?_, ?_⟩
  · intro n hn
    rw [hk] at hn
    rcases List.mem_append.1 hn with hn | hn
    · exact hold _ (e1 n hn)
    · simp only [List.mem_singleton] at hn
      have := imageKey_inj hn
      subst this
      exact hmem
  · intro n v hv
    rw [hM] at hv
    rcases List.mem_append.1 hv with hv | hv
    · exact u1 n v hv
    · obtain ⟨⟨x, hx, hkey⟩, hP⟩ := hadded _ hv
      obtain ⟨rfl, _⟩ := imageMeta_inj (by rfl) hx hkey
      exact hP rfl
  · intro n hn
    rw [hk] at hn
    rcases List.mem_append.1 hn with hn | hn
    · exact hold _ (e2 n hn)
    · simp only [List.mem_singleton] at hn
      exact absurd hn (keys_ne.2.2.2.2.2 _ _)
  · intro n v hv
    rw [hM] at hv
    rcases List.mem_append.1 hv with hv | hv
    · exact u2 n v hv
    · obtain ⟨⟨x, _, hkey⟩, _⟩ := hadded _ hv
      exact absurd hkey (dir_key_ne_image_key n i _ x)

/-- An iteration that registers a reference under a key that is neither `image-N` nor
`dir-N`, or none, and adds no metadata keeps `IndexMetadata`. -/
theorem IndexMetadata.ref_step {res res1 : Result}
    (hk : ∀ k ∈ res1.keys, k ∈ res.keys ∨
      ((∀ n : Nat, k ≠ "image-" ++ toString n) ∧ ∀ n : Nat, k ≠ "dir-" ++ toString n))
    (hM : res1.Metadata = res.Metadata)
    (h : IndexMetadata res) : IndexMetadata res1 := by
  obtain ⟨e1, u1, e2, u2⟩ := h
  refine ⟨?_, ?_, ?_, ?_⟩
  · intro n hn
    rw [hM]
    rcases hk _ hn with hn | ⟨hne, _⟩
    · exact e1 n hn
    · exact absurd rfl (hne n)
  · intro n v hv
    rw [hM] at hv
    exact u1 n v hv
  · intro n hn
    rw [hM]
    rcases hk _ hn with hn | ⟨_, hne⟩
    · exact e2 n hn
    · exact absurd rfl (hne n)
  · intro n v hv
    rw [hM] at hv
    exact u2 n v hv

theorem singleImage_index (b : Builder) (env : Env) (doPush doExport : Bool)
    (saveImage : SaveImage) (ref : Reference) (config : String) (s : BfState)
    (h : IndexMetadata s.res) :
    IndexMetadata (singleImage b env doPush doExport saveImage ref config s).res := by
  refine IndexMetadata.image_entry_step (singleImage_entry b env doPush doExport saveImage ref config
    s).1 ?_ ?_ h
  · unfold singleImage
    simp only
    refine ImageBlock.addRef ?_
    refine ImageBlock.addMeta ?_ rfl (fun _ => rfl)
    refine ImageBlock.addConfig ?_ (fun h => absurd h (config_key_ne _ _ (by decide)))
    have hname : ImageBlock s.c.imageIndex
        (fun e => e.1 = "ref/" ++ ("image-" ++ toString s.c.imageIndex) ++ "/image-index" →
          e.2 = toString (s.c.imageIndex + 1))
        s.res.Metadata
        ((if doExport = true then
            if (b.opt.LocalRegistryAddr != "") = true then
              s.res.AddMeta
                ("ref/" ++ ("image-" ++ toString s.c.imageIndex) ++
                  "/export-image-local-registry")
                ("sess-" ++ env.SessionID ++ "/sp:img" ++ toString (s.c.imageIndex + 1))
            else
              s.res.AddMeta
                ("ref/" ++ ("image-" ++ toString s.c.imageIndex) ++ "/export-image") "true"
          else s.res).AddMeta
            ("ref/" ++ ("image-" ++ toString s.c.imageIndex) ++ "/image.name")
            saveImage.DockerTag).Metadata := by
      refine ImageBlock.addMeta ?_ rfl (fun h => absurd h (suffix_ne (by decide)))
      split
      · split
        · exact ImageBlock.addMeta (ImageBlock.empty _ _ _) rfl
            (fun h => absurd h (suffix_ne (by decide)))
        · exact ImageBlock.addMeta (ImageBlock.empty _ _ _) rfl
            (fun h => absurd h (suffix_ne (by decide)))
      · exact ImageBlock.empty _ _ _
    split
    · refine ImageBlock.addMetaIf ?_ rfl (fun h => absurd h (suffix_ne (by decide)))
      exact ImageBlock.addMeta hname rfl (fun h => absurd h (suffix_ne (by decide)))
    · exact hname
  · simp [singleImage, Metadata_AddMeta, Metadata_AddRef]

theorem multiImagePush_index (platformStr : String) (saveImage : SaveImage)
    (ref : Reference) (config : String) (s : BfState) (h : IndexMetadata s.res) :
    IndexMetadata (multiImagePush platformStr saveImage ref config s).res := by
  refine IndexMetadata.image_entry_step (i := s.c.imageIndex) ?_ ?_ ?_ h
  · simp [multiImagePush, Result.keys, Refs_AddRef, Refs_AddMeta, Refs_AddMetaIf]
  · unfold multiImagePush
    simp only
    refine ImageBlock.addRef ?_
    refine ImageBlock.addMeta ?_ rfl (fun _ => rfl)
    refine ImageBlock.addConfig ?_ (fun h => absurd h (config_key_ne _ _ (by decide)))
    refine ImageBlock.addMetaIf ?_ rfl (fun h => absurd h (suffix_ne (by decide)))
    refine ImageBlock.addMeta ?_ rfl (fun h => absurd h (suffix_ne (by decide)))
    refine ImageBlock.addMeta ?_ rfl (fun h => absurd h (suffix_ne (by decide)))
    exact ImageBlock.addMeta (ImageBlock.empty _ _ _) rfl
      (fun h => absurd h (suffix_ne (by decide)))
  · simp [multiImagePush, Metadata_AddMeta, Metadata_AddRef]

theorem multiImageExport_index (b : Builder) (env : Env) (platform : Platform)
    (saveImage : SaveImage) (ref : Reference) (config : String) (s s1 : BfState)
    (h : multiImageExport b env platform saveImage ref config s = some s1)
    (hs : IndexMetadata s.res) : IndexMetadata s1.res := by
  unfold multiImageExport at h
  simp only at h
  split at h
  · exact absurd h (by simp)
  · split at h
    · exact absurd h (by simp)
    · simp only [Option.some.injEq] at h
      subst h
      refine IndexMetadata.image_entry_step (i := s.c.imageIndex) ?_ ?_ ?_ hs
      · simp [Result.keys, Refs_AddRef, Refs_AddMeta, Refs_ite]
      · simp only
        refine ImageBlock.addRef ?_
        refine ImageBlock.addMeta ?_ rfl (fun _ => rfl)
        refine ImageBlock.addConfig ?_ (fun h => absurd h (config_key_ne _ _ (by decide)))
        refine ImageBlock.addMeta ?_ rfl (fun h => absurd h (suffix_ne (by decide)))
        split
        · exact ImageBlock.addMeta (ImageBlock.empty _ _ _) rfl
            (fun h => absurd h (suffix_ne (by decide)))
        · exact ImageBlock.addMeta (ImageBlock.empty _ _ _) rfl
            (fun h => absurd h (suffix_ne (by decide)))
      · simp [Metadata_AddMeta, Metadata_AddRef]

theorem saveImageStep_index (b : Builder) (env : Env) (opt : BuildOpt) (multi : List String)
    (sts : SingleTarget) (isFinal : Bool) (saveImage : SaveImage) (s s1 : BfState)
    (hs : IndexMetadata s.res)
    (h : saveImageStep b env opt multi sts isFinal saveImage s = some s1) :
    IndexMetadata s1.res := by
  unfold saveImageStep at h
  simp only at h
  split at h
  · simp only [Option.some.injEq] at h
    exact h ▸ hs
  · split at h
    · exact absurd h (by simp)
    · rename_i ref href
      split at h
      · exact absurd h (by simp)
      · rename_i config hconfig
        split at h
        · simp only [Option.some.injEq] at h
          subst h
          exact singleImage_index b env _ _ saveImage ref config s hs
        · have hpush := multiImagePush_index (env.PlatformWithDefaultToString sts.Platform)
            saveImage ref config s hs
          cases hp : shouldPush opt sts saveImage <;>
            cases hexp : shouldExport opt isFinal saveImage <;>
            simp only [hp, hexp, Bool.false_eq_true, if_false, if_true,
              Option.some.injEq] at h
          · exact h ▸ hs
          · exact multiImageExport_index b env _ saveImage ref config s s1 h hs
          · exact h ▸ hpush
          · exact multiImageExport_index b env _ saveImage ref config _ s1 h hpush

theorem saveLocalStep_index (b : Builder) (env : Env) (sts : SingleTarget)
    (saveLocal : SaveLocal) (s s1 : BfState) (hs : IndexMetadata s.res)
    (h : saveLocalStep b env sts saveLocal s = some s1) : IndexMetadata s1.res := by
  unfold saveLocalStep at h
  split at h
  · exact absurd h (by simp)
  · split at h
    · exact absurd h (by simp)
    · rename_i state _ ref _
      simp only [Option.some.injEq] at h
      subst h
      obtain ⟨e1, u1, e2, u2⟩ := hs
      have hkeys : ∀ k, k ∈ ((((((s.res.AddRef ("dir-" ++ toString s.c.dirIndex) ref).AddMeta
          ("ref/" ++ ("dir-" ++ toString s.c.dirIndex) ++ "/artifact")
          (env.ArtifactString { Target := sts.Target, Artifact := saveLocal.ArtifactPath })).AddMeta
          ("ref/" ++ ("dir-" ++ toString s.c.dirIndex) ++ "/src-path")
          saveLocal.ArtifactPath).AddMeta
          ("ref/" ++ ("dir-" ++ toString s.c.dirIndex) ++ "/dest-path") saveLocal.DestPath).AddMeta
          ("ref/" ++ ("dir-" ++ toString s.c.dirIndex) ++ "/export-dir") "true").AddMeta
          ("ref/" ++ ("dir-" ++ toString s.c.dirIndex) ++ "/dir-index")
          (toString s.c.dirIndex)).keys ↔
          k ∈ s.res.keys ∨ k = "dir-" ++ toString s.c.dirIndex := by
        intro k
        simp [Result.keys, Refs_AddRef, Refs_AddMeta]
      have hmeta : ∀ e, e ∈ ((((((s.res.AddRef ("dir-" ++ toString s.c.dirIndex) ref).AddMeta
          ("ref/" ++ ("dir-" ++ toString s.c.dirIndex) ++ "/artifact")
          (env.ArtifactString { Target := sts.Target, Artifact := saveLocal.ArtifactPath })).AddMeta
          ("ref/" ++ ("dir-" ++ toString s.c.dirIndex) ++ "/src-path")
          saveLocal.ArtifactPath).AddMeta
          ("ref/" ++ ("dir-" ++ toString s.c.dirIndex) ++ "/dest-path") saveLocal.DestPath).AddMeta
          ("ref/" ++ ("dir-" ++ toString s.c.dirIndex) ++ "/export-dir") "true").AddMeta
          ("ref/" ++ ("dir-" ++ toString s.c.dirIndex) ++ "/dir-index")
          (toString s.c.dirIndex)).Metadata ↔
          e ∈ s.res.Metadata ∨
          e = ("ref/" ++ ("dir-" ++ toString s.c.dirIndex) ++ "/artifact",
            env.ArtifactString { Target := sts.Target, Artifact := saveLocal.ArtifactPath }) ∨
          e = ("ref/" ++ ("dir-" ++ toString s.c.dirIndex) ++ "/src-path",
            saveLocal.ArtifactPath) ∨
          e = ("ref/" ++ ("dir-" ++ toString s.c.dirIndex) ++ "/dest-path",
            saveLocal.DestPath) ∨
          e = ("ref/" ++ ("dir-" ++ toString s.c.dirIndex) ++ "/export-dir", "true") ∨
          e = ("ref/" ++ ("dir-" ++ toString s.c.dirIndex) ++ "/dir-index",
            toString s.c.dirIndex) := by
        intro e
        simp only [Metadata_AddMeta, Metadata_AddRef, List.mem_append, List.mem_singleton]
        tauto
      refine ⟨?_, ?_, ?_, ?_⟩
      · intro n hn
        rcases (hkeys _).1 hn with hn | hn
        · exact (hmeta _).2 (Or.inl (e1 n hn))
        · exact absurd hn (keys_ne.2.2.2.1 _ _)
      · intro n v hv
        rcases (hmeta _).1 hv with hv | hv | hv | hv | hv | hv
        · exact u1 n v hv
        all_goals
          exact absurd (Prod.mk.inj hv).1.symm (dir_key_ne_image_key _ n _ _)
      · intro n hn
        rcases (hkeys _).1 hn with hn | hn
        · exact (hmeta _).2 (Or.inl (e2 n hn))
        · have := dirKey_inj hn
          subst this
          exact (hmeta _).2 (Or.inr (Or.inr (Or.inr (Or.inr (Or.inr rfl)))))
      · intro n v hv
        rcases (hmeta _).1 hv with hv | hv | hv | hv | hv | hv
        · exact u2 n v hv
        · exact absurd (dirMeta_inj (by rfl) (by rfl) (Prod.mk.inj hv).1).2 (by decide)
        · exact absurd (dirMeta_inj (by rfl) (by rfl) (Prod.mk.inj hv).1).2 (by decide)
        · exact absurd (dirMeta_inj (by rfl) (by rfl) (Prod.mk.inj hv).1).2 (by decide)
        · exact absurd (dirMeta_inj (by rfl) (by rfl) (Prod.mk.inj hv).1).2 (by decide)
        · obtain ⟨h1, h2⟩ := Prod.mk.inj hv
          rw [h2, (dirMeta_inj (by rfl) (by rfl) h1).1]

theorem depStep_index (b : Builder) (env : Env) (sts : SingleTarget) (s s1 : BfState)
    (hs : IndexMetadata s.res) (h : depStep b env sts s = some s1) : IndexMetadata s1.res := by
  unfold depStep at h
  split at h
  · split at h
    · exact absurd h (by simp)
    · simp only [Option.some.injEq] at h
      subst h
      refine @IndexMetadata.ref_step s.res _ ?_ rfl hs
      intro k hk
      simp only [Result.keys, Refs_AddRef, List.map_append, List.map_cons, List.map_nil,
        List.mem_append, List.mem_singleton] at hk
      rcases hk with hk | rfl
      · exact Or.inl hk
      · exact Or.inr ⟨fun n => keys_ne.1 _ _, fun n => keys_ne.2.1 _ _⟩
  · simp only [Option.some.injEq] at h
    exact h ▸ hs

theorem ephemeralStep_index (b : Builder) (env : Env) (sts : SingleTarget) (s s1 : BfState)
    (hs : IndexMetadata s.res) (h : ephemeralStep b env sts s = some s1) :
    IndexMetadata s1.res := by
  unfold ephemeralStep at h
  simp only at h
  split at h
  · split at h
    · exact absurd h (by simp)
    · simp only [Option.some.injEq] at h
      subst h
      refine @IndexMetadata.ref_step s.res _ ?_ rfl hs
      intro k hk
      simp only [Result.keys, Refs_AddRef, List.map_append, List.map_cons, List.map_nil,
        List.mem_append, List.mem_singleton] at hk
      rcases hk with hk | rfl
      · exact Or.inl hk
      · exact Or.inr ⟨fun n e => (numbered_ne_fixed _).2.1.2.2 e.symm,
          fun n e => (numbered_ne_fixed _).2.2.2.2 e.symm⟩
  · simp only [Option.some.injEq] at h
    exact h ▸ hs

theorem bfHead_index (b : Builder) (env : Env) (opt : BuildOpt) (mts : MultiTarget)
    (res : Result) (h : bfHead b env opt mts = some res) : IndexMetadata res := by
  have hfacts : (∀ k ∈ res.keys, k = "main" ∨ k = "final-artifact") ∧
      ∀ e ∈ res.Metadata, ∃ x, e.1 = "ref/" ++ "final-artifact" ++ x := by
    unfold bfHead at h
    simp only at h
    split at h
    · exact absurd h (by simp)
    · rename_i res0 hres0
      have h0 : res0.Metadata = [] ∧ ∀ k ∈ res0.keys, k = "main" := by
        split at hres0
        · cases hr : b.stateToRef env mts.Final.MainState mts.Final.Platform with
          | none => simp [hr] at hres0
          | some ref =>
            simp only [hr, Option.map_some', Option.some.injEq] at hres0
            subst hres0
            exact ⟨rfl, by simp [Result.keys, Refs_AddRef]⟩
        · simp only [Option.some.injEq] at hres0
          subst hres0
          exact ⟨rfl, by simp [Result.keys]⟩
      split at h
      · split at h
        · exact absurd h (by simp)
        · simp only [Option.some.injEq] at h
          subst h
          constructor
          · intro k hk
            simp only [Result.keys, Refs_AddRef, Refs_AddMeta, List.map_append, List.map_cons,
              List.map_nil, List.mem_append, List.mem_singleton] at hk
            rcases hk with hk | rfl
            · exact Or.inl (h0.2 k hk)
            · exact Or.inr rfl
          · intro e he
            simp only [Metadata_AddMeta, Metadata_AddRef, h0.1, List.nil_append,
              List.cons_append, List.mem_cons, List.mem_singleton, List.not_mem_nil,
              or_false] at he
            rcases he with rfl | rfl
            · exact ⟨_, rfl⟩
            · exact ⟨_, rfl⟩
      · simp only [Option.some.injEq] at h
        subst h
        exact ⟨fun k hk => Or.inl (h0.2 k hk), fun e he => by simp [h0.1] at he⟩
  obtain ⟨hk, hm⟩ := hfacts
  have hne1 : ∀ (n : Nat) (x y : String),
      "ref/" ++ "final-artifact" ++ x ≠ "ref/" ++ ("image-" ++ toString n) ++ y := by
    intro n x y e
    have := congrArg String.data e
    simp [String.data_append] at this
  have hne2 : ∀ (n : Nat) (x y : String),
      "ref/" ++ "final-artifact" ++ x ≠ "ref/" ++ ("dir-" ++ toString n) ++ y := by
    intro n x y e
    have := congrArg String.data e
    simp [String.data_append] at this
  refine ⟨?_, ?_, ?_, ?_⟩
  · intro n hn
    rcases hk _ hn with e | e
    · exact absurd e (numbered_ne_fixed _).2.1.1
    · exact absurd e (numbered_ne_fixed _).2.1.2.1
  · intro n v hv
    obtain ⟨x, hx⟩ := hm _ hv
    exact absurd hx.symm (hne1 n x _)
  · intro n hn
    rcases hk _ hn with e | e
    · exact absurd e (numbered_ne_fixed _).2.2.1
    · exact absurd e (numbered_ne_fixed _).2.2.2.1
  · intro n v hv
    obtain ⟨x, hx⟩ := hm _ hv
    exact absurd hx.symm (hne2 n x _)

/-- C22: in a request that `bf` constructs, every registered `dir-N` reference has the
metadata `dir-index` with the value `N`, and every registered `image-N` reference has
the metadata `image-index` with the value `N + 1`, the counter after its increment;
neither key has another value. -/
theorem bf_index_metadata (b : Builder) (env : Env) (opt : BuildOpt) (c c2 : Closure)
    (r : Result) (h : bf b env opt c = some (r, c2)) :
    (∀ n : Nat, "dir-" ++ toString n ∈ r.keys →
      ("ref/" ++ ("dir-" ++ toString n) ++ "/dir-index", toString n) ∈ r.Metadata ∧
      ∀ v, ("ref/" ++ ("dir-" ++ toString n) ++ "/dir-index", v) ∈ r.Metadata →
        v = toString n) ∧
    (∀ n : Nat, "image-" ++ toString n ∈ r.keys →
      ("ref/" ++ ("image-" ++ toString n) ++ "/image-index", toString (n + 1)) ∈ r.Metadata ∧
      ∀ v, ("ref/" ++ ("image-" ++ toString n) ++ "/image-index", v) ∈ r.Metadata →
        v = toString (n + 1)) := by
  have hinv : IndexMetadata r :=
    bf_preserves b env opt c c2 r (fun s => IndexMetadata s.res) h
      (fun mts res _ hres => bfHead_index b env opt mts res hres)
      (fun sts s s1 hP hstep => depStep_index b env sts s s1 hP hstep)
      (fun _ sts isFinal saveImage s s1 _ hP hstep =>
        saveImageStep_index b env opt _ sts isFinal saveImage s s1 hP hstep)
      (fun sts saveLocal s s1 hP hstep => saveLocalStep_index b env sts saveLocal s s1 hP hstep)
      (fun sts s s1 hP hstep => ephemeralStep_index b env sts s s1 hP hstep)
  obtain ⟨e1, u1, e2, u2⟩ := hinv
  exact ⟨fun n hn => ⟨e2 n hn, u2 n⟩, fun n hn => ⟨e1 n hn, u1 n⟩⟩

/-- Witness of C22: the request for `imageAndLocalGraph` registers `image-0` with
`image-index` 1 and `dir-0` with `dir-index` 0. -/
theorem bf_index_metadata_witness :
    ∃ p, bf {} (demoEnv (some imageAndLocalGraph)) {} {} = some p ∧
      p.1.keys = ["main", "image-0", "dir-0"] ∧
      ("ref/dir-0/dir-index", "0") ∈ p.1.Metadata ∧
      ("ref/image-0/image-index", "1") ∈ p.1.Metadata ∧
      ∀ v, ("ref/image-0/image-index", v) ∈ p.1.Metadata → v = "1" :=
  ⟨_, rfl, by decide,
    ((bf_index_metadata {} (demoEnv (some imageAndLocalGraph)) {} {} _ _ rfl).1 0
      (by decide)).1,
    ((bf_index_metadata {} (demoEnv (some imageAndLocalGraph)) {} {} _ _ rfl).2 0
      (by decide)).1,
    ((bf_index_metadata {} (demoEnv (some imageAndLocalGraph)) {} {} _ _ rfl).2 0
      (by decide)).2⟩

/-- C22, as stated, fails: the request for `noPlatformGraph` registers `image-0`, whose
metadata `image-index` is 1 and not 0. -/
theorem image_index_is_one_above_key :
    ∃ p, bf {} (demoEnv (some noPlatformGraph)) {} {} = some p ∧
      p.1.keys = ["main", "image-0"] ∧
      ("ref/image-0/image-index", "1") ∈ p.1.Metadata ∧
      ("ref/image-0/image-index", "0") ∉ p.1.Metadata :=
  ⟨_, rfl, by decide, by decide, by decide⟩

/-! ### Copies of a factory -/

/-- C21, at the failing input: the copy of a factory with the shared key hint `k` has
the name and the options of the factory and an empty shared key hint. In general `Copy`
keeps the name and the options, in order, and returns an empty shared key hint, so that
`WithInclude` after `WithSharedKeyHint` keeps the option of the hint and loses the
field: the factory is then constructed under the cache key of factories without a
hint. -/
theorem Copy_drops_shared_key_hint :
    ({ name := "context", sharedKeyHint := "k",
       opts := [LocalOption.SharedKeyHint "k"] } : LocalFactory).Copy =
      { name := "context", sharedKeyHint := "", opts := [LocalOption.SharedKeyHint "k"] } ∧
    (({ name := "context" } : LocalFactory).WithSharedKeyHint "k").WithInclude ["src"] =
      { name := "context", sharedKeyHint := "",
        opts := [LocalOption.SharedKeyHint "k", LocalOption.IncludePatterns ["src"]] } ∧
    (((({ name := "context" } : LocalFactory).WithSharedKeyHint "k").WithInclude
        ["src"]).Construct []).2 =
      [("", PState.Local "context"
        [LocalOption.SharedKeyHint "k", LocalOption.IncludePatterns ["src"]])] ∧
    (∀ f : LocalFactory,
      f.Copy.name = f.name ∧ f.Copy.opts = f.opts ∧ f.Copy.sharedKeyHint = "") ∧
    (∀ (f : LocalFactory) (patterns : List String),
      f.WithInclude patterns =
        { name := f.name, sharedKeyHint := "",
          opts := f.opts ++ [LocalOption.IncludePatterns patterns] }) ∧
    (∀ (f : LocalFactory) (key : String),
      f.WithSharedKeyHint key =
        { name := f.name, sharedKeyHint := key,
          opts := f.opts ++ [LocalOption.SharedKeyHint key] }) ∧
    (∀ (f : LocalFactory) (key : String) (patterns : List String),
      (f.WithSharedKeyHint key).WithInclude patterns =
        { name := f.name, sharedKeyHint := "",
          opts := f.opts ++ [LocalOption.SharedKeyHint key] ++
            [LocalOption.IncludePatterns patterns] }) := by
  refine ⟨by decide, by decide, by decide, ?_, ?_, ?_, ?_⟩
  · intro f
    rw [LocalFactory.Copy_eq]
    exact ⟨rfl, rfl, rfl⟩
  · intro f patterns
    simp [LocalFactory.WithInclude, LocalFactory.Copy_eq]
  · intro f key
    simp [LocalFactory.WithSharedKeyHint, LocalFactory.Copy_eq]
  · intro f key patterns
    simp [LocalFactory.WithInclude, LocalFactory.WithSharedKeyHint, LocalFactory.Copy_eq]

end Earthly
